import Mathlib

/-!
# Motherboard EEPROM codec (`host/lib/usrp/mboard_eeprom.cpp`)

A shallow embedding of the N100 / B000 / E100 load and store routines and of
the two ASCII helpers they share, followed by the properties established for
them.

Conventions of the embedding:
* a byte is a natural number below 256; `byte_vector_t` and `std::string`
  are lists of bytes;
* `size_t` arithmetic is taken modulo `2^64` where it can wrap;
* C++ exceptions are values of `Error`; a load routine returns `Except`, a
  store routine returns the exception together with the bus as it stood when
  the exception was thrown;
* library calls whose code is not in the translation unit (`boost::lexical_cast`
  parsers, MAC and IPv4 text formats, host byte order) are the fields of `Ext`,
  over which every general statement is quantified.
-/

namespace uhd

/-- Bytes of a `byte_vector_t` (`std::vector<boost::uint8_t>`). -/
abbrev byte_vector_t := List Nat

/-- Bytes of a `std::string`. -/
abbrev Str := List Nat

/-- Bytes of a string literal of the sources. -/
def lit (s : String) : Str := s.toList.map Char.toNat

/-- Modulus of `size_t` arithmetic. -/
def SIZE_T_MOD : Nat := 2 ^ 64

/-- Constant `SERIAL_LEN` of the sources. -/
def SERIAL_LEN : Nat := 9

/-- Constant `NAME_MAX_LEN` of the sources. -/
def NAME_MAX_LEN : Nat := 32 - SERIAL_LEN

/-- Loop of `bytes_to_string`: `out` is the string built so far; the loop
returns early at the first byte with `byte < 32 or byte > 127`. -/
def bytes_to_string_loop (out : Str) : byte_vector_t → Str
  | [] => out
  | byte :: rest =>
    if byte < 32 ∨ byte > 127 then out
    else bytes_to_string_loop (out ++ [byte]) rest

/-- Function `bytes_to_string` of the sources. -/
def bytes_to_string (bytes : byte_vector_t) : Str :=
  bytes_to_string_loop [] bytes

/-- Function `string_to_bytes` of the sources: push `string[i]` for
`i < min(string.size(), max_length)`, then push a NUL when
`bytes.size() < max_length - 1`, the subtraction being a `size_t` one. -/
def string_to_bytes (string : Str) (max_length : Nat) : byte_vector_t :=
  let bytes := (List.range (min string.length max_length)).foldl
    (fun bytes i => bytes ++ [string.getD i 0]) []
  if bytes.length < (max_length + SIZE_T_MOD - 1) % SIZE_T_MOD then bytes ++ [0]
  else bytes

/-! ## Values outside the translation unit -/

/-- Exceptions the routines can raise. -/
inductive Error
  /-- Const `uhd::dict::operator[]` on an absent key. -/
  | key_error
  /-- Exception `boost::bad_lexical_cast`. -/
  | bad_lexical_cast
  /-- Exception `std::out_of_range` of `std::vector::at`. -/
  | out_of_range
  /-- Exception of `mac_addr_t::from_bytes` and `mac_addr_t::from_string`. -/
  | bad_mac_addr
  /-- Exception of `boost::asio::ip::address_v4::from_string`. -/
  | bad_ip_addr
  deriving DecidableEq, Repr

/-- Value of `uhd::mac_addr_t`: six bytes. -/
structure mac_addr_t where
  b0 : Nat
  b1 : Nat
  b2 : Nat
  b3 : Nat
  b4 : Nat
  b5 : Nat
  deriving DecidableEq, Repr

/-- Method `mac_addr_t::to_bytes`. -/
def mac_addr_t.to_bytes (m : mac_addr_t) : byte_vector_t :=
  [m.b0, m.b1, m.b2, m.b3, m.b4, m.b5]

/-- Method `mac_addr_t::from_bytes`: a vector of exactly six bytes. -/
def mac_addr_t.from_bytes : byte_vector_t → Except Error mac_addr_t
  | [a, b, c, d, e, f] => .ok ⟨a, b, c, d, e, f⟩
  | _ => .error .bad_mac_addr

/-- Value of `boost::asio::ip::address_v4`: four bytes. -/
structure address_v4 where
  a0 : Nat
  a1 : Nat
  a2 : Nat
  a3 : Nat
  deriving DecidableEq, Repr

/-- Method `address_v4::to_bytes`. -/
def address_v4.to_bytes (a : address_v4) : byte_vector_t :=
  [a.a0, a.a1, a.a2, a.a3]

/-- Construction of an `address_v4` from the four-byte array that `byte_copy`
filled from a bus read. -/
def address_v4.of_bytes (bytes : byte_vector_t) : address_v4 :=
  ⟨bytes.getD 0 0, bytes.getD 1 0, bytes.getD 2 0, bytes.getD 3 0⟩

/-- Library routines the translation unit calls and does not define: the
parsing `boost::lexical_cast`s, the MAC and IPv4 text formats, and the byte
order of the host. A parser returns `none` where the C++ call throws. -/
structure Ext where
  /-- Host stores the least significant byte first. -/
  little_endian : Bool
  /-- Call `boost::lexical_cast<boost::uint16_t>(s)`. -/
  lexical_cast_uint16 : Str → Option Nat
  /-- Call `boost::lexical_cast<unsigned>(s)`. -/
  lexical_cast_unsigned : Str → Option Nat
  /-- Call `boost::uint32_t(boost::lexical_cast<double>(s))`. -/
  lexical_cast_double_uint32 : Str → Option Nat
  /-- Method `mac_addr_t::to_string`. -/
  mac_to_string : mac_addr_t → Str
  /-- Method `mac_addr_t::from_string`. -/
  mac_from_string : Str → Option mac_addr_t
  /-- Method `address_v4::to_string`. -/
  ip_to_string : address_v4 → Str
  /-- Method `address_v4::from_string`. -/
  ip_from_string : Str → Option address_v4

/-- Call `boost::lexical_cast<std::string>(n)` on an unsigned integer: its
decimal digits. -/
def decimal (n : Nat) : Str := (Nat.toDigits 10 n).map Char.toNat

/-- Checked access `v.at(i)`. -/
def vec_at (v : byte_vector_t) (i : Nat) : Except Error Nat :=
  match v.get? i with
  | some b => .ok b
  | none => .error .out_of_range

/-! ### Byte order -/

/-- A `uint16_t` whose storage holds the given bytes, as the host reads it. -/
def uint16_of_mem (le : Bool) (bytes : byte_vector_t) : Nat :=
  if le then bytes.getD 0 0 + 256 * bytes.getD 1 0
  else 256 * bytes.getD 0 0 + bytes.getD 1 0

/-- Storage bytes of a `uint16_t`, lowest address first. -/
def mem_of_uint16 (le : Bool) (x : Nat) : byte_vector_t :=
  if le then [x % 256, x / 256 % 256] else [x / 256 % 256, x % 256]

/-- Byte swap of a 16-bit value. -/
def byteswap16 (x : Nat) : Nat := 256 * (x % 256) + x / 256 % 256

/-- Calls `uhd::ntohx` and `uhd::htonx` at `uint16_t`: a swap on a
little-endian host, the identity otherwise. -/
def ntohx16 (le : Bool) (x : Nat) : Nat := if le then byteswap16 x else x

/-- A `uint32_t` whose storage holds the given bytes, as the host reads it. -/
def uint32_of_mem (le : Bool) (bytes : byte_vector_t) : Nat :=
  if le then
    bytes.getD 0 0 + 2 ^ 8 * bytes.getD 1 0 + 2 ^ 16 * bytes.getD 2 0 + 2 ^ 24 * bytes.getD 3 0
  else
    2 ^ 24 * bytes.getD 0 0 + 2 ^ 16 * bytes.getD 1 0 + 2 ^ 8 * bytes.getD 2 0 + bytes.getD 3 0

/-- Storage bytes of a `uint32_t`, lowest address first. -/
def mem_of_uint32 (le : Bool) (x : Nat) : byte_vector_t :=
  if le then [x % 256, x / 2 ^ 8 % 256, x / 2 ^ 16 % 256, x / 2 ^ 24 % 256]
  else [x / 2 ^ 24 % 256, x / 2 ^ 16 % 256, x / 2 ^ 8 % 256, x % 256]

/-- Byte swap of a 32-bit value. -/
def byteswap32 (x : Nat) : Nat :=
  2 ^ 24 * (x % 256) + 2 ^ 16 * (x / 2 ^ 8 % 256) + 2 ^ 8 * (x / 2 ^ 16 % 256) + x / 2 ^ 24 % 256

/-- Calls `ntohl` and `htonl`: a swap on a little-endian host, the identity
otherwise. -/
def ntohl (le : Bool) (x : Nat) : Nat := if le then byteswap32 x else x

/-! ### Dictionary and bus -/

/-- Modelled from the spec: the Configuration Dictionary. The class
`mboard_eeprom_t` is a `uhd::dict<std::string, std::string>`, declared in a
header that is not part of the sources at hand: a string-keyed, string-valued
map with unique keys and a presence query, kept as a list of pairs. -/
abbrev mboard_eeprom_t := List (String × Str)

/-- Query `has_key(key)`. -/
def has_key (d : mboard_eeprom_t) (key : String) : Bool :=
  d.any (fun p => p.1 == key)

/-- Read `d[key]` of a constant dictionary: fails on an absent key. -/
def dict_get (d : mboard_eeprom_t) (key : String) : Except Error Str :=
  match d.find? (fun p => p.1 == key) with
  | some p => .ok p.2
  | none => .error .key_error

/-- Assignment `d[key] = val`: replaces the value of a present key, appends a
new pair otherwise. -/
def dict_set (d : mboard_eeprom_t) (key : String) (val : Str) : mboard_eeprom_t :=
  if has_key d key then d.map (fun p => if p.1 == key then (p.1, val) else p)
  else d ++ [(key, val)]

/-- Modelled from the spec: the Byte Bus. The class `i2c_iface` is declared in
a header that is not part of the sources at hand: offset-addressed reads and
writes of raw byte ranges at a device address. `mem addr offset` is the stored
byte; `reads` and `writes` record the calls made, oldest first. -/
structure i2c_iface where
  mem : Nat → Nat → Nat
  reads : List (Nat × Nat × Nat)
  writes : List (Nat × Nat × byte_vector_t)

/-- Call `read_eeprom(addr, offset, num_bytes)`: the `num_bytes` bytes stored
from `offset` on. -/
def i2c_iface.read_eeprom (iface : i2c_iface) (addr offset num_bytes : Nat) :
    byte_vector_t × i2c_iface :=
  ((List.range num_bytes).map (fun i => iface.mem addr (offset + i)),
   { iface with reads := iface.reads ++ [(addr, offset, num_bytes)] })

/-- Call `write_eeprom(addr, offset, bytes)`: stores `bytes` from `offset`
on. -/
def i2c_iface.write_eeprom (iface : i2c_iface) (addr offset : Nat) (bytes : byte_vector_t) :
    i2c_iface :=
  { iface with
    mem := fun a o =>
      if a = addr ∧ offset ≤ o ∧ o < offset + bytes.length then bytes.getD (o - offset) 0
      else iface.mem a o
    writes := iface.writes ++ [(addr, offset, bytes)] }

/-- Read `d[key]` of a mutable dictionary in a load routine, where the key was
assigned earlier in the same routine: the stored value (the empty string for a
key that was never assigned). -/
def dict_ref (d : mboard_eeprom_t) (key : String) : Str :=
  match d.find? (fun p => p.1 == key) with
  | some p => p.2
  | none => []

/-- Lookup in one of the file-scope offset tables; every key the routines
look up is in its table. -/
def offset_at (table : List (String × Nat)) (key : String) : Nat :=
  match table.find? (fun p => p.1 == key) with
  | some p => p.2
  | none => 0

/-- Outcome of a store routine: the bus as the routine left it, and the
exception that stopped it, if any. -/
structure Outcome where
  iface : i2c_iface
  error : Option Error

/-- Statements run in order; a statement that throws stops the run. -/
def seq : List (i2c_iface → Outcome) → i2c_iface → Outcome
  | [], iface => ⟨iface, none⟩
  | stmt :: rest, iface =>
    match (stmt iface).error with
    | none => seq rest (stmt iface).iface
    | some e => ⟨(stmt iface).iface, some e⟩

/-- One guarded statement of a store routine,
`if (mb_eeprom.has_key(key)) iface.write_eeprom(addr, offset, encode(mb_eeprom[key]))`:
the bytes are computed first, which may throw, and are then written in one
call. -/
def store_field (mb_eeprom : mboard_eeprom_t) (key : String) (addr offset : Nat)
    (encode : Str → Except Error byte_vector_t) (iface : i2c_iface) : Outcome :=
  if has_key mb_eeprom key then
    match dict_get mb_eeprom key >>= encode with
    | .ok bytes => ⟨iface.write_eeprom addr offset bytes, none⟩
    | .error e => ⟨iface, some e⟩
  else ⟨iface, none⟩

/-! ## N100 -/

/-- Constant `N100_EEPROM_ADDR`. -/
def N100_EEPROM_ADDR : Nat := 0x50

/-- Table `USRP_N100_OFFSETS`. -/
def USRP_N100_OFFSETS : List (String × Nat) :=
  [("rev-lsb-msb", 0x00), ("mac-addr", 0x02), ("ip-addr", 0x0C), ("prod-lsb-msb", 0x14),
   ("gpsdo", 0x17), ("serial", 0x18), ("name", 0x18 + SERIAL_LEN)]

/-- Enumerator `N200_GPSDO_NONE`. -/
def N200_GPSDO_NONE : Nat := 0

/-- Enumerator `N200_GPSDO_INTERNAL`. -/
def N200_GPSDO_INTERNAL : Nat := 1

/-- Enumerator `N200_GPSDO_ONBOARD`. -/
def N200_GPSDO_ONBOARD : Nat := 2

/-- Function `load_n100` of the sources. -/
def load_n100 (E : Ext) (mb_eeprom : mboard_eeprom_t) (iface : i2c_iface) :
    Except Error (mboard_eeprom_t × i2c_iface) := do
  -- extract the revision number
  let (rev_lsb_msb, iface) :=
    iface.read_eeprom N100_EEPROM_ADDR (offset_at USRP_N100_OFFSETS "rev-lsb-msb") 2
  let rev := ((← vec_at rev_lsb_msb 0) <<< 0 ||| (← vec_at rev_lsb_msb 1) <<< 8) % 2 ^ 16
  let mb_eeprom := dict_set mb_eeprom "rev" (decimal rev)
  -- extract the product code
  let (prod_lsb_msb, iface) :=
    iface.read_eeprom N100_EEPROM_ADDR (offset_at USRP_N100_OFFSETS "prod-lsb-msb") 2
  let prod := ((← vec_at prod_lsb_msb 0) <<< 0 ||| (← vec_at prod_lsb_msb 1) <<< 8) % 2 ^ 16
  let mb_eeprom := dict_set mb_eeprom "product"
    (if prod = 0 ∨ prod = 0xffff then [] else decimal prod)
  -- extract the addresses
  let (mac_bytes, iface) :=
    iface.read_eeprom N100_EEPROM_ADDR (offset_at USRP_N100_OFFSETS "mac-addr") 6
  let mac ← mac_addr_t.from_bytes mac_bytes
  let mb_eeprom := dict_set mb_eeprom "mac-addr" (E.mac_to_string mac)
  let (ip_addr_bytes, iface) :=
    iface.read_eeprom N100_EEPROM_ADDR (offset_at USRP_N100_OFFSETS "ip-addr") 4
  let mb_eeprom := dict_set mb_eeprom "ip-addr" (E.ip_to_string (address_v4.of_bytes ip_addr_bytes))
  -- gpsdo capabilities
  let (gpsdo_bytes, iface) :=
    iface.read_eeprom N100_EEPROM_ADDR (offset_at USRP_N100_OFFSETS "gpsdo") 1
  let gpsdo_byte ← vec_at gpsdo_bytes 0
  let mb_eeprom := dict_set mb_eeprom "gpsdo"
    (if gpsdo_byte = N200_GPSDO_INTERNAL then lit "internal"
     else if gpsdo_byte = N200_GPSDO_ONBOARD then lit "onboard"
     else lit "none")
  -- extract the serial
  let (serial_bytes, iface) :=
    iface.read_eeprom N100_EEPROM_ADDR (offset_at USRP_N100_OFFSETS "serial") SERIAL_LEN
  let mb_eeprom := dict_set mb_eeprom "serial" (bytes_to_string serial_bytes)
  -- extract the name
  let (name_bytes, iface) :=
    iface.read_eeprom N100_EEPROM_ADDR (offset_at USRP_N100_OFFSETS "name") NAME_MAX_LEN
  let mb_eeprom := dict_set mb_eeprom "name" (bytes_to_string name_bytes)
  -- empty serial correction: use the mac address to determine serial
  if dict_ref mb_eeprom "serial" = [] then
    match E.mac_from_string (dict_ref mb_eeprom "mac-addr") with
    | none => .error .bad_mac_addr
    | some m =>
      let mac_addr_bytes := m.to_bytes
      let serial := (← vec_at mac_addr_bytes 5) ||| (((← vec_at mac_addr_bytes 4) &&& 0x0f) <<< 8)
      pure (dict_set mb_eeprom "serial" (decimal serial), iface)
  else pure (mb_eeprom, iface)

/-- Bytes written for `"rev"` and `"product"` by `store_n100`: the parsed
`uint16_t`, low byte first. -/
def encode_lsb_msb (E : Ext) (s : Str) : Except Error byte_vector_t :=
  match E.lexical_cast_uint16 s with
  | none => .error .bad_lexical_cast
  | some v =>
    let rev := v % 2 ^ 16
    .ok [(rev >>> 0) % 256, (rev >>> 8) % 256]

/-- Bytes written for `"mac-addr"` by `store_n100`. -/
def encode_mac_addr (E : Ext) (s : Str) : Except Error byte_vector_t :=
  match E.mac_from_string s with
  | none => .error .bad_mac_addr
  | some m => .ok m.to_bytes

/-- Bytes written for `"ip-addr"` by `store_n100`. -/
def encode_ip_addr (E : Ext) (s : Str) : Except Error byte_vector_t :=
  match E.ip_from_string s with
  | none => .error .bad_ip_addr
  | some a => .ok a.to_bytes

/-- Byte written for `"gpsdo"` by `store_n100`. -/
def encode_gpsdo (s : Str) : Except Error byte_vector_t :=
  let gpsdo_byte := N200_GPSDO_NONE
  let gpsdo_byte := if s = lit "internal" then N200_GPSDO_INTERNAL else gpsdo_byte
  let gpsdo_byte := if s = lit "onboard" then N200_GPSDO_ONBOARD else gpsdo_byte
  .ok [gpsdo_byte]

/-- Bytes written for an ASCII field of width `max_length`. -/
def encode_string (max_length : Nat) (s : Str) : Except Error byte_vector_t :=
  .ok (string_to_bytes s max_length)

/-- Function `store_n100` of the sources. -/
def store_n100 (E : Ext) (mb_eeprom : mboard_eeprom_t) (iface : i2c_iface) : Outcome :=
  seq [
    -- parse the revision number
    store_field mb_eeprom "rev" N100_EEPROM_ADDR
      (offset_at USRP_N100_OFFSETS "rev-lsb-msb") (encode_lsb_msb E),
    -- parse the product code
    store_field mb_eeprom "product" N100_EEPROM_ADDR
      (offset_at USRP_N100_OFFSETS "prod-lsb-msb") (encode_lsb_msb E),
    -- store the addresses
    store_field mb_eeprom "mac-addr" N100_EEPROM_ADDR
      (offset_at USRP_N100_OFFSETS "mac-addr") (encode_mac_addr E),
    store_field mb_eeprom "ip-addr" N100_EEPROM_ADDR
      (offset_at USRP_N100_OFFSETS "ip-addr") (encode_ip_addr E),
    -- gpsdo capabilities
    store_field mb_eeprom "gpsdo" N100_EEPROM_ADDR
      (offset_at USRP_N100_OFFSETS "gpsdo") encode_gpsdo,
    -- store the serial
    store_field mb_eeprom "serial" N100_EEPROM_ADDR
      (offset_at USRP_N100_OFFSETS "serial") (encode_string SERIAL_LEN),
    -- store the name
    store_field mb_eeprom "name" N100_EEPROM_ADDR
      (offset_at USRP_N100_OFFSETS "name") (encode_string NAME_MAX_LEN)
  ] iface

/-! ## B000 -/

/-- Constant `B000_EEPROM_ADDR`. -/
def B000_EEPROM_ADDR : Nat := 0x50

/-- Constant `B000_SERIAL_LEN`. -/
def B000_SERIAL_LEN : Nat := 8

/-- Table `USRP_B000_OFFSETS`; `sizeof(boost::uint32_t)` is 4. -/
def USRP_B000_OFFSETS : List (String × Nat) :=
  [("serial", 0xf8), ("name", 0xf8 - NAME_MAX_LEN), ("mcr", 0xf8 - NAME_MAX_LEN - 4)]

/-- Function `load_b000` of the sources. The two comparisons are made in
`double`, which holds every `uint32_t` and both bounds exactly. -/
def load_b000 (E : Ext) (mb_eeprom : mboard_eeprom_t) (iface : i2c_iface) :
    Except Error (mboard_eeprom_t × i2c_iface) := do
  -- extract the serial
  let (serial_bytes, iface) :=
    iface.read_eeprom B000_EEPROM_ADDR (offset_at USRP_B000_OFFSETS "serial") B000_SERIAL_LEN
  let mb_eeprom := dict_set mb_eeprom "serial" (bytes_to_string serial_bytes)
  -- extract the name
  let (name_bytes, iface) :=
    iface.read_eeprom B000_EEPROM_ADDR (offset_at USRP_B000_OFFSETS "name") NAME_MAX_LEN
  let mb_eeprom := dict_set mb_eeprom "name" (bytes_to_string name_bytes)
  -- extract master clock rate as a 32-bit uint in Hz
  let (rate_bytes, iface) :=
    iface.read_eeprom B000_EEPROM_ADDR (offset_at USRP_B000_OFFSETS "mcr") 4
  let master_clock_rate := uint32_of_mem E.little_endian rate_bytes
  let master_clock_rate := ntohl E.little_endian master_clock_rate
  if master_clock_rate > 10 ^ 6 ∧ master_clock_rate < 10 ^ 9 then
    pure (dict_set mb_eeprom "mcr" (decimal master_clock_rate), iface)
  else pure (dict_set mb_eeprom "mcr" [], iface)

/-- Bytes written for `"mcr"` by `store_b000`: the storage of
`htonl(master_clock_rate)`. -/
def encode_mcr (E : Ext) (s : Str) : Except Error byte_vector_t :=
  match E.lexical_cast_double_uint32 s with
  | none => .error .bad_lexical_cast
  | some v =>
    let master_clock_rate := v % 2 ^ 32
    let master_clock_rate := ntohl E.little_endian master_clock_rate
    .ok (mem_of_uint32 E.little_endian master_clock_rate)

/-- Function `store_b000` of the sources. -/
def store_b000 (E : Ext) (mb_eeprom : mboard_eeprom_t) (iface : i2c_iface) : Outcome :=
  seq [
    -- store the serial
    store_field mb_eeprom "serial" B000_EEPROM_ADDR
      (offset_at USRP_B000_OFFSETS "serial") (encode_string B000_SERIAL_LEN),
    -- store the name
    store_field mb_eeprom "name" B000_EEPROM_ADDR
      (offset_at USRP_B000_OFFSETS "name") (encode_string NAME_MAX_LEN),
    -- store the master clock rate as a 32-bit uint in Hz
    store_field mb_eeprom "mcr" B000_EEPROM_ADDR
      (offset_at USRP_B000_OFFSETS "mcr") (encode_mcr E)
  ] iface

/-! ## E100 -/

/-- Constant `E100_EEPROM_ADDR`. -/
def E100_EEPROM_ADDR : Nat := 0x51

/-- Members of `struct e100_eeprom_map` in declaration order, each with its
size and its alignment in bytes. -/
def e100_eeprom_map : List (String × Nat × Nat) :=
  [("vendor", 2, 2), ("device", 2, 2), ("revision", 1, 1), ("content", 1, 1),
   ("model", 8, 1), ("env_var", 16, 1), ("env_setting", 64, 1), ("serial", 10, 1),
   ("name", NAME_MAX_LEN, 1)]

/-- Offset of a member when the members before it are laid out from `cur` on,
each at the next multiple of its alignment. -/
def offsetof_from (cur : Nat) : List (String × Nat × Nat) → String → Nat
  | [], _ => cur
  | (name, size, align) :: rest, member =>
    let off := (cur + align - 1) / align * align
    if name = member then off else offsetof_from (off + size) rest member

/-- Operator `offsetof(struct_name, member_name)`. -/
def offsetof (struct_name : List (String × Nat × Nat)) (member_name : String) : Nat :=
  offsetof_from 0 struct_name member_name

/-- Macro `sizeof_member(struct_name, member_name)`. -/
def sizeof_member (struct_name : List (String × Nat × Nat)) (member_name : String) : Nat :=
  match struct_name.find? (fun p => p.1 == member_name) with
  | some p => p.2.1
  | none => 0

/-- Macro `load_e100_string_xx(key)`. -/
def load_e100_string_xx (key : String) (st : mboard_eeprom_t × i2c_iface) :
    mboard_eeprom_t × i2c_iface :=
  let (bytes, iface) := st.2.read_eeprom E100_EEPROM_ADDR
    (offsetof e100_eeprom_map key) (sizeof_member e100_eeprom_map key)
  (dict_set st.1 key (bytes_to_string bytes), iface)

/-- Function `load_e100` of the sources: one read of the bytes in front of
`model`, copied over the struct, then one read per string member. -/
def load_e100 (E : Ext) (mb_eeprom : mboard_eeprom_t) (iface : i2c_iface) :
    Except Error (mboard_eeprom_t × i2c_iface) :=
  let num_bytes := offsetof e100_eeprom_map "model"
  let (map_bytes, iface) := iface.read_eeprom E100_EEPROM_ADDR 0 num_bytes
  let vendor := uint16_of_mem E.little_endian (map_bytes.drop (offsetof e100_eeprom_map "vendor"))
  let device := uint16_of_mem E.little_endian (map_bytes.drop (offsetof e100_eeprom_map "device"))
  let revision := map_bytes.getD (offsetof e100_eeprom_map "revision") 0
  let content := map_bytes.getD (offsetof e100_eeprom_map "content") 0
  let mb_eeprom := dict_set mb_eeprom "vendor" (decimal (ntohx16 E.little_endian vendor))
  let mb_eeprom := dict_set mb_eeprom "device" (decimal (ntohx16 E.little_endian device))
  let mb_eeprom := dict_set mb_eeprom "revision" (decimal revision)
  let mb_eeprom := dict_set mb_eeprom "content" (decimal content)
  let st := load_e100_string_xx "model" (mb_eeprom, iface)
  let st := load_e100_string_xx "env_var" st
  let st := load_e100_string_xx "env_setting" st
  let st := load_e100_string_xx "serial" st
  let st := load_e100_string_xx "name" st
  .ok st

/-- Bytes written for `"vendor"` and `"device"` by `store_e100`: the storage
of `uhd::htonx` of the parsed `uint16_t`. -/
def encode_htonx16 (E : Ext) (s : Str) : Except Error byte_vector_t :=
  match E.lexical_cast_uint16 s with
  | none => .error .bad_lexical_cast
  | some v => .ok (mem_of_uint16 E.little_endian (ntohx16 E.little_endian (v % 2 ^ 16)))

/-- Byte written for `"revision"` and `"content"` by `store_e100`: the parsed
`unsigned`, narrowed to a byte by the vector constructor. -/
def encode_unsigned_byte (E : Ext) (s : Str) : Except Error byte_vector_t :=
  match E.lexical_cast_unsigned s with
  | none => .error .bad_lexical_cast
  | some v => .ok [v % 256]

/-- Macro `store_e100_string_xx(key)`. -/
def store_e100_string_xx (mb_eeprom : mboard_eeprom_t) (key : String) :
    i2c_iface → Outcome :=
  store_field mb_eeprom key E100_EEPROM_ADDR (offsetof e100_eeprom_map key)
    (encode_string (sizeof_member e100_eeprom_map key))

/-- Function `store_e100` of the sources. -/
def store_e100 (E : Ext) (mb_eeprom : mboard_eeprom_t) (iface : i2c_iface) : Outcome :=
  seq [
    store_field mb_eeprom "vendor" E100_EEPROM_ADDR
      (offsetof e100_eeprom_map "vendor") (encode_htonx16 E),
    store_field mb_eeprom "device" E100_EEPROM_ADDR
      (offsetof e100_eeprom_map "device") (encode_htonx16 E),
    store_field mb_eeprom "revision" E100_EEPROM_ADDR
      (offsetof e100_eeprom_map "revision") (encode_unsigned_byte E),
    store_field mb_eeprom "content" E100_EEPROM_ADDR
      (offsetof e100_eeprom_map "content") (encode_unsigned_byte E),
    store_e100_string_xx mb_eeprom "model",
    store_e100_string_xx mb_eeprom "env_var",
    store_e100_string_xx mb_eeprom "env_setting",
    store_e100_string_xx mb_eeprom "serial",
    store_e100_string_xx mb_eeprom "name"
  ] iface

/-! ## Dispatch -/

/-- Enumeration `mboard_eeprom_t::map_type`. -/
inductive map_type
  | MAP_N100
  | MAP_B000
  | MAP_E100
  deriving DecidableEq, Repr

/-- Constructor `mboard_eeprom_t(iface, map)`: loads into an empty
dictionary. -/
def load (E : Ext) (iface : i2c_iface) (map : map_type) :
    Except Error (mboard_eeprom_t × i2c_iface) :=
  match map with
  | .MAP_N100 => load_n100 E [] iface
  | .MAP_B000 => load_b000 E [] iface
  | .MAP_E100 => load_e100 E [] iface

/-- Method `mboard_eeprom_t::commit`. -/
def commit (E : Ext) (mb_eeprom : mboard_eeprom_t) (iface : i2c_iface) (map : map_type) :
    Outcome :=
  match map with
  | .MAP_N100 => store_n100 E mb_eeprom iface
  | .MAP_B000 => store_b000 E mb_eeprom iface
  | .MAP_E100 => store_e100 E mb_eeprom iface

/-! ## Field tables used to state the properties -/

/-- A declared field of a variant: dictionary key, byte offset, byte width. -/
structure field_desc where
  key : String
  offset : Nat
  width : Nat
  deriving DecidableEq, Repr

/-- Device address a variant talks to. -/
def eeprom_addr : map_type → Nat
  | .MAP_N100 => N100_EEPROM_ADDR
  | .MAP_B000 => B000_EEPROM_ADDR
  | .MAP_E100 => E100_EEPROM_ADDR

/-- Fields of a variant, in the order its store routine visits them; offsets
are those of the offset tables, widths those of the reads in the load
routine. -/
def declared_fields : map_type → List field_desc
  | .MAP_N100 =>
    [⟨"rev", 0x00, 2⟩, ⟨"product", 0x14, 2⟩, ⟨"mac-addr", 0x02, 6⟩, ⟨"ip-addr", 0x0C, 4⟩,
     ⟨"gpsdo", 0x17, 1⟩, ⟨"serial", 0x18, 9⟩, ⟨"name", 0x21, 23⟩]
  | .MAP_B000 =>
    [⟨"serial", 0xf8, 8⟩, ⟨"name", 0xe1, 23⟩, ⟨"mcr", 0xdd, 4⟩]
  | .MAP_E100 =>
    [⟨"vendor", 0, 2⟩, ⟨"device", 2, 2⟩, ⟨"revision", 4, 1⟩, ⟨"content", 5, 1⟩,
     ⟨"model", 6, 8⟩, ⟨"env_var", 14, 16⟩, ⟨"env_setting", 30, 64⟩, ⟨"serial", 94, 10⟩,
     ⟨"name", 104, 23⟩]

/-! ## A reference instance of the library routines

Used to evaluate the routines on concrete inputs. It reads plain decimal digit
strings as the numbers they denote and rejects the empty string, as every
`boost::lexical_cast` to a number does; MAC addresses are six colon-separated
pairs of lower-case hex digits, IPv4 addresses are dotted decimal. -/

/-- Value of a non-empty string of decimal digits. -/
def parse_decimal (s : Str) : Option Nat :=
  if s = [] then none
  else s.foldl (fun acc c => acc.bind fun n =>
    if 48 ≤ c ∧ c ≤ 57 then some (10 * n + (c - 48)) else none) (some 0)

/-- A decimal digit string whose value is below `bound`. -/
def parse_decimal_below (bound : Nat) (s : Str) : Option Nat :=
  (parse_decimal s).bind fun n => if n < bound then some n else none

/-- Lower-case hex digit of a value below 16. -/
def hex_digit (n : Nat) : Nat := if n < 10 then 48 + n else 87 + n

/-- Value of a hex digit. -/
def hex_value (c : Nat) : Option Nat :=
  if 48 ≤ c ∧ c ≤ 57 then some (c - 48)
  else if 97 ≤ c ∧ c ≤ 102 then some (c - 87)
  else if 65 ≤ c ∧ c ≤ 70 then some (c - 55)
  else none

/-- Text of a MAC address, as in `00:50:c2:85:3f:ab`. -/
def std_mac_to_string (m : mac_addr_t) : Str :=
  [58].intercalate (m.to_bytes.map fun b => [hex_digit (b / 16 % 16), hex_digit (b % 16)])

/-- Byte `i` of a MAC address text. -/
def std_mac_byte (s : Str) (i : Nat) : Option Nat :=
  (hex_value (s.getD (3 * i) 0)).bind fun hi =>
    (hex_value (s.getD (3 * i + 1) 0)).map fun lo => 16 * hi + lo

/-- Parse of a MAC address text of exactly 17 characters. -/
def std_mac_from_string (s : Str) : Option mac_addr_t :=
  if s.length = 17 then
    (std_mac_byte s 0).bind fun a => (std_mac_byte s 1).bind fun b =>
    (std_mac_byte s 2).bind fun c => (std_mac_byte s 3).bind fun d =>
    (std_mac_byte s 4).bind fun e => (std_mac_byte s 5).map fun f => ⟨a, b, c, d, e, f⟩
  else none

/-- Text of an IPv4 address, as in `192.168.10.2`. -/
def std_ip_to_string (a : address_v4) : Str :=
  [46].intercalate (a.to_bytes.map decimal)

/-- Parse of a dotted-decimal IPv4 address. -/
def std_ip_from_string (s : Str) : Option address_v4 :=
  match (s.splitOn 46).map (parse_decimal_below 256) with
  | [some a, some b, some c, some d] => some ⟨a, b, c, d⟩
  | _ => none

/-- The reference instance, on a little-endian host. -/
def stdExt : Ext where
  little_endian := true
  lexical_cast_uint16 := parse_decimal_below (2 ^ 16)
  lexical_cast_unsigned := parse_decimal_below (2 ^ 32)
  lexical_cast_double_uint32 := parse_decimal_below (2 ^ 32)
  mac_to_string := std_mac_to_string
  mac_from_string := std_mac_from_string
  ip_to_string := std_ip_to_string
  ip_from_string := std_ip_from_string

/-- A bus over a device whose contents are listed from offset 0 on (zero
beyond the list), the same at every address, with no call made yet. -/
def bus_of (contents : byte_vector_t) : i2c_iface :=
  ⟨fun _ o => contents.getD o 0, [], []⟩

/-! ## Byte predicates used to state the properties -/

/-- The printable range `[32,127)` as the specification words it. -/
def spec_printable (b : Nat) : Bool := decide (32 ≤ b ∧ b < 127)

/-- Bytes that the loop of `bytes_to_string` keeps: those for which
`byte < 32 or byte > 127` is false. -/
def kept (b : Nat) : Bool := decide (32 ≤ b ∧ b ≤ 127)

/-! ## Device predicates used to state the properties -/

/-- Big-endian value of the four bytes of the B000 `"mcr"` field, which
occupies offsets `0xdd` to `0xe0` at address `0x50`. -/
def mcr_value (iface : i2c_iface) : Nat :=
  2 ^ 24 * iface.mem 0x50 0xdd + 2 ^ 16 * iface.mem 0x50 0xde + 2 ^ 8 * iface.mem 0x50 0xdf
    + iface.mem 0x50 0xe0

/-- Link-layer address held by the six bytes of the N100 `"mac-addr"` field,
at offsets `0x02` to `0x07` of address `0x50`. -/
def n100_mac (iface : i2c_iface) : mac_addr_t :=
  ⟨iface.mem 0x50 2, iface.mem 0x50 3, iface.mem 0x50 4, iface.mem 0x50 5, iface.mem 0x50 6,
   iface.mem 0x50 7⟩

/-- Decoded text of the nine bytes of the N100 `"serial"` field, at offsets
`0x18` to `0x20` of address `0x50`. -/
def n100_serial (iface : i2c_iface) : Str :=
  bytes_to_string ((List.range 9).map fun i => iface.mem 0x50 (0x18 + i))

/-! ## Store routines as tables

Each store routine is a run of guarded statements, one per declared field;
listing the statement of every field next to its descriptor lets the
properties of a run be proved once, by induction on the list. -/

/-- A declared field together with the encoder its store statement uses. -/
abbrev codec := field_desc × (Str → Except Error byte_vector_t)

/-- Run of the store statements of a list of fields at one device address. -/
def store_fields (mb_eeprom : mboard_eeprom_t) (addr : Nat) (cs : List codec)
    (iface : i2c_iface) : Outcome :=
  seq (cs.map fun c => store_field mb_eeprom c.1.key addr c.1.offset c.2) iface

/-- Statements of the store routine of a variant, in order. -/
def codecs (E : Ext) : map_type → List codec
  | .MAP_N100 =>
    [(⟨"rev", 0x00, 2⟩, encode_lsb_msb E), (⟨"product", 0x14, 2⟩, encode_lsb_msb E),
     (⟨"mac-addr", 0x02, 6⟩, encode_mac_addr E), (⟨"ip-addr", 0x0C, 4⟩, encode_ip_addr E),
     (⟨"gpsdo", 0x17, 1⟩, encode_gpsdo), (⟨"serial", 0x18, 9⟩, encode_string 9),
     (⟨"name", 0x21, 23⟩, encode_string 23)]
  | .MAP_B000 =>
    [(⟨"serial", 0xf8, 8⟩, encode_string 8), (⟨"name", 0xe1, 23⟩, encode_string 23),
     (⟨"mcr", 0xdd, 4⟩, encode_mcr E)]
  | .MAP_E100 =>
    [(⟨"vendor", 0, 2⟩, encode_htonx16 E), (⟨"device", 2, 2⟩, encode_htonx16 E),
     (⟨"revision", 4, 1⟩, encode_unsigned_byte E), (⟨"content", 5, 1⟩, encode_unsigned_byte E),
     (⟨"model", 6, 8⟩, encode_string 8), (⟨"env_var", 14, 16⟩, encode_string 16),
     (⟨"env_setting", 30, 64⟩, encode_string 64), (⟨"serial", 94, 10⟩, encode_string 10),
     (⟨"name", 104, 23⟩, encode_string 23)]

/-- Declared fields of a variant whose key the dictionary holds. -/
def present_fields (mb_eeprom : mboard_eeprom_t) (map : map_type) : List field_desc :=
  (declared_fields map).filter fun f => has_key mb_eeprom f.key

/-- A bus write call `w = (addr, offset, bytes)` starts at the offset of the
field `f` and stays inside its byte range. -/
def write_fits (addr : Nat) (w : Nat × Nat × byte_vector_t) (f : field_desc) : Prop :=
  w.1 = addr ∧ w.2.1 = f.offset ∧ w.2.2.length ≤ f.width

/-- The byte at `(a, o)` lies in the declared range of a field whose key the
dictionary holds. -/
def in_present_range (mb_eeprom : mboard_eeprom_t) (map : map_type) (a o : Nat) : Prop :=
  a = eeprom_addr map ∧
    ∃ f ∈ declared_fields map, has_key mb_eeprom f.key = true ∧ f.offset ≤ o ∧ o < f.offset + f.width

/-- Byte ranges `[offset, offset + width)` of two fields do not meet. -/
def ranges_disjoint (f g : field_desc) : Prop :=
  f.offset + f.width ≤ g.offset ∨ g.offset + g.width ≤ f.offset

instance (f g : field_desc) : Decidable (ranges_disjoint f g) := by
  unfold ranges_disjoint
  exact inferInstance

/-! ## Calibration container (`host/include/uhd/cal/container.hpp`) -/

/-- A concrete container class, as far as `container::make` uses it: the
state of an instance, the instance its own static `make()` builds, and its
`deserialize`, which changes the instance in place and may throw; it returns
the state the instance was left in together with the exception, if any. -/
structure container_type (state error : Type) where
  make : state
  deserialize : state → byte_vector_t → state × Option error

/-- Function template `container::make<container_type>(data)`: build the
default instance, call `deserialize(data)` on it, return the instance. An
exception of `deserialize` leaves the function before the `return`. -/
def container_make {state error : Type} (shape : container_type state error)
    (data : byte_vector_t) : Except error state :=
  let cal_data := shape.make
  match shape.deserialize cal_data data with
  | (cal_data, none) => .ok cal_data
  | (_, some e) => .error e

/-- An example container class: two bytes, read one after the other, each
read failing on a buffer that has run out. -/
def two_byte_container : container_type (Nat × Nat) String where
  make := (0, 0)
  deserialize := fun st data =>
    match data with
    | [] => (st, some "FormatError")
    | [a] => ((a, st.2), some "FormatError")
    | a :: b :: _ => ((a, b), none)

/-! ## Device contents as the load routines read them -/

/-- Decoded text of the `width` bytes stored from `offset` on. -/
def ascii_at (iface : i2c_iface) (addr offset width : Nat) : Str :=
  bytes_to_string ((List.range width).map fun i => iface.mem addr (offset + i))

/-- Label the `switch` of `load_n100` gives a capability byte. -/
def gpsdo_label (gpsdo_byte : Nat) : Str :=
  if gpsdo_byte = N200_GPSDO_INTERNAL then lit "internal"
  else if gpsdo_byte = N200_GPSDO_ONBOARD then lit "onboard"
  else lit "none"

/-- Revision number `load_n100` assembles from the two bytes at offset 0. -/
def n100_rev (iface : i2c_iface) : Nat :=
  (iface.mem 0x50 0 <<< 0 ||| iface.mem 0x50 1 <<< 8) % 2 ^ 16

/-- Product code `load_n100` assembles from the two bytes at offset `0x14`. -/
def n100_prod (iface : i2c_iface) : Nat :=
  (iface.mem 0x50 0x14 <<< 0 ||| iface.mem 0x50 0x15 <<< 8) % 2 ^ 16

/-- Network address held by the four bytes of the N100 `"ip-addr"` field. -/
def n100_ip (iface : i2c_iface) : address_v4 :=
  ⟨iface.mem 0x50 0x0c, iface.mem 0x50 0x0d, iface.mem 0x50 0x0e, iface.mem 0x50 0x0f⟩

/-- Dictionary `load_n100` has built when it reaches the empty serial
correction. -/
def n100_before_correction (E : Ext) (mb_eeprom : mboard_eeprom_t) (iface : i2c_iface) :
    mboard_eeprom_t :=
  dict_set (dict_set (dict_set (dict_set (dict_set (dict_set (dict_set mb_eeprom
    "rev" (decimal (n100_rev iface)))
    "product" (if n100_prod iface = 0 ∨ n100_prod iface = 0xffff then []
      else decimal (n100_prod iface)))
    "mac-addr" (E.mac_to_string (n100_mac iface)))
    "ip-addr" (E.ip_to_string (n100_ip iface)))
    "gpsdo" (gpsdo_label (iface.mem 0x50 0x17)))
    "serial" (n100_serial iface))
    "name" (ascii_at iface 0x50 0x21 23)

/-- Bus read calls of `load_n100`, in order: address, offset, length. -/
def n100_reads : List (Nat × Nat × Nat) :=
  [(0x50, 0x00, 2), (0x50, 0x14, 2), (0x50, 0x02, 6), (0x50, 0x0c, 4), (0x50, 0x17, 1),
   (0x50, 0x18, 9), (0x50, 0x21, 23)]

/-- The text `load_n100` printed for the link-layer address can be parsed
when the empty serial correction needs it. -/
def n100_mac_text_parses (E : Ext) (iface : i2c_iface) : Prop :=
  n100_serial iface = [] → (E.mac_from_string (E.mac_to_string (n100_mac iface))).isSome = true

/-- Clock rate `load_b000` obtains from the four bytes at offset `0xdd`. -/
def b000_clock_rate (E : Ext) (iface : i2c_iface) : Nat :=
  ntohl E.little_endian (uint32_of_mem E.little_endian
    [iface.mem 0x50 0xdd, iface.mem 0x50 0xde, iface.mem 0x50 0xdf, iface.mem 0x50 0xe0])

/-- Dictionary `load_b000` builds. -/
def b000_loaded (E : Ext) (mb_eeprom : mboard_eeprom_t) (iface : i2c_iface) : mboard_eeprom_t :=
  dict_set (dict_set (dict_set mb_eeprom
    "serial" (ascii_at iface 0x50 0xf8 8))
    "name" (ascii_at iface 0x50 0xe1 23))
    "mcr" (if b000_clock_rate E iface > 10 ^ 6 ∧ b000_clock_rate E iface < 10 ^ 9
      then decimal (b000_clock_rate E iface) else [])

/-- Bus read calls of `load_b000`, in order: address, offset, length. -/
def b000_reads : List (Nat × Nat × Nat) :=
  [(0x50, 0xf8, 8), (0x50, 0xe1, 23), (0x50, 0xdd, 4)]

/-- Vendor number `load_e100` obtains from the two bytes at offset 0. -/
def e100_vendor (E : Ext) (iface : i2c_iface) : Nat :=
  ntohx16 E.little_endian (uint16_of_mem E.little_endian [iface.mem 0x51 0, iface.mem 0x51 1])

/-- Device number `load_e100` obtains from the two bytes at offset 2. -/
def e100_device (E : Ext) (iface : i2c_iface) : Nat :=
  ntohx16 E.little_endian (uint16_of_mem E.little_endian [iface.mem 0x51 2, iface.mem 0x51 3])

/-- Dictionary `load_e100` builds. -/
def e100_loaded (E : Ext) (mb_eeprom : mboard_eeprom_t) (iface : i2c_iface) : mboard_eeprom_t :=
  dict_set (dict_set (dict_set (dict_set (dict_set (dict_set (dict_set (dict_set (dict_set
    mb_eeprom
    "vendor" (decimal (e100_vendor E iface)))
    "device" (decimal (e100_device E iface)))
    "revision" (decimal (iface.mem 0x51 4)))
    "content" (decimal (iface.mem 0x51 5)))
    "model" (ascii_at iface 0x51 6 8))
    "env_var" (ascii_at iface 0x51 14 16))
    "env_setting" (ascii_at iface 0x51 30 64))
    "serial" (ascii_at iface 0x51 94 10))
    "name" (ascii_at iface 0x51 104 23)

/-- Bus read calls of `load_e100`, in order: address, offset, length. -/
def e100_reads : List (Nat × Nat × Nat) :=
  [(0x51, 0, 6), (0x51, 6, 8), (0x51, 14, 16), (0x51, 30, 64), (0x51, 94, 10), (0x51, 104, 23)]

/-- Parser a store routine applies to the value of a numeric field: the
`lexical_cast` of `store_n100`, `store_b000` or `store_e100` for that key;
`none` for a key that is not a numeric field of the variant. -/
def numeric_reader (E : Ext) (map : map_type) (key : String) : Option (Str → Option Nat) :=
  match map with
  | .MAP_N100 =>
    if key = "rev" ∨ key = "product" then some E.lexical_cast_uint16 else none
  | .MAP_B000 =>
    if key = "mcr" then some E.lexical_cast_double_uint32 else none
  | .MAP_E100 =>
    if key = "vendor" ∨ key = "device" then some E.lexical_cast_uint16
    else if key = "revision" ∨ key = "content" then some E.lexical_cast_unsigned
    else none

/-- Number of statements of a store routine up to its last numeric field. -/
def numeric_span : map_type → Nat
  | .MAP_N100 => 2
  | .MAP_B000 => 3
  | .MAP_E100 => 4

/-! ## Statement of the load/commit round trip -/

/-- An N100 dictionary with the seven keys in the order `load_n100` assigns
them. -/
def n100_dict (rev product mac ip gpsdo serial name : Str) : mboard_eeprom_t :=
  [("rev", rev), ("product", product), ("mac-addr", mac), ("ip-addr", ip), ("gpsdo", gpsdo),
   ("serial", serial), ("name", name)]

/-- Serial number the empty serial correction of `load_n100` derives from the
last two bytes of the link-layer address field. -/
def n100_fallback_serial (iface : i2c_iface) : Nat :=
  iface.mem 0x50 7 ||| ((iface.mem 0x50 6 &&& 0x0f) <<< 8)

/-- Behaviour assumed of the library routines in the load/commit round trip,
for the values one device holds: a parser reads back the decimal string
printed for a stored number and rejects the empty string, and the MAC and
IPv4 texts parse back to the addresses they were printed from. -/
def library_round_trips (E : Ext) (iface : i2c_iface) : map_type → Prop
  | .MAP_N100 =>
    E.lexical_cast_uint16 [] = none ∧
    E.lexical_cast_uint16 (decimal (n100_rev iface)) = some (n100_rev iface) ∧
    E.lexical_cast_uint16 (decimal (n100_prod iface)) = some (n100_prod iface) ∧
    E.mac_from_string (E.mac_to_string (n100_mac iface)) = some (n100_mac iface) ∧
    E.ip_from_string (E.ip_to_string (n100_ip iface)) = some (n100_ip iface)
  | .MAP_B000 =>
    E.lexical_cast_double_uint32 [] = none ∧
    E.lexical_cast_double_uint32 (decimal (b000_clock_rate E iface))
      = some (b000_clock_rate E iface)
  | .MAP_E100 =>
    E.lexical_cast_uint16 (decimal (e100_vendor E iface)) = some (e100_vendor E iface) ∧
    E.lexical_cast_uint16 (decimal (e100_device E iface)) = some (e100_device E iface) ∧
    E.lexical_cast_unsigned (decimal (iface.mem 0x51 4)) = some (iface.mem 0x51 4) ∧
    E.lexical_cast_unsigned (decimal (iface.mem 0x51 5)) = some (iface.mem 0x51 5)

/-- Dictionary `load_n100` returns for a device, when the address text parses
back where the empty serial correction needs it. -/
def n100_loaded (E : Ext) (iface : i2c_iface) : mboard_eeprom_t :=
  n100_dict (decimal (n100_rev iface))
    (if n100_prod iface = 0 ∨ n100_prod iface = 0xffff then [] else decimal (n100_prod iface))
    (E.mac_to_string (n100_mac iface))
    (E.ip_to_string (n100_ip iface))
    (gpsdo_label (iface.mem 0x50 0x17))
    (if n100_serial iface = [] then decimal (n100_fallback_serial iface) else n100_serial iface)
    (ascii_at iface 0x50 0x21 23)

/-! # Properties -/

/-! ## The ASCII helpers -/

theorem bytes_to_string_loop_eq (bytes : byte_vector_t) :
    ∀ out : Str, bytes_to_string_loop out bytes = out ++ bytes.takeWhile kept := by
  induction bytes with
  | nil => intro out; simp [bytes_to_string_loop]
  | cons b rest ih =>
    intro out
    by_cases hb : b < 32 ∨ b > 127
    · have hk : kept b = false := by simp [kept]; omega
      simp [bytes_to_string_loop, hb, List.takeWhile_cons, hk]
    · have hk : kept b = true := by simp [kept]; omega
      simp [bytes_to_string_loop, hb, List.takeWhile_cons, hk, ih]

theorem bytes_to_string_eq_takeWhile (bytes : byte_vector_t) :
    bytes_to_string bytes = bytes.takeWhile kept := by
  simp [bytes_to_string, bytes_to_string_loop_eq]

theorem push_loop_eq_take (s : Str) :
    ∀ n, n ≤ s.length →
      (List.range n).foldl (fun bytes i => bytes ++ [s.getD i 0]) [] = s.take n := by
  intro n
  induction n with
  | zero => intro _; simp
  | succ n ih =>
    intro h
    have hn : n < s.length := by omega
    rw [List.range_succ, List.foldl_append, ih (by omega)]
    have hg : s.getD n 0 = s[n] := by
      rw [List.getD_eq_getElem?_getD, List.getElem?_eq_getElem hn]; rfl
    rw [List.take_succ, List.getElem?_eq_getElem hn]
    simp only [List.foldl_cons, List.foldl_nil, hg, Option.toList]

theorem string_to_bytes_eq (s : Str) (W : Nat) (h1 : 1 ≤ W) (h2 : W < 2 ^ 64) :
    string_to_bytes s W
      = s.take (min s.length W) ++ (if min s.length W < W - 1 then [0] else []) := by
  have hm : (W + SIZE_T_MOD - 1) % SIZE_T_MOD = W - 1 := by
    show (W + 2 ^ 64 - 1) % 2 ^ 64 = W - 1
    omega
  have hlen : (s.take (min s.length W)).length = min s.length W := by
    simp [List.length_take]
  simp only [string_to_bytes, hm, push_loop_eq_take s _ (Nat.min_le_left _ _), hlen]
  split <;> simp

theorem takeWhile_eq_take (p : Nat → Bool) :
    ∀ (l : List Nat) (k : Nat), k < l.length → (∀ i, i < k → p (l.getD i 0) = true) →
      p (l.getD k 0) = false → l.takeWhile p = l.take k := by
  intro l
  induction l with
  | nil => intro k hk; simp at hk
  | cons a l ih =>
    intro k hk hpre hstop
    cases k with
    | zero =>
      have : p a = false := by simpa using hstop
      simp [List.takeWhile_cons, this]
    | succ k =>
      have ha : p a = true := by simpa using hpre 0 (by omega)
      have hrec := ih k (by simpa using hk)
        (fun i hi => by simpa using hpre (i + 1) (by omega)) (by simpa using hstop)
      simp [List.takeWhile_cons, ha, hrec]

theorem takeWhile_all (p : Nat → Bool) (l : List Nat) (h : ∀ b ∈ l, p b = true) :
    l.takeWhile p = l := by
  induction l with
  | nil => rfl
  | cons a l ih =>
    have ha : p a = true := h a (by simp)
    simp [List.takeWhile_cons, ha, ih (fun b hb => h b (by simp [hb]))]

theorem takeWhile_append_stop (p : Nat → Bool) (l pad : List Nat) (h : ∀ b ∈ l, p b = true)
    (hpad : pad.takeWhile p = []) : (l ++ pad).takeWhile p = l := by
  induction l with
  | nil => simpa using hpad
  | cons a l ih =>
    have ha : p a = true := h a (by simp)
    simp [List.takeWhile_cons, ha, ih (fun b hb => h b (by simp [hb]))]

/-- Round trip of the two ASCII helpers on strings that fit the width and
whose bytes the decoder keeps. -/
theorem bytes_to_string_string_to_bytes (s : Str) (W : Nat) (h1 : 1 ≤ W) (h2 : W < 2 ^ 64)
    (hlen : s.length ≤ W) (hp : ∀ b ∈ s, 32 ≤ b ∧ b ≤ 127) :
    bytes_to_string (string_to_bytes s W) = s := by
  rw [string_to_bytes_eq s W h1 h2, bytes_to_string_eq_takeWhile]
  have hmin : min s.length W = s.length := by omega
  rw [hmin, List.take_length]
  apply takeWhile_append_stop kept s _ (fun b hb => by simpa [kept] using hp b hb)
  split <;> simp [kept]

/-! ## The dictionary -/

theorem find_map_replace_other (d : mboard_eeprom_t) (k k2 : String) (v : Str) (h : k ≠ k2) :
    (d.map (fun p => if p.1 == k then (p.1, v) else p)).find? (fun p => p.1 == k2)
      = d.find? (fun p => p.1 == k2) := by
  induction d with
  | nil => rfl
  | cons p d ih =>
    simp only [List.map_cons, List.find?_cons]
    by_cases hp : p.1 = k
    · have hb : (p.1 == k) = true := by simpa using hp
      have hb2 : (p.1 == k2) = false := by
        rw [hp]; simpa using h
      rw [if_pos hb]
      dsimp only
      rw [hb2]
      exact ih
    · have hb : ¬ ((p.1 == k) = true) := by simpa using hp
      rw [if_neg hb]
      cases hq : (p.1 == k2)
      · exact ih
      · rfl

theorem has_key_cons (p : String × Str) (d : mboard_eeprom_t) (k : String) :
    has_key (p :: d) k = (p.1 == k || has_key d k) := by
  simp [has_key, List.any_cons]

theorem dict_set_cons (p : String × Str) (d : mboard_eeprom_t) (k : String) (v : Str) :
    dict_set (p :: d) k v
      = if p.1 = k then (p.1, v) :: d.map (fun q => if q.1 == k then (q.1, v) else q)
        else p :: dict_set d k v := by
  unfold dict_set
  rw [has_key_cons]
  by_cases hp : p.1 = k
  · have hb : (p.1 == k) = true := by simpa using hp
    rw [if_pos hp, hb, Bool.true_or, if_pos rfl, List.map_cons, if_pos hb]
  · have hb : (p.1 == k) = false := by simpa using hp
    rw [if_neg hp, hb, Bool.false_or]
    cases hk : has_key d k
    · simp
    · simp [hp]

theorem find_dict_set_same (d : mboard_eeprom_t) (k : String) (v : Str) :
    (dict_set d k v).find? (fun p => p.1 == k) = some (k, v) := by
  induction d with
  | nil => simp [dict_set, has_key]
  | cons p d ih =>
    rw [dict_set_cons]
    by_cases hp : p.1 = k
    · rw [if_pos hp, List.find?_cons]
      simp [hp]
    · have hb : (p.1 == k) = false := by simpa using hp
      rw [if_neg hp, List.find?_cons, hb]
      exact ih

theorem find_dict_set_other (d : mboard_eeprom_t) (k k2 : String) (v : Str) (h : k ≠ k2) :
    (dict_set d k v).find? (fun p => p.1 == k2) = d.find? (fun p => p.1 == k2) := by
  induction d with
  | nil => simp [dict_set, has_key, h]
  | cons p d ih =>
    rw [dict_set_cons]
    by_cases hp : p.1 = k
    · have hb2 : (p.1 == k2) = false := by
        rw [hp]; simpa using h
      rw [if_pos hp, List.find?_cons, List.find?_cons]
      dsimp only
      rw [hb2]
      exact find_map_replace_other d k k2 v h
    · rw [if_neg hp, List.find?_cons, List.find?_cons]
      cases hq : (p.1 == k2)
      · exact ih
      · rfl

theorem dict_get_dict_set_same (d : mboard_eeprom_t) (k : String) (v : Str) :
    dict_get (dict_set d k v) k = .ok v := by
  simp [dict_get, find_dict_set_same]

theorem dict_get_dict_set_other (d : mboard_eeprom_t) (k k2 : String) (v : Str) (h : k ≠ k2) :
    dict_get (dict_set d k v) k2 = dict_get d k2 := by
  simp [dict_get, find_dict_set_other d k k2 v h]

theorem dict_ref_dict_set_same (d : mboard_eeprom_t) (k : String) (v : Str) :
    dict_ref (dict_set d k v) k = v := by
  simp [dict_ref, find_dict_set_same]

theorem dict_ref_dict_set_other (d : mboard_eeprom_t) (k k2 : String) (v : Str) (h : k ≠ k2) :
    dict_ref (dict_set d k v) k2 = dict_ref d k2 := by
  simp [dict_ref, find_dict_set_other d k k2 v h]

theorem has_key_of_dict_get (d : mboard_eeprom_t) (k : String) (v : Str)
    (h : dict_get d k = .ok v) : has_key d k = true := by
  unfold dict_get at h
  cases hf : d.find? (fun p => p.1 == k) with
  | none => rw [hf] at h; cases h
  | some p =>
    have hm := List.mem_of_find?_eq_some hf
    have hp := List.find?_some hf
    simp only [has_key, List.any_eq_true]
    exact ⟨p, hm, hp⟩

theorem dict_get_of_has_key (d : mboard_eeprom_t) (k : String) (h : has_key d k = true) :
    ∃ s, dict_get d k = .ok s := by
  unfold dict_get
  cases hf : d.find? (fun p => p.1 == k) with
  | some p => exact ⟨p.2, rfl⟩
  | none =>
    exfalso
    simp only [has_key, List.any_eq_true] at h
    obtain ⟨x, hx, hxk⟩ := h
    exact absurd hxk (by simpa using List.find?_eq_none.mp hf x hx)

/-! ## Byte order and the B000 clock rate -/

theorem ntohl_uint32_of_mem (le : Bool) (b0 b1 b2 b3 : Nat)
    (h0 : b0 < 256) (h1 : b1 < 256) (h2 : b2 < 256) (h3 : b3 < 256) :
    ntohl le (uint32_of_mem le [b0, b1, b2, b3]) = 2 ^ 24 * b0 + 2 ^ 16 * b1 + 2 ^ 8 * b2 + b3 := by
  cases le
  · simp [ntohl, uint32_of_mem]
  · simp only [ntohl, uint32_of_mem, byteswap32, if_true, List.getD_cons_zero, List.getD_cons_succ]
    omega

theorem read_eeprom_four (iface : i2c_iface) (addr offset : Nat) :
    iface.read_eeprom addr offset 4
      = ([iface.mem addr offset, iface.mem addr (offset + 1), iface.mem addr (offset + 2),
          iface.mem addr (offset + 3)],
         { iface with reads := iface.reads ++ [(addr, offset, 4)] }) := rfl

theorem load_b000_mcr (E : Ext) (mb_eeprom : mboard_eeprom_t) (iface : i2c_iface)
    (h0 : iface.mem 0x50 0xdd < 256) (h1 : iface.mem 0x50 0xde < 256)
    (h2 : iface.mem 0x50 0xdf < 256) (h3 : iface.mem 0x50 0xe0 < 256) :
    ∃ mb iface2, load_b000 E mb_eeprom iface = .ok (mb, iface2) ∧
      dict_get mb "mcr"
        = .ok (if 10 ^ 6 < mcr_value iface ∧ mcr_value iface < 10 ^ 9
               then decimal (mcr_value iface) else []) := by
  have hoff : offset_at USRP_B000_OFFSETS "mcr" = 0xdd := by decide
  have hv : ntohl E.little_endian (uint32_of_mem E.little_endian
      [iface.mem 0x50 0xdd, iface.mem 0x50 (0xdd + 1), iface.mem 0x50 (0xdd + 2),
       iface.mem 0x50 (0xdd + 3)]) = mcr_value iface :=
    ntohl_uint32_of_mem _ _ _ _ _ h0 h1 h2 h3
  simp only [load_b000, hoff, read_eeprom_four, B000_EEPROM_ADDR]
  simp only [i2c_iface.read_eeprom] at hv ⊢
  rw [hv]
  by_cases hr : 10 ^ 6 < mcr_value iface ∧ mcr_value iface < 10 ^ 9
  · have hr2 : mcr_value iface > 10 ^ 6 ∧ mcr_value iface < 10 ^ 9 := hr
    simp only [if_pos hr, if_pos hr2]
    exact ⟨_, _, rfl, dict_get_dict_set_same _ _ _⟩
  · have hr2 : ¬ (mcr_value iface > 10 ^ 6 ∧ mcr_value iface < 10 ^ 9) := hr
    simp only [if_neg hr, if_neg hr2]
    exact ⟨_, _, rfl, dict_get_dict_set_same _ _ _⟩

theorem mem_of_uint32_htonl (le : Bool) (b0 b1 b2 b3 : Nat)
    (h0 : b0 < 256) (h1 : b1 < 256) (h2 : b2 < 256) (h3 : b3 < 256) :
    mem_of_uint32 le (ntohl le ((2 ^ 24 * b0 + 2 ^ 16 * b1 + 2 ^ 8 * b2 + b3) % 2 ^ 32))
      = [b0, b1, b2, b3] := by
  have hv : (2 ^ 24 * b0 + 2 ^ 16 * b1 + 2 ^ 8 * b2 + b3) % 2 ^ 32
      = 2 ^ 24 * b0 + 2 ^ 16 * b1 + 2 ^ 8 * b2 + b3 := Nat.mod_eq_of_lt (by omega)
  rw [hv]
  cases le
  · simp only [ntohl, mem_of_uint32, Bool.false_eq_true, if_false, List.cons.injEq, and_true]
    omega
  · have hx : byteswap32 (2 ^ 24 * b0 + 2 ^ 16 * b1 + 2 ^ 8 * b2 + b3)
        = 2 ^ 24 * b3 + 2 ^ 16 * b2 + 2 ^ 8 * b1 + b0 := by
      simp only [byteswap32]
      omega
    simp only [ntohl, if_true]
    rw [hx]
    simp only [mem_of_uint32, if_true, List.cons.injEq, and_true]
    clear hx hv
    refine ⟨?_, ?_, ?_, ?_⟩ <;> omega

/-! ## Store statements -/

theorem store_field_absent (mb : mboard_eeprom_t) (k : String) (addr offset : Nat)
    (enc : Str → Except Error byte_vector_t) (iface : i2c_iface) (h : has_key mb k = false) :
    store_field mb k addr offset enc iface = ⟨iface, none⟩ := by
  simp [store_field, h]

theorem store_field_ok (mb : mboard_eeprom_t) (k : String) (addr offset : Nat)
    (enc : Str → Except Error byte_vector_t) (iface : i2c_iface) (s : Str) (bytes : byte_vector_t)
    (hg : dict_get mb k = .ok s) (he : enc s = .ok bytes) :
    store_field mb k addr offset enc iface = ⟨iface.write_eeprom addr offset bytes, none⟩ := by
  simp [store_field, has_key_of_dict_get mb k s hg, hg, bind, Except.bind, he]

theorem store_field_error (mb : mboard_eeprom_t) (k : String) (addr offset : Nat)
    (enc : Str → Except Error byte_vector_t) (iface : i2c_iface) (s : Str) (e : Error)
    (hg : dict_get mb k = .ok s) (he : enc s = .error e) :
    store_field mb k addr offset enc iface = ⟨iface, some e⟩ := by
  simp [store_field, has_key_of_dict_get mb k s hg, hg, bind, Except.bind, he]

theorem store_field_string (mb : mboard_eeprom_t) (k : String) (addr offset W : Nat)
    (iface : i2c_iface) :
    store_field mb k addr offset (encode_string W) iface = ⟨iface, none⟩ ∨
    ∃ s, dict_get mb k = .ok s ∧
      store_field mb k addr offset (encode_string W) iface
        = ⟨iface.write_eeprom addr offset (string_to_bytes s W), none⟩ := by
  cases h : has_key mb k
  · exact Or.inl (store_field_absent mb k addr offset _ iface h)
  · obtain ⟨s, hs⟩ := dict_get_of_has_key mb k h
    exact Or.inr ⟨s, hs, store_field_ok mb k addr offset _ iface s _ hs rfl⟩

theorem getLast?_write (iface : i2c_iface) (addr offset : Nat) (bytes : byte_vector_t) :
    (iface.write_eeprom addr offset bytes).writes.getLast? = some (addr, offset, bytes) := by
  simp [i2c_iface.write_eeprom]

theorem write_eeprom_mem_four (iface : i2c_iface) (addr offset b0 b1 b2 b3 : Nat) :
    (iface.write_eeprom addr offset [b0, b1, b2, b3]).mem addr offset = b0 ∧
    (iface.write_eeprom addr offset [b0, b1, b2, b3]).mem addr (offset + 1) = b1 ∧
    (iface.write_eeprom addr offset [b0, b1, b2, b3]).mem addr (offset + 2) = b2 ∧
    (iface.write_eeprom addr offset [b0, b1, b2, b3]).mem addr (offset + 3) = b3 := by
  simp [i2c_iface.write_eeprom]

theorem store_b000_mcr (E : Ext) (mb_eeprom : mboard_eeprom_t) (iface : i2c_iface)
    (s : Str) (bytes : byte_vector_t)
    (hg : dict_get mb_eeprom "mcr" = .ok s) (he : encode_mcr E s = .ok bytes) :
    ∃ iface1 : i2c_iface,
      store_b000 E mb_eeprom iface = ⟨iface1.write_eeprom 0x50 0xdd bytes, none⟩ := by
  have hoff : offset_at USRP_B000_OFFSETS "mcr" = 0xdd := by decide
  have h3 := fun i => store_field_ok mb_eeprom "mcr" B000_EEPROM_ADDR 0xdd (encode_mcr E) i s bytes hg he
  simp only [store_b000, hoff, seq]
  rcases store_field_string mb_eeprom "serial" B000_EEPROM_ADDR
      (offset_at USRP_B000_OFFSETS "serial") B000_SERIAL_LEN iface with h1 | ⟨s1, _, h1⟩ <;>
    rw [h1] <;> dsimp only
  all_goals
    rcases store_field_string mb_eeprom "name" B000_EEPROM_ADDR
        (offset_at USRP_B000_OFFSETS "name") NAME_MAX_LEN _ with h2 | ⟨s2, _, h2⟩ <;>
      rw [h2] <;> dsimp only <;> rw [h3] <;> dsimp only <;> exact ⟨_, rfl⟩

theorem encode_mcr_decimal (E : Ext) (b0 b1 b2 b3 : Nat)
    (h0 : b0 < 256) (h1 : b1 < 256) (h2 : b2 < 256) (h3 : b3 < 256)
    (hparse : E.lexical_cast_double_uint32 (decimal (2 ^ 24 * b0 + 2 ^ 16 * b1 + 2 ^ 8 * b2 + b3))
      = some (2 ^ 24 * b0 + 2 ^ 16 * b1 + 2 ^ 8 * b2 + b3)) :
    encode_mcr E (decimal (2 ^ 24 * b0 + 2 ^ 16 * b1 + 2 ^ 8 * b2 + b3))
      = .ok [b0, b1, b2, b3] := by
  simp only [encode_mcr, hparse]
  rw [mem_of_uint32_htonl E.little_endian b0 b1 b2 b3 h0 h1 h2 h3]

/-! ## N100 load -/

theorem read_eeprom_one (iface : i2c_iface) (addr offset : Nat) :
    iface.read_eeprom addr offset 1
      = ([iface.mem addr offset], { iface with reads := iface.reads ++ [(addr, offset, 1)] }) := rfl

theorem read_eeprom_two (iface : i2c_iface) (addr offset : Nat) :
    iface.read_eeprom addr offset 2
      = ([iface.mem addr offset, iface.mem addr (offset + 1)],
         { iface with reads := iface.reads ++ [(addr, offset, 2)] }) := rfl

theorem read_eeprom_six (iface : i2c_iface) (addr offset : Nat) :
    iface.read_eeprom addr offset 6
      = ([iface.mem addr offset, iface.mem addr (offset + 1), iface.mem addr (offset + 2),
          iface.mem addr (offset + 3), iface.mem addr (offset + 4), iface.mem addr (offset + 5)],
         { iface with reads := iface.reads ++ [(addr, offset, 6)] }) := rfl

theorem read_eeprom_fst (iface : i2c_iface) (addr offset n : Nat) :
    (iface.read_eeprom addr offset n).1 = (List.range n).map (fun i => iface.mem addr (offset + i)) :=
  rfl

theorem load_n100_serial (E : Ext) (mb0 : mboard_eeprom_t) (iface : i2c_iface) :
    (n100_serial iface ≠ [] →
      ∃ mb iface2, load_n100 E mb0 iface = .ok (mb, iface2) ∧
        dict_get mb "serial" = .ok (n100_serial iface)) ∧
    (n100_serial iface = [] →
      E.mac_from_string (E.mac_to_string (n100_mac iface)) = some (n100_mac iface) →
      ∃ mb iface2, load_n100 E mb0 iface = .ok (mb, iface2) ∧
        dict_get mb "serial"
          = .ok (decimal ((n100_mac iface).b5 ||| (((n100_mac iface).b4 &&& 0x0f) <<< 8)))) := by
  have o1 : offset_at USRP_N100_OFFSETS "rev-lsb-msb" = 0x00 := by decide
  have o2 : offset_at USRP_N100_OFFSETS "prod-lsb-msb" = 0x14 := by decide
  have o3 : offset_at USRP_N100_OFFSETS "mac-addr" = 0x02 := by decide
  have o4 : offset_at USRP_N100_OFFSETS "ip-addr" = 0x0c := by decide
  have o5 : offset_at USRP_N100_OFFSETS "gpsdo" = 0x17 := by decide
  have o6 : offset_at USRP_N100_OFFSETS "serial" = 0x18 := by decide
  have o7 : offset_at USRP_N100_OFFSETS "name" = 0x21 := by decide
  have n1 : ("name" : String) ≠ "serial" := by decide
  have n2 : ("name" : String) ≠ "mac-addr" := by decide
  have n3 : ("serial" : String) ≠ "mac-addr" := by decide
  have n4 : ("gpsdo" : String) ≠ "mac-addr" := by decide
  have n5 : ("ip-addr" : String) ≠ "mac-addr" := by decide
  have hser : ∀ r w, bytes_to_string
      ((⟨iface.mem, r, w⟩ : i2c_iface).read_eeprom N100_EEPROM_ADDR 24 SERIAL_LEN).1
        = n100_serial iface := fun _ _ => rfl
  simp only [load_n100, o1, o2, o3, o4, o5, o6, o7, read_eeprom_one, read_eeprom_two,
    read_eeprom_six, read_eeprom_four, vec_at, mac_addr_t.from_bytes, bind, Except.bind,
    List.get?_cons_zero, List.get?_cons_succ, pure, Except.pure,
    dict_ref_dict_set_other _ _ _ _ n1, dict_ref_dict_set_other _ _ _ _ n2,
    dict_ref_dict_set_other _ _ _ _ n3, dict_ref_dict_set_other _ _ _ _ n4,
    dict_ref_dict_set_other _ _ _ _ n5, dict_ref_dict_set_same, hser,
    mac_addr_t.to_bytes]
  have hmac : (⟨iface.mem N100_EEPROM_ADDR 2, iface.mem N100_EEPROM_ADDR (2 + 1),
      iface.mem N100_EEPROM_ADDR (2 + 2), iface.mem N100_EEPROM_ADDR (2 + 3),
      iface.mem N100_EEPROM_ADDR (2 + 4), iface.mem N100_EEPROM_ADDR (2 + 5)⟩ : mac_addr_t)
      = n100_mac iface := rfl
  rw [hmac]
  constructor
  · intro hne
    rw [if_neg hne]
    refine ⟨_, _, rfl, ?_⟩
    rw [dict_get_dict_set_other _ _ _ _ n1, dict_get_dict_set_same]
  · intro he hrt
    rw [if_pos he, hrt]
    refine ⟨_, _, rfl, ?_⟩
    rw [dict_get_dict_set_same]

/-! ## Runs of store statements -/

theorem commit_eq_store_fields (E : Ext) (mb_eeprom : mboard_eeprom_t) (iface : i2c_iface)
    (map : map_type) :
    commit E mb_eeprom iface map = store_fields mb_eeprom (eeprom_addr map) (codecs E map) iface := by
  cases map <;> rfl

theorem codecs_fields (E : Ext) (map : map_type) :
    (codecs E map).map Prod.fst = declared_fields map := by
  cases map <;> rfl

theorem string_to_bytes_length_le (s : Str) (W : Nat) (h1 : 1 ≤ W) (h2 : W < 2 ^ 64) :
    (string_to_bytes s W).length ≤ W := by
  rw [string_to_bytes_eq s W h1 h2]
  split
  · simp only [List.length_append, List.length_take, List.length_singleton]
    omega
  · simp only [List.append_nil, List.length_take]
    omega

theorem encode_lsb_msb_length (E : Ext) (s : Str) (bytes : byte_vector_t)
    (h : encode_lsb_msb E s = .ok bytes) : bytes.length = 2 := by
  unfold encode_lsb_msb at h
  cases hp : E.lexical_cast_uint16 s with
  | none => rw [hp] at h; cases h
  | some v => rw [hp] at h; cases h; rfl

theorem encode_mac_addr_length (E : Ext) (s : Str) (bytes : byte_vector_t)
    (h : encode_mac_addr E s = .ok bytes) : bytes.length = 6 := by
  unfold encode_mac_addr at h
  cases hp : E.mac_from_string s with
  | none => rw [hp] at h; cases h
  | some v => rw [hp] at h; cases h; rfl

theorem encode_ip_addr_length (E : Ext) (s : Str) (bytes : byte_vector_t)
    (h : encode_ip_addr E s = .ok bytes) : bytes.length = 4 := by
  unfold encode_ip_addr at h
  cases hp : E.ip_from_string s with
  | none => rw [hp] at h; cases h
  | some v => rw [hp] at h; cases h; rfl

theorem encode_gpsdo_length (s : Str) (bytes : byte_vector_t)
    (h : encode_gpsdo s = .ok bytes) : bytes.length = 1 := by
  unfold encode_gpsdo at h
  cases h; rfl

theorem encode_mcr_length (E : Ext) (s : Str) (bytes : byte_vector_t)
    (h : encode_mcr E s = .ok bytes) : bytes.length = 4 := by
  unfold encode_mcr at h
  cases hp : E.lexical_cast_double_uint32 s with
  | none => rw [hp] at h; cases h
  | some v =>
    rw [hp] at h; cases h
    simp only [mem_of_uint32]
    split <;> rfl

theorem encode_htonx16_length (E : Ext) (s : Str) (bytes : byte_vector_t)
    (h : encode_htonx16 E s = .ok bytes) : bytes.length = 2 := by
  unfold encode_htonx16 at h
  cases hp : E.lexical_cast_uint16 s with
  | none => rw [hp] at h; cases h
  | some v =>
    rw [hp] at h; cases h
    simp only [mem_of_uint16]
    split <;> rfl

theorem encode_unsigned_byte_length (E : Ext) (s : Str) (bytes : byte_vector_t)
    (h : encode_unsigned_byte E s = .ok bytes) : bytes.length = 1 := by
  unfold encode_unsigned_byte at h
  cases hp : E.lexical_cast_unsigned s with
  | none => rw [hp] at h; cases h
  | some v => rw [hp] at h; cases h; rfl

theorem encode_string_length (W : Nat) (h1 : 1 ≤ W) (h2 : W < 2 ^ 64) (s : Str)
    (bytes : byte_vector_t) (h : encode_string W s = .ok bytes) : bytes.length ≤ W := by
  have hb : string_to_bytes s W = bytes := Except.ok.inj h
  rw [← hb]
  exact string_to_bytes_length_le s W h1 h2

/-- Every encoder of a store routine yields at most as many bytes as its
field is wide. -/
theorem codecs_bounded (E : Ext) (map : map_type) :
    ∀ c ∈ codecs E map, ∀ s bytes, c.2 s = .ok bytes → bytes.length ≤ c.1.width := by
  intro c hc s bytes h
  cases map <;> simp only [codecs, List.mem_cons, List.mem_singleton, List.not_mem_nil, or_false] at hc
  · rcases hc with rfl | rfl | rfl | rfl | rfl | rfl | rfl
    · exact le_of_eq (encode_lsb_msb_length E s bytes h)
    · exact le_of_eq (encode_lsb_msb_length E s bytes h)
    · exact le_of_eq (encode_mac_addr_length E s bytes h)
    · exact le_of_eq (encode_ip_addr_length E s bytes h)
    · exact le_of_eq (encode_gpsdo_length s bytes h)
    · exact encode_string_length 9 (by decide) (by decide) s bytes h
    · exact encode_string_length 23 (by decide) (by decide) s bytes h
  · rcases hc with rfl | rfl | rfl
    · exact encode_string_length 8 (by decide) (by decide) s bytes h
    · exact encode_string_length 23 (by decide) (by decide) s bytes h
    · exact le_of_eq (encode_mcr_length E s bytes h)
  · rcases hc with rfl | rfl | rfl | rfl | rfl | rfl | rfl | rfl | rfl
    · exact le_of_eq (encode_htonx16_length E s bytes h)
    · exact le_of_eq (encode_htonx16_length E s bytes h)
    · exact le_of_eq (encode_unsigned_byte_length E s bytes h)
    · exact le_of_eq (encode_unsigned_byte_length E s bytes h)
    · exact encode_string_length 8 (by decide) (by decide) s bytes h
    · exact encode_string_length 16 (by decide) (by decide) s bytes h
    · exact encode_string_length 64 (by decide) (by decide) s bytes h
    · exact encode_string_length 10 (by decide) (by decide) s bytes h
    · exact encode_string_length 23 (by decide) (by decide) s bytes h

theorem store_fields_nil (mb : mboard_eeprom_t) (addr : Nat) (iface : i2c_iface) :
    store_fields mb addr [] iface = ⟨iface, none⟩ := rfl

theorem store_fields_cons (mb : mboard_eeprom_t) (addr : Nat) (c : codec) (cs : List codec)
    (iface : i2c_iface) :
    store_fields mb addr (c :: cs) iface
      = match (store_field mb c.1.key addr c.1.offset c.2 iface).error with
        | none => store_fields mb addr cs (store_field mb c.1.key addr c.1.offset c.2 iface).iface
        | some e => ⟨(store_field mb c.1.key addr c.1.offset c.2 iface).iface, some e⟩ := rfl

/-- The three ways a guarded store statement can go: key absent, bytes
written, or encoder failed with nothing written. -/
theorem store_field_cases (mb : mboard_eeprom_t) (k : String) (addr offset : Nat)
    (enc : Str → Except Error byte_vector_t) (iface : i2c_iface) :
    (has_key mb k = false ∧ store_field mb k addr offset enc iface = ⟨iface, none⟩) ∨
    (has_key mb k = true ∧ ∃ s bytes, dict_get mb k = .ok s ∧ enc s = .ok bytes ∧
      store_field mb k addr offset enc iface = ⟨iface.write_eeprom addr offset bytes, none⟩) ∨
    (has_key mb k = true ∧ ∃ s e, dict_get mb k = .ok s ∧ enc s = .error e ∧
      store_field mb k addr offset enc iface = ⟨iface, some e⟩) := by
  cases h : has_key mb k
  · exact Or.inl ⟨rfl, store_field_absent mb k addr offset enc iface h⟩
  · obtain ⟨s, hs⟩ := dict_get_of_has_key mb k h
    cases he : enc s with
    | ok bytes =>
      exact Or.inr (Or.inl ⟨rfl, s, bytes, hs, he, store_field_ok mb k addr offset enc iface s bytes hs he⟩)
    | error e =>
      exact Or.inr (Or.inr ⟨rfl, s, e, hs, he, store_field_error mb k addr offset enc iface s e hs he⟩)

theorem write_eeprom_mem_outside (iface : i2c_iface) (addr offset : Nat) (bytes : byte_vector_t)
    (a o : Nat) (h : ¬ (a = addr ∧ offset ≤ o ∧ o < offset + bytes.length)) :
    (iface.write_eeprom addr offset bytes).mem a o = iface.mem a o := by
  simp only [i2c_iface.write_eeprom, if_neg h]

/-- Frame of a run of store statements: a byte outside the ranges of the
fields whose key is present keeps its value, whether or not the run ends. -/
theorem store_fields_frame (mb : mboard_eeprom_t) (addr : Nat) (a o : Nat) :
    ∀ (cs : List codec),
      (∀ c ∈ cs, ∀ s bytes, c.2 s = .ok bytes → bytes.length ≤ c.1.width) →
      ¬ (a = addr ∧ ∃ c ∈ cs, has_key mb c.1.key = true ∧ c.1.offset ≤ o ∧ o < c.1.offset + c.1.width) →
      ∀ iface, (store_fields mb addr cs iface).iface.mem a o = iface.mem a o := by
  intro cs
  induction cs with
  | nil => intro _ _ iface; rfl
  | cons c cs ih =>
    intro hb hout iface
    have hb2 : ∀ c2 ∈ cs, ∀ s bytes, c2.2 s = .ok bytes → bytes.length ≤ c2.1.width :=
      fun c2 hc2 => hb c2 (List.mem_cons_of_mem _ hc2)
    have hout2 : ¬ (a = addr ∧ ∃ c2 ∈ cs, has_key mb c2.1.key = true ∧ c2.1.offset ≤ o ∧
        o < c2.1.offset + c2.1.width) := by
      rintro ⟨ha, c2, hc2, hrest⟩
      exact hout ⟨ha, c2, List.mem_cons_of_mem _ hc2, hrest⟩
    rw [store_fields_cons]
    rcases store_field_cases mb c.1.key addr c.1.offset c.2 iface with
      ⟨_, h⟩ | ⟨hk, s, bytes, _, he, h⟩ | ⟨_, s, e, _, _, h⟩
    · rw [h]
      exact ih hb2 hout2 iface
    · rw [h]
      show (store_fields mb addr cs (iface.write_eeprom addr c.1.offset bytes)).iface.mem a o = _
      rw [ih hb2 hout2]
      apply write_eeprom_mem_outside
      rintro ⟨ha, hlo, hhi⟩
      have hlen := hb c (List.mem_cons_self _ _) s bytes he
      exact hout ⟨ha, c, List.mem_cons_self _ _, hk, hlo, by omega⟩
    · rw [h]

/-- Writes of a run of store statements that ends without an exception: one
per field whose key is present, in order, each at the field's offset and
inside its range. -/
theorem store_fields_writes (mb : mboard_eeprom_t) (addr : Nat) :
    ∀ (cs : List codec),
      (∀ c ∈ cs, ∀ s bytes, c.2 s = .ok bytes → bytes.length ≤ c.1.width) →
      ∀ iface, (store_fields mb addr cs iface).error = none →
        ∃ ws, (store_fields mb addr cs iface).iface.writes = iface.writes ++ ws ∧
          List.Forall₂ (write_fits addr) ws
            ((cs.map Prod.fst).filter fun f => has_key mb f.key) := by
  intro cs
  induction cs with
  | nil =>
    intro _ iface _
    exact ⟨[], by simp [store_fields_nil], List.Forall₂.nil⟩
  | cons c cs ih =>
    intro hb iface hok
    have hb2 : ∀ c2 ∈ cs, ∀ s bytes, c2.2 s = .ok bytes → bytes.length ≤ c2.1.width :=
      fun c2 hc2 => hb c2 (List.mem_cons_of_mem _ hc2)
    rw [store_fields_cons] at hok ⊢
    rcases store_field_cases mb c.1.key addr c.1.offset c.2 iface with
      ⟨hk, h⟩ | ⟨hk, s, bytes, _, he, h⟩ | ⟨_, s, e, _, _, h⟩
    · rw [h] at hok ⊢
      obtain ⟨ws, hw, hf⟩ := ih hb2 iface hok
      refine ⟨ws, hw, ?_⟩
      simpa [List.filter_cons, hk] using hf
    · rw [h] at hok ⊢
      obtain ⟨ws, hw, hf⟩ := ih hb2 (iface.write_eeprom addr c.1.offset bytes) hok
      refine ⟨(addr, c.1.offset, bytes) :: ws, ?_, ?_⟩
      · show (store_fields mb addr cs (iface.write_eeprom addr c.1.offset bytes)).iface.writes = _
        rw [hw]
        simp [i2c_iface.write_eeprom]
      · have hlen := hb c (List.mem_cons_self _ _) s bytes he
        have hfit : write_fits addr (addr, c.1.offset, bytes) c.1 := ⟨rfl, rfl, hlen⟩
        simpa [List.filter_cons, hk] using List.Forall₂.cons hfit hf
    · rw [h] at hok
      cases hok

theorem encode_lsb_msb_error (E : Ext) (s : Str) (e : Error)
    (h : encode_lsb_msb E s = .error e) : e = .bad_lexical_cast := by
  unfold encode_lsb_msb at h
  cases hp : E.lexical_cast_uint16 s with
  | none => rw [hp] at h; cases h; rfl
  | some v => rw [hp] at h; cases h

theorem store_n100_empty_product (E : Ext) (mb_eeprom : mboard_eeprom_t) (iface : i2c_iface)
    (hparse : E.lexical_cast_uint16 [] = none)
    (hprod : dict_get mb_eeprom "product" = .ok []) :
    (store_n100 E mb_eeprom iface).error = some .bad_lexical_cast ∧
    (∀ o, 0x14 ≤ o → o < 0x16 →
      (store_n100 E mb_eeprom iface).iface.mem 0x50 o = iface.mem 0x50 o) ∧
    ∃ ws, (store_n100 E mb_eeprom iface).iface.writes = iface.writes ++ ws ∧
      ∀ w ∈ ws, w.2.1 = 0x00 ∧ w.2.2.length = 2 := by
  have hs : store_n100 E mb_eeprom iface
      = store_fields mb_eeprom 0x50 (codecs E .MAP_N100) iface := rfl
  have henc : encode_lsb_msb E [] = .error .bad_lexical_cast := by
    simp only [encode_lsb_msb, hparse]
  have h2 := fun i => store_field_error mb_eeprom "product" 0x50 0x14 (encode_lsb_msb E) i []
    .bad_lexical_cast hprod henc
  rw [hs]
  simp only [codecs]
  rw [store_fields_cons]
  rcases store_field_cases mb_eeprom "rev" 0x50 0x00 (encode_lsb_msb E) iface with
    ⟨_, h⟩ | ⟨_, s, bytes, _, he, h⟩ | ⟨_, s, e, _, he, h⟩
  · dsimp only
    rw [h]
    dsimp only
    rw [store_fields_cons]
    dsimp only
    rw [h2]
    exact ⟨rfl, fun _ _ _ => rfl, [], by simp, by simp⟩
  · dsimp only
    rw [h]
    dsimp only
    rw [store_fields_cons]
    dsimp only
    rw [h2]
    refine ⟨rfl, ?_, [(0x50, 0x00, bytes)], by simp [i2c_iface.write_eeprom], ?_⟩
    · intro o hlo _
      apply write_eeprom_mem_outside
      rw [encode_lsb_msb_length E s bytes he]
      omega
    · intro w hw
      simp only [List.mem_singleton] at hw
      subst hw
      exact ⟨rfl, encode_lsb_msb_length E s bytes he⟩
  · dsimp only
    rw [h]
    dsimp only
    rw [encode_lsb_msb_error E s e he]
    exact ⟨rfl, fun _ _ _ => rfl, [], by simp, by simp⟩

theorem store_b000_empty_mcr (E : Ext) (mb_eeprom : mboard_eeprom_t) (iface : i2c_iface)
    (hparse : E.lexical_cast_double_uint32 [] = none)
    (hmcr : dict_get mb_eeprom "mcr" = .ok []) :
    (store_b000 E mb_eeprom iface).error = some .bad_lexical_cast ∧
    (∀ o, 0xdd ≤ o → o < 0xe1 →
      (store_b000 E mb_eeprom iface).iface.mem 0x50 o = iface.mem 0x50 o) ∧
    ∃ ws, (store_b000 E mb_eeprom iface).iface.writes = iface.writes ++ ws ∧
      ∀ w ∈ ws, 0xe1 ≤ w.2.1 := by
  have hs : store_b000 E mb_eeprom iface
      = store_fields mb_eeprom 0x50 (codecs E .MAP_B000) iface := rfl
  have henc : encode_mcr E [] = .error .bad_lexical_cast := by
    simp only [encode_mcr, hparse]
  have h3 := fun i => store_field_error mb_eeprom "mcr" 0x50 0xdd (encode_mcr E) i []
    .bad_lexical_cast hmcr henc
  rw [hs]
  simp only [codecs, store_fields_cons]
  rcases store_field_string mb_eeprom "serial" 0x50 0xf8 8 iface with h1 | ⟨s1, _, h1⟩ <;>
    rw [h1] <;> dsimp only
  · rcases store_field_string mb_eeprom "name" 0x50 0xe1 23 iface with h2 | ⟨s2, _, h2⟩ <;>
      rw [h2] <;> dsimp only <;> rw [h3] <;> dsimp only
    · exact ⟨rfl, fun _ _ _ => rfl, [], by simp, by simp⟩
    · refine ⟨rfl, ?_, [(0x50, 0xe1, string_to_bytes s2 23)], by simp [i2c_iface.write_eeprom],
        by simp⟩
      intro o _ hhi
      apply write_eeprom_mem_outside
      omega
  · rcases store_field_string mb_eeprom "name" 0x50 0xe1 23
        (iface.write_eeprom 0x50 0xf8 (string_to_bytes s1 8)) with h2 | ⟨s2, _, h2⟩ <;>
      rw [h2] <;> dsimp only <;> rw [h3] <;> dsimp only
    · refine ⟨rfl, ?_, [(0x50, 0xf8, string_to_bytes s1 8)], by simp [i2c_iface.write_eeprom],
        by simp⟩
      intro o _ hhi
      apply write_eeprom_mem_outside
      omega
    · refine ⟨rfl, ?_, [(0x50, 0xf8, string_to_bytes s1 8), (0x50, 0xe1, string_to_bytes s2 23)],
        by simp [i2c_iface.write_eeprom], by simp⟩
      intro o _ hhi
      rw [write_eeprom_mem_outside _ _ _ _ _ _ (by omega),
        write_eeprom_mem_outside _ _ _ _ _ _ (by omega)]

theorem serial_bits (m4 m5 : Nat) (h : m5 < 256) :
    m5 ||| ((m4 &&& 0x0f) <<< 8) = m5 + 256 * (m4 % 16) := by
  have h1 : m4 &&& 0x0f = m4 % 16 := Nat.and_pow_two_sub_one_eq_mod m4 4
  have h2 := Nat.mul_add_lt_is_or (i := 8) (b := m5) h (m4 % 16)
  rw [h1, Nat.shiftLeft_eq, Nat.or_comm, Nat.mul_comm, ← h2]
  omega

/-! ## Normal forms of the load routines -/

theorem read_eeprom_snd (iface : i2c_iface) (addr offset n : Nat) :
    (iface.read_eeprom addr offset n).2
      = { iface with reads := iface.reads ++ [(addr, offset, n)] } := rfl

theorem load_n100_eq (E : Ext) (mb0 : mboard_eeprom_t) (iface : i2c_iface) :
    load_n100 E mb0 iface
      = if n100_serial iface = [] then
          match E.mac_from_string (E.mac_to_string (n100_mac iface)) with
          | none => .error .bad_mac_addr
          | some m =>
            .ok (dict_set (n100_before_correction E mb0 iface) "serial"
                  (decimal (m.b5 ||| ((m.b4 &&& 0x0f) <<< 8))),
                 { iface with reads := iface.reads ++ n100_reads })
        else .ok (n100_before_correction E mb0 iface,
                  { iface with reads := iface.reads ++ n100_reads }) := by
  have o1 : offset_at USRP_N100_OFFSETS "rev-lsb-msb" = 0x00 := by decide
  have o2 : offset_at USRP_N100_OFFSETS "prod-lsb-msb" = 0x14 := by decide
  have o3 : offset_at USRP_N100_OFFSETS "mac-addr" = 0x02 := by decide
  have o4 : offset_at USRP_N100_OFFSETS "ip-addr" = 0x0c := by decide
  have o5 : offset_at USRP_N100_OFFSETS "gpsdo" = 0x17 := by decide
  have o6 : offset_at USRP_N100_OFFSETS "serial" = 0x18 := by decide
  have o7 : offset_at USRP_N100_OFFSETS "name" = 0x21 := by decide
  have n1 : ("name" : String) ≠ "serial" := by decide
  have n2 : ("name" : String) ≠ "mac-addr" := by decide
  have n3 : ("serial" : String) ≠ "mac-addr" := by decide
  have n4 : ("gpsdo" : String) ≠ "mac-addr" := by decide
  have n5 : ("ip-addr" : String) ≠ "mac-addr" := by decide
  have hser : ∀ r w, bytes_to_string
      ((⟨iface.mem, r, w⟩ : i2c_iface).read_eeprom N100_EEPROM_ADDR 24 SERIAL_LEN).1
        = n100_serial iface := fun _ _ => rfl
  simp only [load_n100, o1, o2, o3, o4, o5, o6, o7, read_eeprom_one, read_eeprom_two,
    read_eeprom_six, read_eeprom_four, vec_at, mac_addr_t.from_bytes, bind, Except.bind,
    List.get?_cons_zero, List.get?_cons_succ, pure, Except.pure,
    dict_ref_dict_set_other _ _ _ _ n1, dict_ref_dict_set_other _ _ _ _ n2,
    dict_ref_dict_set_other _ _ _ _ n3, dict_ref_dict_set_other _ _ _ _ n4,
    dict_ref_dict_set_other _ _ _ _ n5, dict_ref_dict_set_same, hser,
    mac_addr_t.to_bytes]
  have hreads : ∀ r : List (Nat × Nat × Nat),
      r ++ [(N100_EEPROM_ADDR, 0, 2)] ++ [(N100_EEPROM_ADDR, 20, 2)] ++ [(N100_EEPROM_ADDR, 2, 6)]
        ++ [(N100_EEPROM_ADDR, 12, 4)] ++ [(N100_EEPROM_ADDR, 23, 1)]
        ++ [(N100_EEPROM_ADDR, 24, SERIAL_LEN)] ++ [(N100_EEPROM_ADDR, 33, NAME_MAX_LEN)]
        = r ++ n100_reads := by
    intro r
    simp only [List.append_assoc]
    rfl
  simp only [i2c_iface.read_eeprom, hreads]
  rfl

theorem load_b000_eq (E : Ext) (mb0 : mboard_eeprom_t) (iface : i2c_iface) :
    load_b000 E mb0 iface
      = .ok (b000_loaded E mb0 iface, { iface with reads := iface.reads ++ b000_reads }) := by
  have hreads : iface.reads ++ [(0x50, 0xf8, 8)] ++ [(0x50, 0xe1, 23)] ++ [(0x50, 0xdd, 4)]
      = iface.reads ++ b000_reads := by
    simp only [List.append_assoc]
    rfl
  have h : load_b000 E mb0 iface
      = .ok (b000_loaded E mb0 iface,
          { iface with reads := iface.reads ++ [(0x50, 0xf8, 8)] ++ [(0x50, 0xe1, 23)]
              ++ [(0x50, 0xdd, 4)] }) := by
    unfold load_b000 b000_loaded
    by_cases hr : b000_clock_rate E iface > 10 ^ 6 ∧ b000_clock_rate E iface < 10 ^ 9
    · rw [if_pos hr]
      exact if_pos hr
    · rw [if_neg hr]
      exact if_neg hr
  rw [h, hreads]

theorem load_e100_eq (E : Ext) (mb0 : mboard_eeprom_t) (iface : i2c_iface) :
    load_e100 E mb0 iface
      = .ok (e100_loaded E mb0 iface, { iface with reads := iface.reads ++ e100_reads }) := by
  have hreads : iface.reads ++ [(0x51, 0, 6)] ++ [(0x51, 6, 8)] ++ [(0x51, 14, 16)]
      ++ [(0x51, 30, 64)] ++ [(0x51, 94, 10)] ++ [(0x51, 104, 23)]
      = iface.reads ++ e100_reads := by
    simp only [List.append_assoc]
    rfl
  have h : load_e100 E mb0 iface
      = .ok (e100_loaded E mb0 iface,
          { iface with reads := iface.reads ++ [(0x51, 0, 6)] ++ [(0x51, 6, 8)] ++ [(0x51, 14, 16)]
              ++ [(0x51, 30, 64)] ++ [(0x51, 94, 10)] ++ [(0x51, 104, 23)] }) := by
    have f1 : offsetof e100_eeprom_map "vendor" = 0 := by decide
    have f2 : offsetof e100_eeprom_map "device" = 2 := by decide
    have f3 : offsetof e100_eeprom_map "revision" = 4 := by decide
    have f4 : offsetof e100_eeprom_map "content" = 5 := by decide
    have f5 : offsetof e100_eeprom_map "model" = 6 := by decide
    have f6 : offsetof e100_eeprom_map "env_var" = 14 := by decide
    have f7 : offsetof e100_eeprom_map "env_setting" = 30 := by decide
    have f8 : offsetof e100_eeprom_map "serial" = 94 := by decide
    have f9 : offsetof e100_eeprom_map "name" = 104 := by decide
    have g5 : sizeof_member e100_eeprom_map "model" = 8 := by decide
    have g6 : sizeof_member e100_eeprom_map "env_var" = 16 := by decide
    have g7 : sizeof_member e100_eeprom_map "env_setting" = 64 := by decide
    have g8 : sizeof_member e100_eeprom_map "serial" = 10 := by decide
    have g9 : sizeof_member e100_eeprom_map "name" = 23 := by decide
    simp only [load_e100, load_e100_string_xx, f1, f2, f3, f4, f5, f6, f7, f8, f9, g5, g6, g7, g8,
      g9, read_eeprom_six, read_eeprom_fst, read_eeprom_snd, E100_EEPROM_ADDR]
    rfl
  rw [h, hreads]

theorem has_key_eq_isSome (d : mboard_eeprom_t) (k : String) :
    has_key d k = (d.find? (fun p => p.1 == k)).isSome := by
  induction d with
  | nil => rfl
  | cons p d ih =>
    rw [has_key_cons, List.find?_cons]
    cases hq : (p.1 == k)
    · simpa using ih
    · rfl

theorem has_key_dict_set (d : mboard_eeprom_t) (k k2 : String) (v : Str) :
    has_key (dict_set d k v) k2 = (decide (k = k2) || has_key d k2) := by
  rw [has_key_eq_isSome, has_key_eq_isSome]
  by_cases h : k = k2
  · subst h
    simp [find_dict_set_same]
  · simp [find_dict_set_other d k k2 v h, h]

theorem n100_before_correction_keys (E : Ext) (mb0 : mboard_eeprom_t) (iface : i2c_iface) :
    ∀ k ∈ ["rev", "product", "mac-addr", "ip-addr", "gpsdo", "serial", "name"],
      has_key (n100_before_correction E mb0 iface) k = true := by
  intro k hk
  simp only [n100_before_correction, has_key_dict_set]
  simp only [List.mem_cons, List.mem_singleton, List.not_mem_nil, or_false] at hk
  rcases hk with rfl | rfl | rfl | rfl | rfl | rfl | rfl <;> simp

theorem b000_loaded_keys (E : Ext) (mb0 : mboard_eeprom_t) (iface : i2c_iface) :
    ∀ k ∈ ["serial", "name", "mcr"], has_key (b000_loaded E mb0 iface) k = true := by
  intro k hk
  simp only [b000_loaded, has_key_dict_set]
  simp only [List.mem_cons, List.mem_singleton, List.not_mem_nil, or_false] at hk
  rcases hk with rfl | rfl | rfl <;> simp

theorem e100_loaded_keys (E : Ext) (mb0 : mboard_eeprom_t) (iface : i2c_iface) :
    ∀ k ∈ ["vendor", "device", "revision", "content", "model", "env_var", "env_setting",
        "serial", "name"], has_key (e100_loaded E mb0 iface) k = true := by
  intro k hk
  simp only [e100_loaded, has_key_dict_set]
  simp only [List.mem_cons, List.mem_singleton, List.not_mem_nil, or_false] at hk
  rcases hk with rfl | rfl | rfl | rfl | rfl | rfl | rfl | rfl | rfl <;> simp

/-- Outcome of `load_n100` when the address text parses where needed: it
returns, with the read log extended by the seven reads, and the dictionary is
the one built before the correction, except for `"serial"` when that decoded
empty. -/
theorem load_n100_returns (E : Ext) (mb0 : mboard_eeprom_t) (iface : i2c_iface)
    (hmac : n100_mac_text_parses E iface) :
    ∃ mb, load_n100 E mb0 iface = .ok (mb, { iface with reads := iface.reads ++ n100_reads }) ∧
      (∀ k, k ≠ "serial" → dict_get mb k = dict_get (n100_before_correction E mb0 iface) k) ∧
      (n100_serial iface ≠ [] → mb = n100_before_correction E mb0 iface) ∧
      ∀ k, has_key mb k = has_key (n100_before_correction E mb0 iface) k := by
  rw [load_n100_eq]
  by_cases hs : n100_serial iface = []
  · rw [if_pos hs]
    have hp := hmac hs
    cases hm : E.mac_from_string (E.mac_to_string (n100_mac iface)) with
    | none => rw [hm] at hp; cases hp
    | some m =>
      refine ⟨_, rfl, ?_, fun h => absurd hs h, ?_⟩
      · intro k hk
        exact dict_get_dict_set_other _ _ _ _ (Ne.symm hk)
      · intro k
        rw [has_key_dict_set]
        by_cases hk : "serial" = k
        · subst hk
          simp [n100_before_correction_keys E mb0 iface "serial" (by simp)]
        · simp [hk]
  · rw [if_neg hs]
    exact ⟨_, rfl, fun _ _ => rfl, fun _ => rfl, fun _ => rfl⟩

/-! ## Runs of store statements: what is written and where a run stops -/

theorem store_fields_append (mb : mboard_eeprom_t) (addr : Nat) (cs ds : List codec) :
    ∀ iface, store_fields mb addr (cs ++ ds) iface
      = match (store_fields mb addr cs iface).error with
        | none => store_fields mb addr ds (store_fields mb addr cs iface).iface
        | some e => ⟨(store_fields mb addr cs iface).iface, some e⟩ := by
  induction cs with
  | nil => intro iface; rfl
  | cons c cs ih =>
    intro iface
    rw [List.cons_append, store_fields_cons, store_fields_cons]
    cases he : (store_field mb c.1.key addr c.1.offset c.2 iface).error with
    | none => exact ih _
    | some e => rfl

/-- Fine frame of a run of store statements: a byte that no statement of the
run overwrites keeps its value. -/
theorem store_fields_untouched (mb : mboard_eeprom_t) (addr : Nat) (a o : Nat) :
    ∀ (cs : List codec),
      (∀ c ∈ cs, ∀ s bytes, dict_get mb c.1.key = .ok s → c.2 s = .ok bytes →
        ¬ (a = addr ∧ c.1.offset ≤ o ∧ o < c.1.offset + bytes.length)) →
      ∀ iface, (store_fields mb addr cs iface).iface.mem a o = iface.mem a o := by
  intro cs
  induction cs with
  | nil => intro _ iface; rfl
  | cons c cs ih =>
    intro hout iface
    have hout2 := fun c2 (hc2 : c2 ∈ cs) => hout c2 (List.mem_cons_of_mem _ hc2)
    rw [store_fields_cons]
    rcases store_field_cases mb c.1.key addr c.1.offset c.2 iface with
      ⟨_, h⟩ | ⟨_, s, bytes, hg, he, h⟩ | ⟨_, s, e, _, _, h⟩
    · rw [h]
      exact ih hout2 iface
    · rw [h]
      show (store_fields mb addr cs (iface.write_eeprom addr c.1.offset bytes)).iface.mem a o = _
      rw [ih hout2]
      exact write_eeprom_mem_outside _ _ _ _ _ _ (hout c (List.mem_cons_self _ _) s bytes hg he)
    · rw [h]

theorem write_eeprom_mem_inside (iface : i2c_iface) (addr offset : Nat) (bytes : byte_vector_t)
    (i : Nat) (h : i < bytes.length) :
    (iface.write_eeprom addr offset bytes).mem addr (offset + i) = bytes.getD i 0 := by
  have hc : addr = addr ∧ offset ≤ offset + i ∧ offset + i < offset + bytes.length :=
    ⟨rfl, by omega, by omega⟩
  show (if addr = addr ∧ offset ≤ offset + i ∧ offset + i < offset + bytes.length
      then bytes.getD (offset + i - offset) 0 else iface.mem addr (offset + i)) = _
  rw [if_pos hc, Nat.add_sub_cancel_left]

/-- A run that ends without an exception has encoded every present field. -/
theorem store_fields_ok_all (mb : mboard_eeprom_t) (addr : Nat) :
    ∀ (cs : List codec) iface, (store_fields mb addr cs iface).error = none →
      ∀ c ∈ cs, ∀ s, dict_get mb c.1.key = .ok s → ∃ bytes, c.2 s = .ok bytes := by
  intro cs
  induction cs with
  | nil => intro _ _ c hc; cases hc
  | cons c0 cs ih =>
    intro iface hok c hc s hg
    rw [store_fields_cons] at hok
    rcases store_field_cases mb c0.1.key addr c0.1.offset c0.2 iface with
      ⟨hk, h⟩ | ⟨_, s0, bytes0, hg0, he0, h⟩ | ⟨_, s0, e, _, _, h⟩
    · rw [h] at hok
      rcases List.mem_cons.mp hc with rfl | hc
      · rw [has_key_of_dict_get mb _ s hg] at hk
        cases hk
      · exact ih iface hok c hc s hg
    · rw [h] at hok
      rcases List.mem_cons.mp hc with rfl | hc
      · rw [hg0] at hg
        cases hg
        exact ⟨bytes0, he0⟩
      · exact ih _ hok c hc s hg
    · rw [h] at hok
      cases hok

/-- After a run that ends without an exception, the bytes encoded for a
present field stand at the field's offset, when the fields of the run have
pairwise disjoint ranges. -/
theorem store_fields_written (mb : mboard_eeprom_t) (addr : Nat) :
    ∀ (cs : List codec), (cs.map Prod.fst).Pairwise ranges_disjoint →
      (∀ c ∈ cs, ∀ s bytes, c.2 s = .ok bytes → bytes.length ≤ c.1.width) →
      ∀ iface, (store_fields mb addr cs iface).error = none →
        ∀ c ∈ cs, ∀ s bytes, dict_get mb c.1.key = .ok s → c.2 s = .ok bytes →
          ∀ i, i < bytes.length →
            (store_fields mb addr cs iface).iface.mem addr (c.1.offset + i) = bytes.getD i 0 := by
  intro cs
  induction cs with
  | nil => intro _ _ _ _ c hc; cases hc
  | cons c0 cs ih =>
    intro hpw hb iface hok c hc s bytes hg he i hi
    rw [List.map_cons, List.pairwise_cons] at hpw
    have hb2 := fun c2 (hc2 : c2 ∈ cs) => hb c2 (List.mem_cons_of_mem _ hc2)
    rw [store_fields_cons] at hok ⊢
    rcases store_field_cases mb c0.1.key addr c0.1.offset c0.2 iface with
      ⟨hk, h⟩ | ⟨_, s0, bytes0, hg0, he0, h⟩ | ⟨_, s0, e, _, _, h⟩
    · rw [h] at hok ⊢
      rcases List.mem_cons.mp hc with rfl | hc
      · rw [has_key_of_dict_get mb _ s hg] at hk
        cases hk
      · exact ih hpw.2 hb2 iface hok c hc s bytes hg he i hi
    · rw [h] at hok ⊢
      rcases List.mem_cons.mp hc with rfl | hc
      · rw [hg0] at hg
        cases hg
        rw [he0] at he
        cases he
        show (store_fields mb addr cs (iface.write_eeprom addr c.1.offset bytes)).iface.mem addr
          (c.1.offset + i) = _
        rw [store_fields_untouched mb addr addr (c.1.offset + i) cs]
        · exact write_eeprom_mem_inside iface addr c.1.offset bytes i hi
        · intro c2 hc2 s2 bytes2 _ he2
          have hd := hpw.1 c2.1 (List.mem_map_of_mem _ hc2)
          have hl1 := hb c (List.mem_cons_self _ _) s bytes he0
          have hl2 := hb2 c2 hc2 s2 bytes2 he2
          unfold ranges_disjoint at hd
          omega
      · exact ih hpw.2 hb2 _ hok c hc s bytes hg he i hi
    · rw [h] at hok
      cases hok

/-- A run that stops does so at a present field whose encoder throws; the
statements before it have run to their end and nothing was done after. -/
theorem store_fields_stop (mb : mboard_eeprom_t) (addr : Nat) :
    ∀ (cs : List codec) iface e, (store_fields mb addr cs iface).error = some e →
      ∃ pre c post s, cs = pre ++ c :: post ∧ dict_get mb c.1.key = .ok s ∧ c.2 s = .error e ∧
        (store_fields mb addr pre iface).error = none ∧
        (store_fields mb addr cs iface).iface = (store_fields mb addr pre iface).iface := by
  intro cs
  induction cs with
  | nil => intro iface e h; cases h
  | cons c0 cs ih =>
    intro iface e herr
    rw [store_fields_cons] at herr ⊢
    rcases store_field_cases mb c0.1.key addr c0.1.offset c0.2 iface with
      ⟨_, h⟩ | ⟨_, s0, bytes0, _, _, h⟩ | ⟨_, s0, e0, hg0, he0, h⟩
    · rw [h] at herr ⊢
      obtain ⟨pre, c, post, s, hsplit, hg, he, hpre, hif⟩ := ih iface e herr
      refine ⟨c0 :: pre, c, post, s, by rw [hsplit]; rfl, hg, he, ?_, ?_⟩
      · rw [store_fields_cons, h]; exact hpre
      · rw [store_fields_cons, h]; exact hif
    · rw [h] at herr ⊢
      obtain ⟨pre, c, post, s, hsplit, hg, he, hpre, hif⟩ := ih _ e herr
      refine ⟨c0 :: pre, c, post, s, by rw [hsplit]; rfl, hg, he, ?_, ?_⟩
      · rw [store_fields_cons, h]; exact hpre
      · rw [store_fields_cons, h]; exact hif
    · rw [h] at herr ⊢
      cases herr
      exact ⟨[], c0, cs, s0, rfl, hg0, he0, rfl, rfl⟩

theorem forall₂_mem_left {α β : Type} (R : α → β → Prop) :
    ∀ (l1 : List α) (l2 : List β), List.Forall₂ R l1 l2 → ∀ a ∈ l1, ∃ b ∈ l2, R a b := by
  intro l1 l2 h
  induction h with
  | nil => intro a ha; cases ha
  | cons hab _ ih =>
    intro a ha
    rcases List.mem_cons.mp ha with rfl | ha
    · exact ⟨_, List.mem_cons_self _ _, hab⟩
    · obtain ⟨b, hb, hr⟩ := ih a ha
      exact ⟨b, List.mem_cons_of_mem _ hb, hr⟩

/-- Write log of a run that ends without an exception: one write per present
field, in order, at the field's offset, carrying the bytes encoded for it. -/
theorem store_fields_log (mb : mboard_eeprom_t) (addr : Nat) :
    ∀ (cs : List codec) iface, (store_fields mb addr cs iface).error = none →
      ∃ ws, (store_fields mb addr cs iface).iface.writes = iface.writes ++ ws ∧
        List.Forall₂
          (fun (w : Nat × Nat × byte_vector_t) (c : codec) => w.1 = addr ∧ w.2.1 = c.1.offset ∧
            ∃ s, dict_get mb c.1.key = .ok s ∧ c.2 s = .ok w.2.2)
          ws (cs.filter fun c => has_key mb c.1.key) := by
  intro cs
  induction cs with
  | nil =>
    intro iface _
    exact ⟨[], by simp [store_fields_nil], List.Forall₂.nil⟩
  | cons c cs ih =>
    intro iface hok
    rw [store_fields_cons] at hok ⊢
    rcases store_field_cases mb c.1.key addr c.1.offset c.2 iface with
      ⟨hk, h⟩ | ⟨hk, s, bytes, hg, he, h⟩ | ⟨_, s, e, _, _, h⟩
    · rw [h] at hok ⊢
      obtain ⟨ws, hw, hf⟩ := ih iface hok
      refine ⟨ws, hw, ?_⟩
      simpa [List.filter_cons, hk] using hf
    · rw [h] at hok ⊢
      obtain ⟨ws, hw, hf⟩ := ih (iface.write_eeprom addr c.1.offset bytes) hok
      refine ⟨(addr, c.1.offset, bytes) :: ws, ?_, ?_⟩
      · show (store_fields mb addr cs (iface.write_eeprom addr c.1.offset bytes)).iface.writes = _
        rw [hw]
        simp [i2c_iface.write_eeprom]
      · rw [List.filter_cons, if_pos hk]
        exact List.Forall₂.cons ⟨rfl, rfl, s, hg, he⟩ hf
    · rw [h] at hok
      cases hok

/-- The declared ranges of every variant are pairwise disjoint. -/
theorem declared_fields_disjoint (map : map_type) :
    (declared_fields map).Pairwise ranges_disjoint := by
  cases map <;> decide

/-- After a run of the first statements of a store routine that ends without
an exception, every write of the run can be read back from the device. -/
theorem store_prefix_writes_stay (E : Ext) (map : map_type) (mb : mboard_eeprom_t)
    (pre rest : List codec) (hsplit : codecs E map = pre ++ rest) (iface : i2c_iface)
    (hok : (store_fields mb (eeprom_addr map) pre iface).error = none) :
    ∃ ws, (store_fields mb (eeprom_addr map) pre iface).iface.writes = iface.writes ++ ws ∧
      List.Forall₂ (write_fits (eeprom_addr map)) ws
        ((pre.map Prod.fst).filter fun f => has_key mb f.key) ∧
      ∀ w ∈ ws, ∀ i, i < w.2.2.length →
        (store_fields mb (eeprom_addr map) pre iface).iface.mem w.1 (w.2.1 + i)
          = w.2.2.getD i 0 := by
  have hb : ∀ c ∈ pre, ∀ s bytes, c.2 s = .ok bytes → bytes.length ≤ c.1.width := by
    intro c hc
    apply codecs_bounded E map
    rw [hsplit]
    exact List.mem_append_left _ hc
  have hpw : (pre.map Prod.fst).Pairwise ranges_disjoint := by
    have h := declared_fields_disjoint map
    rw [← codecs_fields E map, hsplit, List.map_append] at h
    exact (List.pairwise_append.mp h).1
  obtain ⟨ws, hw, hlog⟩ := store_fields_log mb (eeprom_addr map) pre iface hok
  obtain ⟨ws2, hw2, hfit⟩ := store_fields_writes mb (eeprom_addr map) pre hb iface hok
  have heq : ws2 = ws := List.append_cancel_left (hw2.symm.trans hw)
  subst heq
  refine ⟨ws2, hw, hfit, ?_⟩
  intro w hwmem i hi
  obtain ⟨c, hc, ha, ho, s, hg, he⟩ := forall₂_mem_left _ _ _ hlog w hwmem
  have hcpre : c ∈ pre := (List.mem_filter.mp hc).1
  rw [ha, ho]
  exact store_fields_written mb (eeprom_addr map) pre hpw hb iface hok c hcpre s w.2.2 hg he i hi

/-! ## Numeric fields -/

theorem encode_lsb_msb_error_iff (E : Ext) (s : Str) (e : Error) :
    encode_lsb_msb E s = .error e ↔ E.lexical_cast_uint16 s = none ∧ e = .bad_lexical_cast := by
  unfold encode_lsb_msb
  cases E.lexical_cast_uint16 s <;> simp [eq_comm]

theorem encode_mcr_error_iff (E : Ext) (s : Str) (e : Error) :
    encode_mcr E s = .error e ↔ E.lexical_cast_double_uint32 s = none ∧ e = .bad_lexical_cast := by
  unfold encode_mcr
  cases E.lexical_cast_double_uint32 s <;> simp [eq_comm]

theorem encode_htonx16_error_iff (E : Ext) (s : Str) (e : Error) :
    encode_htonx16 E s = .error e ↔ E.lexical_cast_uint16 s = none ∧ e = .bad_lexical_cast := by
  unfold encode_htonx16
  cases E.lexical_cast_uint16 s <;> simp [eq_comm]

theorem encode_unsigned_byte_error_iff (E : Ext) (s : Str) (e : Error) :
    encode_unsigned_byte E s = .error e ↔
      E.lexical_cast_unsigned s = none ∧ e = .bad_lexical_cast := by
  unfold encode_unsigned_byte
  cases E.lexical_cast_unsigned s <;> simp [eq_comm]

theorem encode_string_no_error (W : Nat) (s : Str) (e : Error) :
    encode_string W s ≠ .error e := by
  intro h
  cases h

/-- An unparseable value of a numeric field makes the encoder of that field
throw `bad_lexical_cast`; the field is among the first `numeric_span`
statements of the store routine. -/
theorem numeric_codec_fails (E : Ext) (map : map_type) (k : String) (p : Str → Option Nat)
    (s : Str) (hnum : numeric_reader E map k = some p) (hbad : p s = none) :
    ∃ c ∈ (codecs E map).take (numeric_span map),
      c.1.key = k ∧ c.2 s = .error .bad_lexical_cast := by
  cases map
  · simp only [numeric_reader] at hnum
    split at hnum
    · cases hnum
      rename_i hk
      rcases hk with rfl | rfl
      · exact ⟨(⟨"rev", 0x00, 2⟩, encode_lsb_msb E), by simp [codecs, numeric_span], rfl,
          (encode_lsb_msb_error_iff E s _).mpr ⟨hbad, rfl⟩⟩
      · exact ⟨(⟨"product", 0x14, 2⟩, encode_lsb_msb E), by simp [codecs, numeric_span], rfl,
          (encode_lsb_msb_error_iff E s _).mpr ⟨hbad, rfl⟩⟩
    · cases hnum
  · simp only [numeric_reader] at hnum
    split at hnum
    · cases hnum
      rename_i hk
      subst hk
      exact ⟨(⟨"mcr", 0xdd, 4⟩, encode_mcr E), by simp [codecs, numeric_span], rfl,
        (encode_mcr_error_iff E s _).mpr ⟨hbad, rfl⟩⟩
    · cases hnum
  · simp only [numeric_reader] at hnum
    split at hnum
    · cases hnum
      rename_i hk
      rcases hk with rfl | rfl
      · exact ⟨(⟨"vendor", 0, 2⟩, encode_htonx16 E), by simp [codecs, numeric_span], rfl,
          (encode_htonx16_error_iff E s _).mpr ⟨hbad, rfl⟩⟩
      · exact ⟨(⟨"device", 2, 2⟩, encode_htonx16 E), by simp [codecs, numeric_span], rfl,
          (encode_htonx16_error_iff E s _).mpr ⟨hbad, rfl⟩⟩
    · split at hnum
      · cases hnum
        rename_i hk
        rcases hk with rfl | rfl
        · exact ⟨(⟨"revision", 4, 1⟩, encode_unsigned_byte E), by simp [codecs, numeric_span],
            rfl, (encode_unsigned_byte_error_iff E s _).mpr ⟨hbad, rfl⟩⟩
        · exact ⟨(⟨"content", 5, 1⟩, encode_unsigned_byte E), by simp [codecs, numeric_span],
            rfl, (encode_unsigned_byte_error_iff E s _).mpr ⟨hbad, rfl⟩⟩
      · cases hnum

/-- Among the first `numeric_span` statements of a store routine only a
numeric field can throw, and it throws `bad_lexical_cast`, on a value its
parser rejects. -/
theorem guarded_errors (E : Ext) (map : map_type) :
    ∀ c ∈ (codecs E map).take (numeric_span map), ∀ s e, c.2 s = .error e →
      e = .bad_lexical_cast ∧ ∃ q, numeric_reader E map c.1.key = some q ∧ q s = none := by
  intro c hc s e he
  cases map <;>
    simp only [codecs, numeric_span, List.take, List.mem_cons, List.mem_singleton,
      List.not_mem_nil, or_false] at hc
  · rcases hc with rfl | rfl
    · obtain ⟨h1, h2⟩ := (encode_lsb_msb_error_iff E s e).mp he
      exact ⟨h2, E.lexical_cast_uint16, by simp [numeric_reader], h1⟩
    · obtain ⟨h1, h2⟩ := (encode_lsb_msb_error_iff E s e).mp he
      exact ⟨h2, E.lexical_cast_uint16, by simp [numeric_reader], h1⟩
  · rcases hc with rfl | rfl | rfl
    · exact absurd he (encode_string_no_error 8 s e)
    · exact absurd he (encode_string_no_error 23 s e)
    · obtain ⟨h1, h2⟩ := (encode_mcr_error_iff E s e).mp he
      exact ⟨h2, E.lexical_cast_double_uint32, by simp [numeric_reader], h1⟩
  · rcases hc with rfl | rfl | rfl | rfl
    · obtain ⟨h1, h2⟩ := (encode_htonx16_error_iff E s e).mp he
      exact ⟨h2, E.lexical_cast_uint16, by simp [numeric_reader], h1⟩
    · obtain ⟨h1, h2⟩ := (encode_htonx16_error_iff E s e).mp he
      exact ⟨h2, E.lexical_cast_uint16, by simp [numeric_reader], h1⟩
    · obtain ⟨h1, h2⟩ := (encode_unsigned_byte_error_iff E s e).mp he
      exact ⟨h2, E.lexical_cast_unsigned, by simp [numeric_reader], h1⟩
    · obtain ⟨h1, h2⟩ := (encode_unsigned_byte_error_iff E s e).mp he
      exact ⟨h2, E.lexical_cast_unsigned, by simp [numeric_reader], h1⟩

/-! ## Sixteen-bit fields and the capability byte -/

theorem or_shift_eq (a b : Nat) (ha : a < 256) : a <<< 0 ||| b <<< 8 = a + 256 * b := by
  have h2 := Nat.mul_add_lt_is_or (i := 8) (b := a) ha b
  rw [Nat.shiftLeft_zero, Nat.shiftLeft_eq, Nat.or_comm, Nat.mul_comm, ← h2]
  omega

theorem encode_lsb_msb_decimal (E : Ext) (s : Str) (v : Nat) (hv : v < 65536)
    (hparse : E.lexical_cast_uint16 s = some v) :
    encode_lsb_msb E s = .ok [v % 256, v / 256] := by
  have h1 : v % 2 ^ 16 = v := Nat.mod_eq_of_lt hv
  have h2 : v / 2 ^ 8 % 256 = v / 256 := by omega
  have h3 : v / 2 ^ 0 % 256 = v % 256 := by omega
  simp only [encode_lsb_msb, hparse, Nat.shiftRight_eq_div_pow, h1, h2, h3]

theorem encode_htonx16_decimal (E : Ext) (s : Str) (v : Nat) (hv : v < 65536)
    (hparse : E.lexical_cast_uint16 s = some v) :
    encode_htonx16 E s = .ok [v / 256, v % 256] := by
  have h1 : v % 2 ^ 16 = v := Nat.mod_eq_of_lt hv
  simp only [encode_htonx16, hparse, h1]
  cases E.little_endian
  · simp only [ntohx16, mem_of_uint16, Bool.false_eq_true, if_false]
    have : v / 256 % 256 = v / 256 := by omega
    rw [this]
  · simp only [ntohx16, mem_of_uint16, byteswap16, if_true]
    have hy : v / 256 % 256 = v / 256 := by omega
    have hx : v % 256 < 256 := Nat.mod_lt _ (by decide)
    have hyb : v / 256 < 256 := by omega
    rw [hy]
    generalize v % 256 = x at hx ⊢
    generalize v / 256 = y at hyb ⊢
    have h3 : (256 * x + y) % 256 = y := by omega
    have h4 : (256 * x + y) / 256 % 256 = x := by omega
    rw [h3, h4]

theorem ntohx16_uint16_of_mem (le : Bool) (b0 b1 : Nat) (h0 : b0 < 256) (h1 : b1 < 256) :
    ntohx16 le (uint16_of_mem le [b0, b1]) = 256 * b0 + b1 := by
  cases le
  · simp [ntohx16, uint16_of_mem]
  · simp only [ntohx16, uint16_of_mem, byteswap16, if_true, List.getD_cons_zero,
      List.getD_cons_succ]
    omega

theorem ascii_at_congr (iface iface2 : i2c_iface) (addr offset width : Nat)
    (h : ∀ i, i < width → iface2.mem addr (offset + i) = iface.mem addr (offset + i)) :
    ascii_at iface2 addr offset width = ascii_at iface addr offset width := by
  unfold ascii_at
  congr 1
  apply List.map_congr_left
  intro i hi
  exact h i (List.mem_range.mp hi)

theorem n100_serial_congr (iface iface2 : i2c_iface)
    (h : ∀ o, 0x18 ≤ o → o < 0x21 → iface2.mem 0x50 o = iface.mem 0x50 o) :
    n100_serial iface2 = n100_serial iface :=
  ascii_at_congr iface iface2 0x50 0x18 9 (fun i hi => h _ (by omega) (by omega))

theorem n100_mac_congr (iface iface2 : i2c_iface)
    (h : ∀ o, 2 ≤ o → o < 8 → iface2.mem 0x50 o = iface.mem 0x50 o) :
    n100_mac iface2 = n100_mac iface := by
  simp only [n100_mac, h 2 (by omega) (by omega), h 3 (by omega) (by omega),
    h 4 (by omega) (by omega), h 5 (by omega) (by omega), h 6 (by omega) (by omega),
    h 7 (by omega) (by omega)]

theorem n100_mac_text_parses_congr (E : Ext) (iface iface2 : i2c_iface)
    (hmac : ∀ o, 2 ≤ o → o < 8 → iface2.mem 0x50 o = iface.mem 0x50 o)
    (hser : ∀ o, 0x18 ≤ o → o < 0x21 → iface2.mem 0x50 o = iface.mem 0x50 o)
    (h : n100_mac_text_parses E iface) : n100_mac_text_parses E iface2 := by
  unfold n100_mac_text_parses
  rw [n100_serial_congr iface iface2 hser, n100_mac_congr iface iface2 hmac]
  exact h

theorem n100_get_rev (E : Ext) (mb0 : mboard_eeprom_t) (iface : i2c_iface) :
    dict_get (n100_before_correction E mb0 iface) "rev" = .ok (decimal (n100_rev iface)) := by
  simp only [n100_before_correction]
  rw [dict_get_dict_set_other _ _ _ _ (by decide), dict_get_dict_set_other _ _ _ _ (by decide),
    dict_get_dict_set_other _ _ _ _ (by decide), dict_get_dict_set_other _ _ _ _ (by decide),
    dict_get_dict_set_other _ _ _ _ (by decide), dict_get_dict_set_other _ _ _ _ (by decide),
    dict_get_dict_set_same]

theorem n100_get_product (E : Ext) (mb0 : mboard_eeprom_t) (iface : i2c_iface) :
    dict_get (n100_before_correction E mb0 iface) "product"
      = .ok (if n100_prod iface = 0 ∨ n100_prod iface = 0xffff then []
             else decimal (n100_prod iface)) := by
  simp only [n100_before_correction]
  rw [dict_get_dict_set_other _ _ _ _ (by decide), dict_get_dict_set_other _ _ _ _ (by decide),
    dict_get_dict_set_other _ _ _ _ (by decide), dict_get_dict_set_other _ _ _ _ (by decide),
    dict_get_dict_set_other _ _ _ _ (by decide), dict_get_dict_set_same]

theorem n100_get_gpsdo (E : Ext) (mb0 : mboard_eeprom_t) (iface : i2c_iface) :
    dict_get (n100_before_correction E mb0 iface) "gpsdo"
      = .ok (gpsdo_label (iface.mem 0x50 0x17)) := by
  simp only [n100_before_correction]
  rw [dict_get_dict_set_other _ _ _ _ (by decide), dict_get_dict_set_other _ _ _ _ (by decide),
    dict_get_dict_set_same]

theorem encode_gpsdo_eq (s : Str) :
    encode_gpsdo s
      = .ok [if s = lit "internal" then 1 else if s = lit "onboard" then 2 else 0] := by
  unfold encode_gpsdo
  by_cases h1 : s = lit "internal"
  · have h2 : s ≠ lit "onboard" := by rw [h1]; decide
    simp [h1, N200_GPSDO_INTERNAL, N200_GPSDO_NONE, N200_GPSDO_ONBOARD]
    intro h
    exact absurd h (by decide)
  · by_cases h2 : s = lit "onboard"
    · simp [h2, N200_GPSDO_INTERNAL, N200_GPSDO_NONE, N200_GPSDO_ONBOARD]
      rw [if_neg (by decide)]
    · simp [h1, h2, N200_GPSDO_INTERNAL, N200_GPSDO_NONE, N200_GPSDO_ONBOARD]

theorem gpsdo_label_of_byte (s : Str) :
    gpsdo_label (if s = lit "internal" then 1 else if s = lit "onboard" then 2 else 0)
      = if s = lit "internal" ∨ s = lit "onboard" ∨ s = lit "none" then s else lit "none" := by
  by_cases h1 : s = lit "internal"
  · simp [h1, gpsdo_label, N200_GPSDO_INTERNAL]
  · by_cases h2 : s = lit "onboard"
    · rw [if_neg h1, if_pos h2, if_pos (Or.inr (Or.inl h2)), h2]
      decide
    · rw [if_neg h1, if_neg h2]
      by_cases h3 : s = lit "none"
      · rw [if_pos (Or.inr (Or.inr h3)), h3]
        decide
      · rw [if_neg (by simp [h1, h2, h3])]
        decide

/-! ## Commits of a dictionary that holds one field -/

theorem commit_only_gpsdo (E : Ext) (s : Str) (iface : i2c_iface) :
    commit E [("gpsdo", s)] iface .MAP_N100
      = ⟨iface.write_eeprom 0x50 0x17
          [if s = lit "internal" then 1 else if s = lit "onboard" then 2 else 0], none⟩ := by
  have h1 := fun i => store_field_ok [("gpsdo", s)] "gpsdo" 0x50 0x17 encode_gpsdo i s _ rfl
    (encode_gpsdo_eq s)
  rw [commit_eq_store_fields]
  simp only [codecs, store_fields_cons, eeprom_addr, N100_EEPROM_ADDR]
  rw [h1]
  rfl

theorem commit_only_rev (E : Ext) (iface : i2c_iface) (s : Str) (v : Nat) (hv : v < 65536)
    (hparse : E.lexical_cast_uint16 s = some v) :
    commit E [("rev", s)] iface .MAP_N100
      = ⟨iface.write_eeprom 0x50 0 [v % 256, v / 256], none⟩ := by
  have h1 := fun i => store_field_ok [("rev", s)] "rev" 0x50 0 (encode_lsb_msb E) i s _ rfl
    (encode_lsb_msb_decimal E s v hv hparse)
  rw [commit_eq_store_fields]
  simp only [codecs, store_fields_cons, eeprom_addr, N100_EEPROM_ADDR]
  rw [h1]
  rfl

theorem commit_only_product (E : Ext) (iface : i2c_iface) (s : Str) (v : Nat) (hv : v < 65536)
    (hparse : E.lexical_cast_uint16 s = some v) :
    commit E [("product", s)] iface .MAP_N100
      = ⟨iface.write_eeprom 0x50 0x14 [v % 256, v / 256], none⟩ := by
  have h1 := fun i => store_field_ok [("product", s)] "product" 0x50 0x14 (encode_lsb_msb E) i s
    _ rfl (encode_lsb_msb_decimal E s v hv hparse)
  rw [commit_eq_store_fields]
  simp only [codecs, store_fields_cons, eeprom_addr, N100_EEPROM_ADDR]
  rw [h1]
  rfl

theorem commit_only_vendor (E : Ext) (iface : i2c_iface) (s : Str) (v : Nat) (hv : v < 65536)
    (hparse : E.lexical_cast_uint16 s = some v) :
    commit E [("vendor", s)] iface .MAP_E100
      = ⟨iface.write_eeprom 0x51 0 [v / 256, v % 256], none⟩ := by
  have h1 := fun i => store_field_ok [("vendor", s)] "vendor" 0x51 0 (encode_htonx16 E) i s
    _ rfl (encode_htonx16_decimal E s v hv hparse)
  rw [commit_eq_store_fields]
  simp only [codecs, store_fields_cons, eeprom_addr, E100_EEPROM_ADDR]
  rw [h1]
  rfl

theorem commit_only_device (E : Ext) (iface : i2c_iface) (s : Str) (v : Nat) (hv : v < 65536)
    (hparse : E.lexical_cast_uint16 s = some v) :
    commit E [("device", s)] iface .MAP_E100
      = ⟨iface.write_eeprom 0x51 2 [v / 256, v % 256], none⟩ := by
  have h1 := fun i => store_field_ok [("device", s)] "device" 0x51 2 (encode_htonx16 E) i s
    _ rfl (encode_htonx16_decimal E s v hv hparse)
  rw [commit_eq_store_fields]
  simp only [codecs, store_fields_cons, eeprom_addr, E100_EEPROM_ADDR]
  rw [h1]
  rfl

/-! ## Decoding a field that was just re-encoded -/

theorem takeWhile_stops (p : Nat → Bool) :
    ∀ l : List Nat, (l.takeWhile p).length < l.length →
      p (l.getD (l.takeWhile p).length 0) = false := by
  intro l
  induction l with
  | nil => intro h; simp at h
  | cons a l ih =>
    intro h
    cases ha : p a
    · simp [List.takeWhile_cons, ha]
    · simp only [List.takeWhile_cons, ha, if_true, List.length_cons,
        Nat.add_lt_add_iff_right] at h ⊢
      simpa using ih h

theorem takeWhile_length_le (p : Nat → Bool) (l : List Nat) :
    (l.takeWhile p).length ≤ l.length := by
  induction l with
  | nil => simp
  | cons a l ih =>
    rw [List.takeWhile_cons]
    cases p a
    · simp
    · simpa using ih

theorem mem_takeWhile_kept (p : Nat → Bool) (l : List Nat) :
    ∀ b ∈ l.takeWhile p, p b = true := by
  induction l with
  | nil => intro b hb; cases hb
  | cons a l ih =>
    intro b hb
    rw [List.takeWhile_cons] at hb
    cases ha : p a
    · rw [ha] at hb; cases hb
    · rw [ha] at hb
      rcases List.mem_cons.mp hb with rfl | hb
      · exact ha
      · exact ih b hb

/-- Decoding after a rewrite: a field holds the bytes `B`; a string `s` of
kept bytes that fits the field is encoded and written over the front of `B`.
The field then decodes to `s`, provided that, when `s` is one byte short of
the width, so that no NUL is written, the last byte of `B` is one the decoder
rejects. -/
theorem decode_after_rewrite (s : Str) (B : byte_vector_t) (W : Nat) (h1 : 1 ≤ W)
    (h2 : W < 2 ^ 64) (hB : B.length = W) (hs : ∀ b ∈ s, kept b = true) (hlen : s.length ≤ W)
    (hstop : s.length = W - 1 → kept (B.getD (W - 1) 0) = false) :
    bytes_to_string (string_to_bytes s W ++ B.drop (string_to_bytes s W).length) = s := by
  rw [bytes_to_string_eq_takeWhile, string_to_bytes_eq s W h1 h2]
  have hmin : min s.length W = s.length := by omega
  rw [hmin, List.take_length]
  by_cases hlt : s.length < W - 1
  · rw [if_pos hlt, List.append_assoc]
    exact takeWhile_append_stop kept s _ hs (by simp [kept])
  · rw [if_neg hlt, List.append_nil]
    apply takeWhile_append_stop kept s _ hs
    by_cases heq : s.length = W
    · rw [heq, ← hB, List.drop_length]
      rfl
    · have hW1 : s.length = W - 1 := by omega
      have hlt2 : s.length < B.length := by omega
      rw [List.drop_eq_getElem_cons hlt2, List.takeWhile_cons]
      have hk := hstop hW1
      rw [← hW1, List.getD_eq_getElem?_getD, List.getElem?_eq_getElem hlt2] at hk
      simp only [Option.getD_some] at hk
      rw [hk]
      rfl

theorem ascii_at_kept (iface : i2c_iface) (addr offset width : Nat) :
    ∀ b ∈ ascii_at iface addr offset width, kept b = true := by
  unfold ascii_at
  rw [bytes_to_string_eq_takeWhile]
  exact mem_takeWhile_kept kept _

theorem ascii_at_length_le (iface : i2c_iface) (addr offset width : Nat) :
    (ascii_at iface addr offset width).length ≤ width := by
  unfold ascii_at
  rw [bytes_to_string_eq_takeWhile]
  have h := takeWhile_length_le kept
    ((List.range width).map fun i => iface.mem addr (offset + i))
  simpa using h

theorem ascii_at_stops (iface : i2c_iface) (addr offset width : Nat) (h1 : 1 ≤ width)
    (h : (ascii_at iface addr offset width).length = width - 1) :
    kept (iface.mem addr (offset + (width - 1))) = false := by
  unfold ascii_at at h
  rw [bytes_to_string_eq_takeWhile] at h
  have hlt : (((List.range width).map fun i => iface.mem addr (offset + i)).takeWhile kept).length
      < ((List.range width).map fun i => iface.mem addr (offset + i)).length := by
    rw [h]
    simp
    omega
  have hk := takeWhile_stops kept _ hlt
  rw [h] at hk
  have hidx : width - 1 < width := by omega
  simpa [List.getD_eq_getElem?_getD, List.getElem?_map, List.getElem?_range hidx] using hk

/-! ## Decimal strings -/

theorem digitChar_is_digit (d : Nat) (h : d < 10) :
    48 ≤ (Nat.digitChar d).toNat ∧ (Nat.digitChar d).toNat ≤ 57 := by
  interval_cases d <;> decide

theorem toDigitsCore_digits (fuel : Nat) :
    ∀ (n : Nat) (ds : List Char),
      (∀ c ∈ ds, 48 ≤ c.toNat ∧ c.toNat ≤ 57) →
      ∀ c ∈ Nat.toDigitsCore 10 fuel n ds, 48 ≤ c.toNat ∧ c.toNat ≤ 57 := by
  induction fuel with
  | zero => intro n ds h c hc; exact h c hc
  | succ fuel ih =>
    intro n ds h c hc
    have hd := digitChar_is_digit (n % 10) (Nat.mod_lt _ (by decide))
    have hcons : ∀ c ∈ Nat.digitChar (n % 10) :: ds, 48 ≤ c.toNat ∧ c.toNat ≤ 57 := by
      intro c hc
      rcases List.mem_cons.mp hc with rfl | hc
      · exact hd
      · exact h c hc
    simp only [Nat.toDigitsCore] at hc
    split at hc
    · exact hcons c hc
    · exact ih _ _ hcons c hc

theorem decimal_kept (n : Nat) : ∀ b ∈ decimal n, kept b = true := by
  intro b hb
  simp only [decimal, List.mem_map] at hb
  obtain ⟨c, hc, rfl⟩ := hb
  have h := toDigitsCore_digits (n + 1) n [] (fun c hc => by cases hc) c hc
  simp only [kept, decide_eq_true_eq]
  omega

theorem decimal_length_le (n e : Nat) (he : 0 < e) (h : n < 10 ^ e) :
    (decimal n).length ≤ e := by
  simp only [decimal, List.length_map, Nat.toDigits]
  exact Nat.toDigitsCore_length 10 (by decide) (n + 1) n e h he

theorem decimal_ne_nil (n : Nat) : decimal n ≠ [] := by
  intro h
  have hl : (decimal n).length = 0 := by rw [h]; rfl
  simp only [decimal, List.length_map, Nat.toDigits, Nat.toDigitsCore] at hl
  split at hl
  · simp at hl
  · rw [Nat.toDigitsCore_lens_eq] at hl
    omega

/-! ## Device contents after a commit -/

/-- The part of a field's range behind the bytes written for it keeps its
contents through a run of store statements. -/
theorem store_fields_tail_untouched (mb : mboard_eeprom_t) (addr : Nat) :
    ∀ (cs : List codec), (cs.map Prod.fst).Pairwise ranges_disjoint →
      (∀ c ∈ cs, ∀ s bytes, c.2 s = .ok bytes → bytes.length ≤ c.1.width) →
      ∀ iface, ∀ c ∈ cs, ∀ s bytes, dict_get mb c.1.key = .ok s → c.2 s = .ok bytes →
        ∀ o, c.1.offset + bytes.length ≤ o → o < c.1.offset + c.1.width →
          (store_fields mb addr cs iface).iface.mem addr o = iface.mem addr o := by
  intro cs
  induction cs with
  | nil => intro _ _ _ c hc; cases hc
  | cons c0 cs ih =>
    intro hpw hb iface c hc s bytes hg he o hlo hhi
    rw [List.map_cons, List.pairwise_cons] at hpw
    have hb2 := fun c2 (hc2 : c2 ∈ cs) => hb c2 (List.mem_cons_of_mem _ hc2)
    rw [store_fields_cons]
    rcases store_field_cases mb c0.1.key addr c0.1.offset c0.2 iface with
      ⟨hk, h⟩ | ⟨_, s0, bytes0, hg0, he0, h⟩ | ⟨_, s0, e, _, _, h⟩
    · rw [h]
      rcases List.mem_cons.mp hc with rfl | hc
      · rw [has_key_of_dict_get mb _ s hg] at hk
        cases hk
      · exact ih hpw.2 hb2 iface c hc s bytes hg he o hlo hhi
    · rw [h]
      show (store_fields mb addr cs (iface.write_eeprom addr c0.1.offset bytes0)).iface.mem addr o
        = _
      rcases List.mem_cons.mp hc with rfl | hc
      · rw [hg0] at hg
        cases hg
        rw [he0] at he
        cases he
        rw [store_fields_frame mb addr addr o cs hb2]
        · exact write_eeprom_mem_outside _ _ _ _ _ _ (by omega)
        · rintro ⟨_, c2, hc2, _, h1, h2⟩
          have hd := hpw.1 c2.1 (List.mem_map_of_mem _ hc2)
          unfold ranges_disjoint at hd
          omega
      · rw [ih hpw.2 hb2 _ c hc s bytes hg he o hlo hhi]
        apply write_eeprom_mem_outside
        have hd := hpw.1 c.1 (List.mem_map_of_mem _ hc)
        have hl := hb c0 (List.mem_cons_self _ _) s0 bytes0 he0
        unfold ranges_disjoint at hd
        omega
    · rw [h]

theorem range_map_overwritten (W : Nat) (w : List Nat) (f g : Nat → Nat) (hw : w.length ≤ W)
    (h1 : ∀ i, i < w.length → g i = w.getD i 0)
    (h2 : ∀ i, w.length ≤ i → i < W → g i = f i) :
    (List.range W).map g = w ++ ((List.range W).map f).drop w.length := by
  apply List.ext_getElem?
  intro n
  by_cases hn : n < w.length
  · have hnW : n < W := by omega
    rw [List.getElem?_append_left hn, List.getElem?_map, List.getElem?_range hnW,
      List.getElem?_eq_getElem hn]
    simp only [Option.map_some']
    rw [h1 n hn, List.getD_eq_getElem?_getD, List.getElem?_eq_getElem hn]
    rfl
  · have hge : w.length ≤ n := by omega
    rw [List.getElem?_append_right hge, List.getElem?_drop, List.getElem?_map, List.getElem?_map]
    have hidx : w.length + (n - w.length) = n := by omega
    rw [hidx]
    by_cases hnW : n < W
    · rw [List.getElem?_range hnW]
      simp only [Option.map_some']
      rw [h2 n hge hnW]
    · have : (List.range W)[n]? = none := by
        apply List.getElem?_eq_none
        simp
        omega
      rw [this]
      rfl

/-- After a commit that ends without an exception, an ASCII field decodes to
the string the dictionary held for it, when that string consists of kept
bytes, fits the field and, if it is one byte short of the width, the last byte
of the field was one the decoder rejects. -/
theorem ascii_after_commit (E : Ext) (map : map_type) (mb : mboard_eeprom_t) (iface : i2c_iface)
    (hok : (commit E mb iface map).error = none) (key : String) (offset W : Nat)
    (hc : (⟨key, offset, W⟩, encode_string W) ∈ codecs E map) (h1 : 1 ≤ W) (h2 : W < 2 ^ 64)
    (s : Str) (hg : dict_get mb key = .ok s) (hs : ∀ b ∈ s, kept b = true) (hlen : s.length ≤ W)
    (hstop : s.length = W - 1 → kept (iface.mem (eeprom_addr map) (offset + (W - 1))) = false) :
    ascii_at (commit E mb iface map).iface (eeprom_addr map) offset W = s := by
  rw [commit_eq_store_fields] at hok ⊢
  have hpw : ((codecs E map).map Prod.fst).Pairwise ranges_disjoint := by
    rw [codecs_fields]
    exact declared_fields_disjoint _
  have hb := codecs_bounded E map
  have hwl : (string_to_bytes s W).length ≤ W := string_to_bytes_length_le s W h1 h2
  have hover := range_map_overwritten W (string_to_bytes s W)
    (fun i => iface.mem (eeprom_addr map) (offset + i))
    (fun i => (store_fields mb (eeprom_addr map) (codecs E map) iface).iface.mem
      (eeprom_addr map) (offset + i)) hwl
    (fun i hi => store_fields_written mb (eeprom_addr map) (codecs E map) hpw hb iface hok
      _ hc s _ hg rfl i hi)
    (fun i hlo hhi => store_fields_tail_untouched mb (eeprom_addr map) (codecs E map) hpw hb iface
      _ hc s _ hg rfl (offset + i) (by simp only []; omega) (by simp only []; omega))
  unfold ascii_at
  rw [hover]
  apply decode_after_rewrite s _ W h1 h2 (by simp) hs hlen
  intro hW1
  have hidx : W - 1 < W := by omega
  have hk := hstop hW1
  simpa [List.getD_eq_getElem?_getD, List.getElem?_map, List.getElem?_range hidx] using hk

/-- After a commit that ends without an exception, the bytes encoded for a
present field stand at the field's offset. -/
theorem commit_written (E : Ext) (map : map_type) (mb : mboard_eeprom_t) (iface : i2c_iface)
    (hok : (commit E mb iface map).error = none) (c : codec) (hc : c ∈ codecs E map)
    (s : Str) (bytes : byte_vector_t) (hg : dict_get mb c.1.key = .ok s)
    (he : c.2 s = .ok bytes) (i : Nat) (hi : i < bytes.length) :
    (commit E mb iface map).iface.mem (eeprom_addr map) (c.1.offset + i) = bytes.getD i 0 := by
  rw [commit_eq_store_fields] at hok ⊢
  have hpw : ((codecs E map).map Prod.fst).Pairwise ranges_disjoint := by
    rw [codecs_fields]
    exact declared_fields_disjoint _
  exact store_fields_written mb (eeprom_addr map) (codecs E map) hpw (codecs_bounded E map) iface
    hok c hc s bytes hg he i hi

/-- A commit that ends without an exception has encoded every present
field. -/
theorem commit_ok_all (E : Ext) (map : map_type) (mb : mboard_eeprom_t) (iface : i2c_iface)
    (hok : (commit E mb iface map).error = none) (c : codec) (hc : c ∈ codecs E map)
    (s : Str) (hg : dict_get mb c.1.key = .ok s) : ∃ bytes, c.2 s = .ok bytes := by
  rw [commit_eq_store_fields] at hok
  exact store_fields_ok_all mb (eeprom_addr map) (codecs E map) iface hok c hc s hg

theorem e100_get_vendor (E : Ext) (mb0 : mboard_eeprom_t) (iface : i2c_iface) :
    dict_get (e100_loaded E mb0 iface) "vendor" = .ok (decimal (e100_vendor E iface)) := by
  simp only [e100_loaded]
  rw [dict_get_dict_set_other _ _ _ _ (by decide), dict_get_dict_set_other _ _ _ _ (by decide),
    dict_get_dict_set_other _ _ _ _ (by decide), dict_get_dict_set_other _ _ _ _ (by decide),
    dict_get_dict_set_other _ _ _ _ (by decide), dict_get_dict_set_other _ _ _ _ (by decide),
    dict_get_dict_set_other _ _ _ _ (by decide), dict_get_dict_set_other _ _ _ _ (by decide),
    dict_get_dict_set_same]

theorem e100_get_device (E : Ext) (mb0 : mboard_eeprom_t) (iface : i2c_iface) :
    dict_get (e100_loaded E mb0 iface) "device" = .ok (decimal (e100_device E iface)) := by
  simp only [e100_loaded]
  rw [dict_get_dict_set_other _ _ _ _ (by decide), dict_get_dict_set_other _ _ _ _ (by decide),
    dict_get_dict_set_other _ _ _ _ (by decide), dict_get_dict_set_other _ _ _ _ (by decide),
    dict_get_dict_set_other _ _ _ _ (by decide), dict_get_dict_set_other _ _ _ _ (by decide),
    dict_get_dict_set_other _ _ _ _ (by decide), dict_get_dict_set_same]

/-- What `load_n100` returns for a key other than `"serial"` after one write
that leaves the address and serial fields alone. -/
theorem load_n100_after_write (E : Ext) (iface : i2c_iface) (offset : Nat) (bytes : byte_vector_t)
    (hmac : n100_mac_text_parses E iface)
    (hfar : offset + bytes.length ≤ 2 ∨ (8 ≤ offset ∧ offset + bytes.length ≤ 0x18)) :
    ∃ mb iface2, load_n100 E [] (iface.write_eeprom 0x50 offset bytes) = .ok (mb, iface2) ∧
      ∀ k, k ≠ "serial" → dict_get mb k
        = dict_get (n100_before_correction E [] (iface.write_eeprom 0x50 offset bytes)) k := by
  have hmac2 : n100_mac_text_parses E (iface.write_eeprom 0x50 offset bytes) := by
    apply n100_mac_text_parses_congr E iface _ _ _ hmac
    · intro o h1 h2
      exact write_eeprom_mem_outside _ _ _ _ _ _ (by omega)
    · intro o h1 h2
      exact write_eeprom_mem_outside _ _ _ _ _ _ (by omega)
  obtain ⟨mb, hl, hg, _, _⟩ := load_n100_returns E [] _ hmac2
  exact ⟨mb, _, hl, hg⟩

theorem n100_rev_after_write (iface : i2c_iface) (v : Nat) (hv : v < 65536) :
    n100_rev (iface.write_eeprom 0x50 0 [v % 256, v / 256]) = v := by
  have h0 : (iface.write_eeprom 0x50 0 [v % 256, v / 256]).mem 0x50 0 = v % 256 :=
    write_eeprom_mem_inside iface 0x50 0 _ 0 (by simp)
  have h1 : (iface.write_eeprom 0x50 0 [v % 256, v / 256]).mem 0x50 1 = v / 256 :=
    write_eeprom_mem_inside iface 0x50 0 _ 1 (by simp)
  unfold n100_rev
  rw [h0, h1, or_shift_eq _ _ (Nat.mod_lt _ (by decide))]
  omega

theorem n100_prod_after_write (iface : i2c_iface) (v : Nat) (hv : v < 65536) :
    n100_prod (iface.write_eeprom 0x50 0x14 [v % 256, v / 256]) = v := by
  have h0 : (iface.write_eeprom 0x50 0x14 [v % 256, v / 256]).mem 0x50 0x14 = v % 256 :=
    write_eeprom_mem_inside iface 0x50 0x14 _ 0 (by simp)
  have h1 : (iface.write_eeprom 0x50 0x14 [v % 256, v / 256]).mem 0x50 0x15 = v / 256 :=
    write_eeprom_mem_inside iface 0x50 0x14 _ 1 (by simp)
  unfold n100_prod
  rw [h0, h1, or_shift_eq _ _ (Nat.mod_lt _ (by decide))]
  omega

theorem e100_vendor_after_write (E : Ext) (iface : i2c_iface) (v : Nat) (hv : v < 65536) :
    e100_vendor E (iface.write_eeprom 0x51 0 [v / 256, v % 256]) = v := by
  have h0 : (iface.write_eeprom 0x51 0 [v / 256, v % 256]).mem 0x51 0 = v / 256 :=
    write_eeprom_mem_inside iface 0x51 0 _ 0 (by simp)
  have h1 : (iface.write_eeprom 0x51 0 [v / 256, v % 256]).mem 0x51 1 = v % 256 :=
    write_eeprom_mem_inside iface 0x51 0 _ 1 (by simp)
  unfold e100_vendor
  rw [h0, h1, ntohx16_uint16_of_mem _ _ _ (by omega) (Nat.mod_lt _ (by decide))]
  omega

theorem e100_device_after_write (E : Ext) (iface : i2c_iface) (v : Nat) (hv : v < 65536) :
    e100_device E (iface.write_eeprom 0x51 2 [v / 256, v % 256]) = v := by
  have h0 : (iface.write_eeprom 0x51 2 [v / 256, v % 256]).mem 0x51 2 = v / 256 :=
    write_eeprom_mem_inside iface 0x51 2 _ 0 (by simp)
  have h1 : (iface.write_eeprom 0x51 2 [v / 256, v % 256]).mem 0x51 3 = v % 256 :=
    write_eeprom_mem_inside iface 0x51 2 _ 1 (by simp)
  unfold e100_device
  rw [h0, h1, ntohx16_uint16_of_mem _ _ _ (by omega) (Nat.mod_lt _ (by decide))]
  omega

/-! ## Load, commit, load again -/

theorem b000_get_serial (E : Ext) (mb0 : mboard_eeprom_t) (iface : i2c_iface) :
    dict_get (b000_loaded E mb0 iface) "serial" = .ok (ascii_at iface 0x50 0xf8 8) := by
  simp only [b000_loaded]
  rw [dict_get_dict_set_other _ _ _ _ (by decide), dict_get_dict_set_other _ _ _ _ (by decide),
    dict_get_dict_set_same]

theorem b000_get_name (E : Ext) (mb0 : mboard_eeprom_t) (iface : i2c_iface) :
    dict_get (b000_loaded E mb0 iface) "name" = .ok (ascii_at iface 0x50 0xe1 23) := by
  simp only [b000_loaded]
  rw [dict_get_dict_set_other _ _ _ _ (by decide), dict_get_dict_set_same]

theorem b000_get_mcr (E : Ext) (mb0 : mboard_eeprom_t) (iface : i2c_iface) :
    dict_get (b000_loaded E mb0 iface) "mcr"
      = .ok (if b000_clock_rate E iface > 10 ^ 6 ∧ b000_clock_rate E iface < 10 ^ 9
             then decimal (b000_clock_rate E iface) else []) := by
  simp only [b000_loaded]
  rw [dict_get_dict_set_same]

theorem b000_clock_rate_eq (E : Ext) (iface : i2c_iface)
    (hbytes : ∀ o, iface.mem 0x50 o < 256) :
    b000_clock_rate E iface = mcr_value iface :=
  ntohl_uint32_of_mem _ _ _ _ _ (hbytes _) (hbytes _) (hbytes _) (hbytes _)

/-- B000: the dictionary loaded after committing the loaded dictionary is the
loaded dictionary. -/
theorem b000_reload (E : Ext) (iface : i2c_iface) (hbytes : ∀ o, iface.mem 0x50 o < 256)
    (hlib : library_round_trips E iface .MAP_B000)
    (hok : (commit E (b000_loaded E [] iface)
      { iface with reads := iface.reads ++ b000_reads } .MAP_B000).error = none) :
    b000_loaded E []
        (commit E (b000_loaded E [] iface)
          { iface with reads := iface.reads ++ b000_reads } .MAP_B000).iface
      = b000_loaded E [] iface := by
  obtain ⟨hnil, hparse⟩ := hlib
  -- the clock rate was valid, or the commit would have thrown
  obtain ⟨bytes, hby⟩ := commit_ok_all E .MAP_B000 _ _ hok (⟨"mcr", 0xdd, 4⟩, encode_mcr E)
    (by simp [codecs]) _ (b000_get_mcr E [] iface)
  have hvalid : b000_clock_rate E iface > 10 ^ 6 ∧ b000_clock_rate E iface < 10 ^ 9 := by
    by_contra hn
    rw [if_neg hn] at hby
    simp only [encode_mcr, hnil] at hby
    cases hby
  rw [if_pos hvalid] at hby
  have hget : dict_get (b000_loaded E [] iface) "mcr" = .ok (decimal (b000_clock_rate E iface)) := by
    rw [b000_get_mcr, if_pos hvalid]
  have hv := b000_clock_rate_eq E iface hbytes
  have henc : encode_mcr E (decimal (b000_clock_rate E iface))
      = .ok [iface.mem 0x50 0xdd, iface.mem 0x50 0xde, iface.mem 0x50 0xdf, iface.mem 0x50 0xe0] := by
    have h := encode_mcr_decimal E _ _ _ _ (hbytes 0xdd) (hbytes 0xde) (hbytes 0xdf) (hbytes 0xe0)
    rw [hv] at hparse ⊢
    exact h hparse
  -- the three fields after the commit
  have hser : ascii_at (commit E (b000_loaded E [] iface)
      { iface with reads := iface.reads ++ b000_reads } .MAP_B000).iface 0x50 0xf8 8
      = ascii_at iface 0x50 0xf8 8 :=
    ascii_after_commit E .MAP_B000 _ _ hok "serial" 0xf8 8 (by simp [codecs])
      (by decide) (by decide) _ (b000_get_serial E [] iface) (ascii_at_kept _ _ _ _)
      (ascii_at_length_le _ _ _ _) (ascii_at_stops iface 0x50 0xf8 8 (by decide))
  have hname : ascii_at (commit E (b000_loaded E [] iface)
      { iface with reads := iface.reads ++ b000_reads } .MAP_B000).iface 0x50 0xe1 23
      = ascii_at iface 0x50 0xe1 23 :=
    ascii_after_commit E .MAP_B000 _ _ hok "name" 0xe1 23 (by simp [codecs])
      (by decide) (by decide) _ (b000_get_name E [] iface) (ascii_at_kept _ _ _ _)
      (ascii_at_length_le _ _ _ _) (ascii_at_stops iface 0x50 0xe1 23 (by decide))
  have hw := commit_written E .MAP_B000 _ _ hok (⟨"mcr", 0xdd, 4⟩, encode_mcr E)
    (by simp [codecs]) _ _ hget henc
  generalize (commit E (b000_loaded E [] iface)
    { iface with reads := iface.reads ++ b000_reads } .MAP_B000).iface = iface2
    at hw hser hname ⊢
  have m0 : iface2.mem 0x50 0xdd = iface.mem 0x50 0xdd := hw 0 (by simp)
  have m1 : iface2.mem 0x50 0xde = iface.mem 0x50 0xde := hw 1 (by simp)
  have m2 : iface2.mem 0x50 0xdf = iface.mem 0x50 0xdf := hw 2 (by simp)
  have m3 : iface2.mem 0x50 0xe0 = iface.mem 0x50 0xe0 := hw 3 (by simp)
  unfold b000_loaded b000_clock_rate
  rw [m0, m1, m2, m3, hser, hname]

theorem e100_get_revision (E : Ext) (mb0 : mboard_eeprom_t) (iface : i2c_iface) :
    dict_get (e100_loaded E mb0 iface) "revision" = .ok (decimal (iface.mem 0x51 4)) := by
  simp only [e100_loaded]
  rw [dict_get_dict_set_other _ _ _ _ (by decide), dict_get_dict_set_other _ _ _ _ (by decide), dict_get_dict_set_other _ _ _ _ (by decide), dict_get_dict_set_other _ _ _ _ (by decide), dict_get_dict_set_other _ _ _ _ (by decide), dict_get_dict_set_other _ _ _ _ (by decide), dict_get_dict_set_same]

theorem e100_get_content (E : Ext) (mb0 : mboard_eeprom_t) (iface : i2c_iface) :
    dict_get (e100_loaded E mb0 iface) "content" = .ok (decimal (iface.mem 0x51 5)) := by
  simp only [e100_loaded]
  rw [dict_get_dict_set_other _ _ _ _ (by decide), dict_get_dict_set_other _ _ _ _ (by decide), dict_get_dict_set_other _ _ _ _ (by decide), dict_get_dict_set_other _ _ _ _ (by decide), dict_get_dict_set_other _ _ _ _ (by decide), dict_get_dict_set_same]

theorem e100_get_model (E : Ext) (mb0 : mboard_eeprom_t) (iface : i2c_iface) :
    dict_get (e100_loaded E mb0 iface) "model" = .ok (ascii_at iface 0x51 6 8) := by
  simp only [e100_loaded]
  rw [dict_get_dict_set_other _ _ _ _ (by decide), dict_get_dict_set_other _ _ _ _ (by decide), dict_get_dict_set_other _ _ _ _ (by decide), dict_get_dict_set_other _ _ _ _ (by decide), dict_get_dict_set_same]

theorem e100_get_env_var (E : Ext) (mb0 : mboard_eeprom_t) (iface : i2c_iface) :
    dict_get (e100_loaded E mb0 iface) "env_var" = .ok (ascii_at iface 0x51 14 16) := by
  simp only [e100_loaded]
  rw [dict_get_dict_set_other _ _ _ _ (by decide), dict_get_dict_set_other _ _ _ _ (by decide), dict_get_dict_set_other _ _ _ _ (by decide), dict_get_dict_set_same]

theorem e100_get_env_setting (E : Ext) (mb0 : mboard_eeprom_t) (iface : i2c_iface) :
    dict_get (e100_loaded E mb0 iface) "env_setting" = .ok (ascii_at iface 0x51 30 64) := by
  simp only [e100_loaded]
  rw [dict_get_dict_set_other _ _ _ _ (by decide), dict_get_dict_set_other _ _ _ _ (by decide), dict_get_dict_set_same]

theorem e100_get_serial (E : Ext) (mb0 : mboard_eeprom_t) (iface : i2c_iface) :
    dict_get (e100_loaded E mb0 iface) "serial" = .ok (ascii_at iface 0x51 94 10) := by
  simp only [e100_loaded]
  rw [dict_get_dict_set_other _ _ _ _ (by decide), dict_get_dict_set_same]

theorem e100_get_name (E : Ext) (mb0 : mboard_eeprom_t) (iface : i2c_iface) :
    dict_get (e100_loaded E mb0 iface) "name" = .ok (ascii_at iface 0x51 104 23) := by
  simp only [e100_loaded]
  rw [dict_get_dict_set_same]

/-- E100: the dictionary loaded after committing the loaded dictionary is the
loaded dictionary. -/
theorem e100_reload (E : Ext) (iface : i2c_iface) (hbytes : ∀ o, iface.mem 0x51 o < 256)
    (hlib : library_round_trips E iface .MAP_E100)
    (hok : (commit E (e100_loaded E [] iface)
      { iface with reads := iface.reads ++ e100_reads } .MAP_E100).error = none) :
    e100_loaded E []
        (commit E (e100_loaded E [] iface)
      { iface with reads := iface.reads ++ e100_reads } .MAP_E100).iface
      = e100_loaded E [] iface := by
  obtain ⟨hpv, hpd, hpr, hpc⟩ := hlib
  have hv : e100_vendor E iface = 256 * iface.mem 0x51 0 + iface.mem 0x51 1 :=
    ntohx16_uint16_of_mem _ _ _ (hbytes 0) (hbytes 1)
  have hd : e100_device E iface = 256 * iface.mem 0x51 2 + iface.mem 0x51 3 :=
    ntohx16_uint16_of_mem _ _ _ (hbytes 2) (hbytes 3)
  have b0 := hbytes 0
  have b1 := hbytes 1
  have b2 := hbytes 2
  have b3 := hbytes 3
  have hencv : encode_htonx16 E (decimal (e100_vendor E iface))
      = .ok [iface.mem 0x51 0, iface.mem 0x51 1] := by
    have e1 : (256 * iface.mem 0x51 0 + iface.mem 0x51 1) / 256 = iface.mem 0x51 0 := by omega
    have e2 : (256 * iface.mem 0x51 0 + iface.mem 0x51 1) % 256 = iface.mem 0x51 1 := by omega
    rw [encode_htonx16_decimal E _ (e100_vendor E iface) (by omega) hpv, hv, e1, e2]
  have hencd : encode_htonx16 E (decimal (e100_device E iface))
      = .ok [iface.mem 0x51 2, iface.mem 0x51 3] := by
    have e1 : (256 * iface.mem 0x51 2 + iface.mem 0x51 3) / 256 = iface.mem 0x51 2 := by omega
    have e2 : (256 * iface.mem 0x51 2 + iface.mem 0x51 3) % 256 = iface.mem 0x51 3 := by omega
    rw [encode_htonx16_decimal E _ (e100_device E iface) (by omega) hpd, hd, e1, e2]
  have hencr : encode_unsigned_byte E (decimal (iface.mem 0x51 4)) = .ok [iface.mem 0x51 4] := by
    simp only [encode_unsigned_byte, hpr, Nat.mod_eq_of_lt (hbytes 4)]
  have hencc : encode_unsigned_byte E (decimal (iface.mem 0x51 5)) = .ok [iface.mem 0x51 5] := by
    simp only [encode_unsigned_byte, hpc, Nat.mod_eq_of_lt (hbytes 5)]
  have wv := commit_written E .MAP_E100 _ _ hok
    (⟨"vendor", 0, 2⟩, encode_htonx16 E) (by simp [codecs]) _ _ (e100_get_vendor E [] iface) hencv
  have wd := commit_written E .MAP_E100 _ _ hok
    (⟨"device", 2, 2⟩, encode_htonx16 E) (by simp [codecs]) _ _ (e100_get_device E [] iface) hencd
  have wr := commit_written E .MAP_E100 _ _ hok
    (⟨"revision", 4, 1⟩, encode_unsigned_byte E) (by simp [codecs]) _ _
    (e100_get_revision E [] iface) hencr
  have wc := commit_written E .MAP_E100 _ _ hok
    (⟨"content", 5, 1⟩, encode_unsigned_byte E) (by simp [codecs]) _ _
    (e100_get_content E [] iface) hencc
  have h_model : ascii_at (commit E (e100_loaded E [] iface)
      { iface with reads := iface.reads ++ e100_reads } .MAP_E100).iface 0x51 6 8
      = ascii_at iface 0x51 6 8 :=
    ascii_after_commit E .MAP_E100 _ _ hok "model" 6 8 (by simp [codecs])
      (by decide) (by decide) _ (e100_get_model E [] iface) (ascii_at_kept _ _ _ _)
      (ascii_at_length_le _ _ _ _) (ascii_at_stops iface 0x51 6 8 (by decide))
  have h_env_var : ascii_at (commit E (e100_loaded E [] iface)
      { iface with reads := iface.reads ++ e100_reads } .MAP_E100).iface 0x51 14 16
      = ascii_at iface 0x51 14 16 :=
    ascii_after_commit E .MAP_E100 _ _ hok "env_var" 14 16 (by simp [codecs])
      (by decide) (by decide) _ (e100_get_env_var E [] iface) (ascii_at_kept _ _ _ _)
      (ascii_at_length_le _ _ _ _) (ascii_at_stops iface 0x51 14 16 (by decide))
  have h_env_setting : ascii_at (commit E (e100_loaded E [] iface)
      { iface with reads := iface.reads ++ e100_reads } .MAP_E100).iface 0x51 30 64
      = ascii_at iface 0x51 30 64 :=
    ascii_after_commit E .MAP_E100 _ _ hok "env_setting" 30 64 (by simp [codecs])
      (by decide) (by decide) _ (e100_get_env_setting E [] iface) (ascii_at_kept _ _ _ _)
      (ascii_at_length_le _ _ _ _) (ascii_at_stops iface 0x51 30 64 (by decide))
  have h_serial : ascii_at (commit E (e100_loaded E [] iface)
      { iface with reads := iface.reads ++ e100_reads } .MAP_E100).iface 0x51 94 10
      = ascii_at iface 0x51 94 10 :=
    ascii_after_commit E .MAP_E100 _ _ hok "serial" 94 10 (by simp [codecs])
      (by decide) (by decide) _ (e100_get_serial E [] iface) (ascii_at_kept _ _ _ _)
      (ascii_at_length_le _ _ _ _) (ascii_at_stops iface 0x51 94 10 (by decide))
  have h_name : ascii_at (commit E (e100_loaded E [] iface)
      { iface with reads := iface.reads ++ e100_reads } .MAP_E100).iface 0x51 104 23
      = ascii_at iface 0x51 104 23 :=
    ascii_after_commit E .MAP_E100 _ _ hok "name" 104 23 (by simp [codecs])
      (by decide) (by decide) _ (e100_get_name E [] iface) (ascii_at_kept _ _ _ _)
      (ascii_at_length_le _ _ _ _) (ascii_at_stops iface 0x51 104 23 (by decide))
  generalize (commit E (e100_loaded E [] iface)
      { iface with reads := iface.reads ++ e100_reads } .MAP_E100).iface = iface2
    at wv wd wr wc h_model h_env_var h_env_setting h_serial h_name ⊢
  have m0 : iface2.mem 0x51 0 = iface.mem 0x51 0 := wv 0 (by simp)
  have m1 : iface2.mem 0x51 1 = iface.mem 0x51 1 := wv 1 (by simp)
  have m2 : iface2.mem 0x51 2 = iface.mem 0x51 2 := wd 0 (by simp)
  have m3 : iface2.mem 0x51 3 = iface.mem 0x51 3 := wd 1 (by simp)
  have m4 : iface2.mem 0x51 4 = iface.mem 0x51 4 := wr 0 (by simp)
  have m5 : iface2.mem 0x51 5 = iface.mem 0x51 5 := wc 0 (by simp)
  unfold e100_loaded e100_vendor e100_device
  rw [m0, m1, m2, m3, m4, m5, h_model, h_env_var, h_env_setting, h_serial, h_name]

theorem load_n100_closed (E : Ext) (iface : i2c_iface)
    (hrt : E.mac_from_string (E.mac_to_string (n100_mac iface)) = some (n100_mac iface)) :
    load_n100 E [] iface
      = .ok (n100_loaded E iface, { iface with reads := iface.reads ++ n100_reads }) := by
  rw [load_n100_eq, hrt]
  by_cases hs : n100_serial iface = []
  · rw [if_pos hs]
    unfold n100_loaded
    rw [if_pos hs]
    simp only [n100_before_correction, hs]
    rfl
  · rw [if_neg hs]
    unfold n100_loaded
    rw [if_neg hs]
    rfl

theorem gpsdo_label_idem (b : Nat) :
    gpsdo_label (if gpsdo_label b = lit "internal" then 1
      else if gpsdo_label b = lit "onboard" then 2 else 0) = gpsdo_label b := by
  rw [gpsdo_label_of_byte]
  have h : gpsdo_label b = lit "internal" ∨ gpsdo_label b = lit "onboard"
      ∨ gpsdo_label b = lit "none" := by
    unfold gpsdo_label
    split
    · exact Or.inl rfl
    · split
      · exact Or.inr (Or.inl rfl)
      · exact Or.inr (Or.inr rfl)
  rw [if_pos h]

theorem n100_rev_eq (iface : i2c_iface) (hbytes : ∀ o, iface.mem 0x50 o < 256) :
    n100_rev iface = iface.mem 0x50 0 + 256 * iface.mem 0x50 1 := by
  unfold n100_rev
  have h0 := hbytes 0
  have h1 := hbytes 1
  rw [or_shift_eq _ _ h0]
  omega

theorem n100_prod_eq (iface : i2c_iface) (hbytes : ∀ o, iface.mem 0x50 o < 256) :
    n100_prod iface = iface.mem 0x50 0x14 + 256 * iface.mem 0x50 0x15 := by
  unfold n100_prod
  have h0 := hbytes 0x14
  have h1 := hbytes 0x15
  rw [or_shift_eq _ _ h0]
  omega

theorem n100_fallback_serial_lt (iface : i2c_iface) (hbytes : ∀ o, iface.mem 0x50 o < 256) :
    n100_fallback_serial iface < 10 ^ 4 := by
  unfold n100_fallback_serial
  rw [serial_bits _ _ (hbytes 7)]
  have h7 := hbytes 7
  have := Nat.mod_lt (iface.mem 0x50 6) (by decide : 16 > 0)
  omega

theorem bus_of_byte (contents : byte_vector_t) (h : ∀ b ∈ contents, b < 256) (a o : Nat) :
    (bus_of contents).mem a o < 256 := by
  show contents.getD o 0 < 256
  rw [List.getD_eq_getElem?_getD]
  rcases hg : contents[o]? with _ | b
  · simp
  · exact h b (List.getElem?_mem hg)

theorem n100_loaded_serial_ne_nil (iface : i2c_iface) :
    (if n100_serial iface = [] then decimal (n100_fallback_serial iface) else n100_serial iface)
      ≠ [] := by
  by_cases hs : n100_serial iface = []
  · rw [if_pos hs]
    exact decimal_ne_nil _
  · rw [if_neg hs]
    exact hs

/-- N100: the dictionary loaded after committing the loaded dictionary is the
loaded dictionary. -/
theorem n100_reload (E : Ext) (iface : i2c_iface) (hbytes : ∀ o, iface.mem 0x50 o < 256)
    (hlib : library_round_trips E iface .MAP_N100)
    (hok : (commit E (n100_loaded E iface)
      { iface with reads := iface.reads ++ n100_reads } .MAP_N100).error = none) :
    n100_loaded E
        (commit E (n100_loaded E iface)
          { iface with reads := iface.reads ++ n100_reads } .MAP_N100).iface
      = n100_loaded E iface := by
  obtain ⟨hnil, hprev, hpprod, hpmac, hpip⟩ := hlib
  -- the product code was valid, or the commit would have thrown
  obtain ⟨bytes, hby⟩ := commit_ok_all E .MAP_N100 _ _ hok (⟨"product", 0x14, 2⟩, encode_lsb_msb E)
    (by simp [codecs])
    (if n100_prod iface = 0 ∨ n100_prod iface = 0xffff then [] else decimal (n100_prod iface)) rfl
  have hvalid : ¬ (n100_prod iface = 0 ∨ n100_prod iface = 0xffff) := by
    intro hn
    rw [if_pos hn] at hby
    simp only [encode_lsb_msb, hnil] at hby
    cases hby
  have hgprod : dict_get (n100_loaded E iface) "product" = .ok (decimal (n100_prod iface)) := by
    show Except.ok (if n100_prod iface = 0 ∨ n100_prod iface = 0xffff then []
      else decimal (n100_prod iface)) = _
    rw [if_neg hvalid]
  have hr := n100_rev_eq iface hbytes
  have hp := n100_prod_eq iface hbytes
  have b0 := hbytes 0
  have b1 := hbytes 1
  have b14 := hbytes 0x14
  have b15 := hbytes 0x15
  have herev : encode_lsb_msb E (decimal (n100_rev iface))
      = .ok [iface.mem 0x50 0, iface.mem 0x50 1] := by
    rw [encode_lsb_msb_decimal E _ _ (by omega) hprev, hr]
    congr 2
    · omega
    · congr 1
      omega
  have heprod : encode_lsb_msb E (decimal (n100_prod iface))
      = .ok [iface.mem 0x50 0x14, iface.mem 0x50 0x15] := by
    rw [encode_lsb_msb_decimal E _ _ (by omega) hpprod, hp]
    congr 2
    · omega
    · congr 1
      omega
  have hemac : encode_mac_addr E (E.mac_to_string (n100_mac iface))
      = .ok [iface.mem 0x50 2, iface.mem 0x50 3, iface.mem 0x50 4, iface.mem 0x50 5,
          iface.mem 0x50 6, iface.mem 0x50 7] := by
    simp only [encode_mac_addr, hpmac]
    rfl
  have heip : encode_ip_addr E (E.ip_to_string (n100_ip iface))
      = .ok [iface.mem 0x50 0x0c, iface.mem 0x50 0x0d, iface.mem 0x50 0x0e, iface.mem 0x50 0x0f] := by
    simp only [encode_ip_addr, hpip]
    rfl
  have wrev := commit_written E .MAP_N100 _ _ hok (⟨"rev", 0x00, 2⟩, encode_lsb_msb E)
    (by simp [codecs]) (decimal (n100_rev iface)) _ rfl herev
  have wprod := commit_written E .MAP_N100 _ _ hok (⟨"product", 0x14, 2⟩, encode_lsb_msb E)
    (by simp [codecs]) (decimal (n100_prod iface)) _ hgprod heprod
  have wmac := commit_written E .MAP_N100 _ _ hok (⟨"mac-addr", 0x02, 6⟩, encode_mac_addr E)
    (by simp [codecs]) (E.mac_to_string (n100_mac iface)) _ rfl hemac
  have wip := commit_written E .MAP_N100 _ _ hok (⟨"ip-addr", 0x0C, 4⟩, encode_ip_addr E)
    (by simp [codecs]) (E.ip_to_string (n100_ip iface)) _ rfl heip
  have wgps := commit_written E .MAP_N100 _ _ hok (⟨"gpsdo", 0x17, 1⟩, encode_gpsdo)
    (by simp [codecs]) (gpsdo_label (iface.mem 0x50 0x17)) _ rfl (encode_gpsdo_eq _)
  have hser : ascii_at (commit E (n100_loaded E iface)
      { iface with reads := iface.reads ++ n100_reads } .MAP_N100).iface 0x50 0x18 9
      = (if n100_serial iface = [] then decimal (n100_fallback_serial iface)
          else n100_serial iface) := by
    refine ascii_after_commit E .MAP_N100 _ _ hok "serial" 0x18 9 (by simp [codecs])
      (by decide) (by decide) _ rfl ?_ ?_ ?_
    · by_cases hs : n100_serial iface = []
      · rw [if_pos hs]
        exact decimal_kept _
      · rw [if_neg hs]
        exact ascii_at_kept iface 0x50 0x18 9
    · by_cases hs : n100_serial iface = []
      · rw [if_pos hs]
        have := decimal_length_le _ 4 (by decide) (n100_fallback_serial_lt iface hbytes)
        omega
      · rw [if_neg hs]
        exact ascii_at_length_le iface 0x50 0x18 9
    · by_cases hs : n100_serial iface = []
      · rw [if_pos hs]
        intro h
        have := decimal_length_le _ 4 (by decide) (n100_fallback_serial_lt iface hbytes)
        omega
      · rw [if_neg hs]
        exact ascii_at_stops iface 0x50 0x18 9 (by decide)
  have hname : ascii_at (commit E (n100_loaded E iface)
      { iface with reads := iface.reads ++ n100_reads } .MAP_N100).iface 0x50 0x21 23
      = ascii_at iface 0x50 0x21 23 :=
    ascii_after_commit E .MAP_N100 _ _ hok "name" 0x21 23 (by simp [codecs])
      (by decide) (by decide) _ rfl (ascii_at_kept _ _ _ _)
      (ascii_at_length_le _ _ _ _) (ascii_at_stops iface 0x50 0x21 23 (by decide))
  generalize (commit E (n100_loaded E iface)
    { iface with reads := iface.reads ++ n100_reads } .MAP_N100).iface = iface2
    at wrev wprod wmac wip wgps hser hname ⊢
  have m0 : iface2.mem 0x50 0 = iface.mem 0x50 0 := wrev 0 (by simp)
  have m1 : iface2.mem 0x50 1 = iface.mem 0x50 1 := wrev 1 (by simp)
  have m14 : iface2.mem 0x50 0x14 = iface.mem 0x50 0x14 := wprod 0 (by simp)
  have m15 : iface2.mem 0x50 0x15 = iface.mem 0x50 0x15 := wprod 1 (by simp)
  have m2 : iface2.mem 0x50 2 = iface.mem 0x50 2 := wmac 0 (by simp)
  have m3 : iface2.mem 0x50 3 = iface.mem 0x50 3 := wmac 1 (by simp)
  have m4 : iface2.mem 0x50 4 = iface.mem 0x50 4 := wmac 2 (by simp)
  have m5 : iface2.mem 0x50 5 = iface.mem 0x50 5 := wmac 3 (by simp)
  have m6 : iface2.mem 0x50 6 = iface.mem 0x50 6 := wmac 4 (by simp)
  have m7 : iface2.mem 0x50 7 = iface.mem 0x50 7 := wmac 5 (by simp)
  have mc : iface2.mem 0x50 0x0c = iface.mem 0x50 0x0c := wip 0 (by simp)
  have md : iface2.mem 0x50 0x0d = iface.mem 0x50 0x0d := wip 1 (by simp)
  have me : iface2.mem 0x50 0x0e = iface.mem 0x50 0x0e := wip 2 (by simp)
  have mf : iface2.mem 0x50 0x0f = iface.mem 0x50 0x0f := wip 3 (by simp)
  have mg : iface2.mem 0x50 0x17
      = (if gpsdo_label (iface.mem 0x50 0x17) = lit "internal" then 1
          else if gpsdo_label (iface.mem 0x50 0x17) = lit "onboard" then 2 else 0) :=
    wgps 0 (by simp)
  have hrev : n100_rev iface2 = n100_rev iface := by
    unfold n100_rev
    rw [m0, m1]
  have hprod : n100_prod iface2 = n100_prod iface := by
    unfold n100_prod
    rw [m14, m15]
  have hmac : n100_mac iface2 = n100_mac iface := by
    unfold n100_mac
    rw [m2, m3, m4, m5, m6, m7]
  have hip : n100_ip iface2 = n100_ip iface := by
    unfold n100_ip
    rw [mc, md, me, mf]
  have hgps : gpsdo_label (iface2.mem 0x50 0x17) = gpsdo_label (iface.mem 0x50 0x17) := by
    rw [mg]
    exact gpsdo_label_idem _
  have hser2 : n100_serial iface2
      = (if n100_serial iface = [] then decimal (n100_fallback_serial iface)
          else n100_serial iface) := hser
  have htext : (if n100_serial iface2 = [] then decimal (n100_fallback_serial iface2)
      else n100_serial iface2)
      = (if n100_serial iface = [] then decimal (n100_fallback_serial iface)
          else n100_serial iface) := by
    rw [if_neg (by rw [hser2]; exact n100_loaded_serial_ne_nil iface), hser2]
  show n100_dict _ _ _ _ _ _ _ = n100_dict _ _ _ _ _ _ _
  rw [hrev, hprod, hmac, hip, hgps, htext, hname]

/-! ## Main results -/

/-- C1, at a failing input: an N100 device whose byte at offset `0x37`, the
last byte of the `"name"` field, is `'A'`. Committing a dictionary that holds
only `"name"`, set to 22 letters `'a'`, succeeds and writes 22 bytes without a
NUL; loading from the same device then returns a 23-character name, the 22
letters followed by the stale `'A'`. -/
theorem C1_name_of_22_chars_reads_back_longer :
    (commit stdExt [("name", List.replicate 22 97)]
      (bus_of (List.replicate 0x37 0 ++ [65])) .MAP_N100).error = none ∧
    (commit stdExt [("name", List.replicate 22 97)]
      (bus_of (List.replicate 0x37 0 ++ [65])) .MAP_N100).iface.writes
        = [(0x50, 0x21, List.replicate 22 97)] ∧
    ((load stdExt (commit stdExt [("name", List.replicate 22 97)]
        (bus_of (List.replicate 0x37 0 ++ [65])) .MAP_N100).iface .MAP_N100).toOption.bind
      fun p => (dict_get p.1 "name").toOption) = some (List.replicate 22 97 ++ [65]) := by
  decide

/-- C2, as stated, fails: the byte 127 lies outside `[32,127)`, yet
`bytes_to_string` keeps it and goes on. The buffer `[97, 127, 98]` decodes to
itself, while its prefix up to the first byte outside `[32,127)` is `[97]`. -/
theorem C2_byte_127_is_kept :
    bytes_to_string [97, 127, 98] = [97, 127, 98] ∧
    List.takeWhile spec_printable [97, 127, 98] = [97] := by
  decide

/-- C2, amended: for every byte buffer, `bytes_to_string` returns the prefix
of the buffer up to, and not including, the first byte `b` with `b < 32` or
`b > 127` (the byte 127 is kept); if there is no such byte the result is the
whole buffer, and a buffer whose first such byte is at position `k` decodes to
exactly its first `k` bytes. -/
theorem C2_bytes_to_string_stops_at_rejected (bytes : byte_vector_t) :
    bytes_to_string bytes = bytes.takeWhile (fun b => decide (32 ≤ b ∧ b ≤ 127)) ∧
    ((∀ b ∈ bytes, 32 ≤ b ∧ b ≤ 127) → bytes_to_string bytes = bytes) ∧
    (∀ k, k < bytes.length → (∀ i, i < k → 32 ≤ bytes.getD i 0 ∧ bytes.getD i 0 ≤ 127) →
      (bytes.getD k 0 < 32 ∨ bytes.getD k 0 > 127) → bytes_to_string bytes = bytes.take k) := by
  refine ⟨bytes_to_string_eq_takeWhile bytes, ?_, ?_⟩
  · intro h
    rw [bytes_to_string_eq_takeWhile]
    exact takeWhile_all kept bytes (fun b hb => by simpa [kept] using h b hb)
  · intro k hk hpre hstop
    rw [bytes_to_string_eq_takeWhile]
    refine takeWhile_eq_take kept bytes k hk (fun i hi => by simpa [kept] using hpre i hi) ?_
    simp only [kept, decide_eq_false_iff_not]
    omega

/-- Witness of C2 (amended): a buffer whose first byte outside `[32,127]` is
at position 3 decodes to its first 3 bytes, the byte 127 among them. -/
theorem C2_bytes_to_string_stops_at_rejected_witness :
    bytes_to_string [97, 127, 98, 10, 99] = [97, 127, 98] :=
  (C2_bytes_to_string_stops_at_rejected [97, 127, 98, 10, 99]).2.2 3 (by decide) (by decide) (by decide)

/-- C3: for every string and every width `W ≥ 1` (a `size_t`),
`string_to_bytes` returns the first `min(len, W)` bytes of the string,
followed by exactly one NUL byte if and only if `min(len, W) < W - 1`; the
result is never longer than `W` bytes. The function is total: it never
fails, and an over-length string is cut to `W` bytes. -/
theorem C3_string_to_bytes_shape (s : Str) (W : Nat) (h1 : 1 ≤ W) (h2 : W < 2 ^ 64) :
    string_to_bytes s W
        = s.take (min s.length W) ++ (if min s.length W < W - 1 then [0] else []) ∧
    (string_to_bytes s W).length ≤ W ∧
    (W < s.length → string_to_bytes s W = s.take W) := by
  have heq := string_to_bytes_eq s W h1 h2
  refine ⟨heq, ?_, ?_⟩
  · rw [heq]
    split
    · simp only [List.length_append, List.length_take, List.length_singleton]
      omega
    · simp only [List.append_nil, List.length_take]
      omega
  · intro hlt
    rw [heq]
    have hmin : min s.length W = W := by omega
    have hno : ¬ (W < W - 1) := by omega
    simp [hmin, hno]

/-- Witness of C3: `"rx1"` at width 23 is its three bytes and one NUL; at
width 2 it is cut to two bytes. -/
theorem C3_string_to_bytes_shape_witness :
    string_to_bytes (lit "rx1") 23 = [114, 120, 49, 0] ∧
    string_to_bytes (lit "rx1") 2 = [114, 120] := by
  refine ⟨?_, ?_⟩
  · rw [(C3_string_to_bytes_shape (lit "rx1") 23 (by decide) (by decide)).1]; decide
  · exact (C3_string_to_bytes_shape (lit "rx1") 2 (by decide) (by decide)).2.2 (by decide)

/-- C4: for every width `W ≥ 1` and every string of length at most `W` whose
bytes are all printable (in `[32,127)`),
`bytes_to_string(string_to_bytes(value, W))` equals `value`. -/
theorem C4_ascii_codec_round_trip (value : Str) (W : Nat) (h1 : 1 ≤ W) (h2 : W < 2 ^ 64)
    (hlen : value.length ≤ W) (hp : ∀ b ∈ value, 32 ≤ b ∧ b < 127) :
    bytes_to_string (string_to_bytes value W) = value :=
  bytes_to_string_string_to_bytes value W h1 h2 hlen
    (fun b hb => ⟨(hp b hb).1, by have := (hp b hb).2; omega⟩)

/-- Witness of C4: `"rx1"` survives the round trip at width 23 (NUL padded)
and at width 3 (no padding). -/
theorem C4_ascii_codec_round_trip_witness :
    bytes_to_string (string_to_bytes (lit "rx1") 23) = lit "rx1" ∧
    bytes_to_string (string_to_bytes (lit "rx1") 3) = lit "rx1" :=
  ⟨C4_ascii_codec_round_trip (lit "rx1") 23 (by decide) (by decide) (by decide) (by decide),
   C4_ascii_codec_round_trip (lit "rx1") 3 (by decide) (by decide) (by decide) (by decide)⟩

/-- C5: for every content of the four bytes of the B000 `"mcr"` field, with
`v` their unsigned 32-bit value read in network (big-endian) order,
`load_b000` returns and sets `"mcr"` to the decimal string of `v` when
`1e6 < v < 1e9`, and to the empty string otherwise. -/
theorem C5_b000_clock_rate_decode (E : Ext) (mb_eeprom : mboard_eeprom_t) (iface : i2c_iface)
    (h0 : iface.mem 0x50 0xdd < 256) (h1 : iface.mem 0x50 0xde < 256)
    (h2 : iface.mem 0x50 0xdf < 256) (h3 : iface.mem 0x50 0xe0 < 256) :
    ∃ mb iface2, load_b000 E mb_eeprom iface = .ok (mb, iface2) ∧
      dict_get mb "mcr"
        = .ok (if 10 ^ 6 < mcr_value iface ∧ mcr_value iface < 10 ^ 9
               then decimal (mcr_value iface) else []) :=
  load_b000_mcr E mb_eeprom iface h0 h1 h2 h3

/-- Witness of C5: bytes encoding 100 give `""`, bytes encoding 50,000,000
give `"50000000"`. -/
theorem C5_b000_clock_rate_decode_witness :
    (∃ mb iface2,
      load_b000 stdExt [] (bus_of (List.replicate 0xdd 0 ++ [0, 0, 0, 100])) = .ok (mb, iface2) ∧
      dict_get mb "mcr" = .ok []) ∧
    (∃ mb iface2,
      load_b000 stdExt [] (bus_of (List.replicate 0xdd 0 ++ [2, 250, 240, 128])) = .ok (mb, iface2) ∧
      dict_get mb "mcr" = .ok (lit "50000000")) := by
  refine ⟨?_, ?_⟩
  · obtain ⟨mb, iface2, hl, hg⟩ :=
      C5_b000_clock_rate_decode stdExt [] (bus_of (List.replicate 0xdd 0 ++ [0, 0, 0, 100]))
        (by decide) (by decide) (by decide) (by decide)
    exact ⟨mb, iface2, hl, hg.trans (congrArg Except.ok (by decide))⟩
  · obtain ⟨mb, iface2, hl, hg⟩ :=
      C5_b000_clock_rate_decode stdExt [] (bus_of (List.replicate 0xdd 0 ++ [2, 250, 240, 128]))
        (by decide) (by decide) (by decide) (by decide)
    exact ⟨mb, iface2, hl, hg.trans (congrArg Except.ok (by decide))⟩

/-- C6: for every four bytes whose big-endian value `v` passes the clock-rate
check, and every dictionary whose `"mcr"` is the decimal string of `v` (what
those bytes decode to), `store_b000` runs to the end and its last write puts
exactly the original four bytes, in the same order, at the `"mcr"` offset
`0xdd`; loading from the device afterwards gives the decimal string of `v`
back. The library parse is assumed to read the decimal string of `v` as
`v`. -/
theorem C6_b000_clock_rate_reencode (E : Ext) (mb_eeprom mb0 : mboard_eeprom_t)
    (iface : i2c_iface) (b0 b1 b2 b3 : Nat)
    (h0 : b0 < 256) (h1 : b1 < 256) (h2 : b2 < 256) (h3 : b3 < 256)
    (hvalid : 10 ^ 6 < 2 ^ 24 * b0 + 2 ^ 16 * b1 + 2 ^ 8 * b2 + b3 ∧
      2 ^ 24 * b0 + 2 ^ 16 * b1 + 2 ^ 8 * b2 + b3 < 10 ^ 9)
    (hparse : E.lexical_cast_double_uint32 (decimal (2 ^ 24 * b0 + 2 ^ 16 * b1 + 2 ^ 8 * b2 + b3))
      = some (2 ^ 24 * b0 + 2 ^ 16 * b1 + 2 ^ 8 * b2 + b3))
    (hmcr : dict_get mb_eeprom "mcr"
      = .ok (decimal (2 ^ 24 * b0 + 2 ^ 16 * b1 + 2 ^ 8 * b2 + b3))) :
    (store_b000 E mb_eeprom iface).error = none ∧
    (store_b000 E mb_eeprom iface).iface.writes.getLast? = some (0x50, 0xdd, [b0, b1, b2, b3]) ∧
    ∃ mb iface2, load_b000 E mb0 (store_b000 E mb_eeprom iface).iface = .ok (mb, iface2) ∧
      dict_get mb "mcr" = .ok (decimal (2 ^ 24 * b0 + 2 ^ 16 * b1 + 2 ^ 8 * b2 + b3)) := by
  obtain ⟨iface1, hst⟩ := store_b000_mcr E mb_eeprom iface _ _ hmcr
    (encode_mcr_decimal E b0 b1 b2 b3 h0 h1 h2 h3 hparse)
  rw [hst]
  refine ⟨rfl, getLast?_write _ _ _ _, ?_⟩
  obtain ⟨m0, m1, m2, m3⟩ := write_eeprom_mem_four iface1 0x50 0xdd b0 b1 b2 b3
  have hval : mcr_value (iface1.write_eeprom 0x50 0xdd [b0, b1, b2, b3])
      = 2 ^ 24 * b0 + 2 ^ 16 * b1 + 2 ^ 8 * b2 + b3 := by
    simp only [mcr_value]
    rw [m0, m1, m2, m3]
  obtain ⟨mb, iface2, hl, hg⟩ := load_b000_mcr E mb0 (iface1.write_eeprom 0x50 0xdd [b0, b1, b2, b3])
    (by rw [m0]; exact h0) (by rw [m1]; exact h1) (by rw [m2]; exact h2) (by rw [m3]; exact h3)
  refine ⟨mb, iface2, hl, ?_⟩
  rw [hg, hval, if_pos hvalid]

/-- Witness of C6: re-encoding `"50000000"` writes `02 fa f0 80` at `0xdd`,
and loading afterwards returns `"50000000"`. -/
theorem C6_b000_clock_rate_reencode_witness :
    (store_b000 stdExt [("mcr", lit "50000000")] (bus_of [])).error = none ∧
    (store_b000 stdExt [("mcr", lit "50000000")] (bus_of [])).iface.writes.getLast?
      = some (0x50, 0xdd, [2, 250, 240, 128]) ∧
    ∃ mb iface2,
      load_b000 stdExt [] (store_b000 stdExt [("mcr", lit "50000000")] (bus_of [])).iface
        = .ok (mb, iface2) ∧
      dict_get mb "mcr" = .ok (lit "50000000") :=
  C6_b000_clock_rate_reencode stdExt [("mcr", lit "50000000")] [] (bus_of []) 2 250 240 128
    (by decide) (by decide) (by decide) (by decide) (by decide) (by decide) rfl

/-- C7, as stated, fails: the commit does not complete. An N100 device with
all bytes zero loads with `"product"` empty, and committing the dictionary
just loaded stops with `bad_lexical_cast`; so does committing
`{"product": ""}` on N100 and `{"mcr": ""}` on B000. -/
theorem C7_commit_of_empty_number_throws :
    ((load stdExt (bus_of []) .MAP_N100).toOption.map
      fun p => (dict_get p.1 "product").toOption) = some (some []) ∧
    ((load stdExt (bus_of []) .MAP_N100).toOption.map
      fun p => (commit stdExt p.1 p.2 .MAP_N100).error) = some (some .bad_lexical_cast) ∧
    (commit stdExt [("product", [])] (bus_of []) .MAP_N100).error = some .bad_lexical_cast ∧
    (commit stdExt [("mcr", [])] (bus_of []) .MAP_B000).error = some .bad_lexical_cast := by
  decide

/-- C7, amended: when the library parsers reject the empty string, a commit
of a dictionary whose N100 `"product"` (B000 `"mcr"`) holds the empty string
issues no write for that field and changes no byte of its range, and stops
with `bad_lexical_cast` instead of completing; the writes it has made are
those of fields earlier in the store order (N100: at most the two bytes of
`"rev"` at offset 0; B000: `"serial"` and `"name"`, at offsets from `0xe1`
on). -/
theorem C7_empty_number_stops_commit (E : Ext) (mb_eeprom : mboard_eeprom_t)
    (iface : i2c_iface) :
    (E.lexical_cast_uint16 [] = none → dict_get mb_eeprom "product" = .ok [] →
      (commit E mb_eeprom iface .MAP_N100).error = some .bad_lexical_cast ∧
      (∀ o, 0x14 ≤ o → o < 0x16 →
        (commit E mb_eeprom iface .MAP_N100).iface.mem 0x50 o = iface.mem 0x50 o) ∧
      ∃ ws, (commit E mb_eeprom iface .MAP_N100).iface.writes = iface.writes ++ ws ∧
        ∀ w ∈ ws, w.2.1 = 0x00 ∧ w.2.2.length = 2) ∧
    (E.lexical_cast_double_uint32 [] = none → dict_get mb_eeprom "mcr" = .ok [] →
      (commit E mb_eeprom iface .MAP_B000).error = some .bad_lexical_cast ∧
      (∀ o, 0xdd ≤ o → o < 0xe1 →
        (commit E mb_eeprom iface .MAP_B000).iface.mem 0x50 o = iface.mem 0x50 o) ∧
      ∃ ws, (commit E mb_eeprom iface .MAP_B000).iface.writes = iface.writes ++ ws ∧
        ∀ w ∈ ws, 0xe1 ≤ w.2.1) :=
  ⟨store_n100_empty_product E mb_eeprom iface, store_b000_empty_mcr E mb_eeprom iface⟩

/-- Witness of C7 (amended): with `"rev"` set to 5 and `"product"` empty the
N100 commit stops with `bad_lexical_cast`; with `"name"` set and `"mcr"` empty
so does the B000 commit. -/
theorem C7_empty_number_stops_commit_witness :
    (commit stdExt [("rev", lit "5"), ("product", []), ("name", lit "x")] (bus_of [])
      .MAP_N100).error = some .bad_lexical_cast ∧
    (commit stdExt [("name", lit "x"), ("mcr", [])] (bus_of []) .MAP_B000).error
      = some .bad_lexical_cast :=
  ⟨((C7_empty_number_stops_commit stdExt [("rev", lit "5"), ("product", []), ("name", lit "x")]
      (bus_of [])).1 rfl rfl).1,
   ((C7_empty_number_stops_commit stdExt [("name", lit "x"), ("mcr", [])]
      (bus_of [])).2 rfl rfl).1⟩

/-- C8: for every N100 device content, `load_n100` returns; if the nine-byte
serial field decodes to the empty string, `"serial"` is the decimal string of
`m5 + 256 * (m4 mod 16)`, a value below 4096, where `m4` and `m5` are the
bytes at offsets 6 and 7, the second-to-last and last byte of the link-layer
address field (the address text is assumed to parse back to the address it was
printed from, and `m5` to be a byte); if the serial field decodes to a
non-empty string, `"serial"` is that string. -/
theorem C8_n100_serial_fallback (E : Ext) (mb0 : mboard_eeprom_t) (iface : i2c_iface) :
    (n100_serial iface = [] → iface.mem 0x50 7 < 256 →
      E.mac_from_string (E.mac_to_string (n100_mac iface)) = some (n100_mac iface) →
      ∃ mb iface2, load_n100 E mb0 iface = .ok (mb, iface2) ∧
        dict_get mb "serial"
          = .ok (decimal (iface.mem 0x50 7 + 256 * (iface.mem 0x50 6 % 16))) ∧
        iface.mem 0x50 7 + 256 * (iface.mem 0x50 6 % 16) < 4096) ∧
    (n100_serial iface ≠ [] →
      ∃ mb iface2, load_n100 E mb0 iface = .ok (mb, iface2) ∧
        dict_get mb "serial" = .ok (n100_serial iface)) := by
  refine ⟨?_, (load_n100_serial E mb0 iface).1⟩
  intro he hb hrt
  obtain ⟨mb, iface2, hl, hg⟩ := (load_n100_serial E mb0 iface).2 he hrt
  refine ⟨mb, iface2, hl, ?_, ?_⟩
  · rw [hg]
    show Except.ok (decimal (iface.mem 0x50 7 ||| ((iface.mem 0x50 6 &&& 0x0f) <<< 8))) = _
    rw [serial_bits _ _ hb]
  · have := Nat.mod_lt (iface.mem 0x50 6) (by decide : 16 > 0)
    omega

/-- Witness of C8: with an empty serial field and the address
`00:50:c2:85:3f:ab` the serial is `"4011"`; a serial field holding `"F4A"`
is returned as it is. -/
theorem C8_n100_serial_fallback_witness :
    (∃ mb iface2,
      load_n100 stdExt [] (bus_of [1, 0, 0x00, 0x50, 0xc2, 0x85, 0x3f, 0xab]) = .ok (mb, iface2) ∧
      dict_get mb "serial" = .ok (lit "4011")) ∧
    (∃ mb iface2,
      load_n100 stdExt [] (bus_of (List.replicate 0x18 0xff ++ [70, 52, 65, 0])) = .ok (mb, iface2) ∧
      dict_get mb "serial" = .ok (lit "F4A")) := by
  refine ⟨?_, ?_⟩
  · obtain ⟨mb, iface2, hl, hg, _⟩ :=
      (C8_n100_serial_fallback stdExt [] (bus_of [1, 0, 0x00, 0x50, 0xc2, 0x85, 0x3f, 0xab])).1
        (by decide) (by decide) (by decide)
    exact ⟨mb, iface2, hl, hg.trans (congrArg Except.ok (by decide))⟩
  · obtain ⟨mb, iface2, hl, hg⟩ :=
      (C8_n100_serial_fallback stdExt [] (bus_of (List.replicate 0x18 0xff ++ [70, 52, 65, 0]))).2
        (by decide)
    exact ⟨mb, iface2, hl, hg.trans (congrArg Except.ok (by decide))⟩

/-- C9: for every variant and every dictionary whose commit ends without an
exception, the commit issues exactly one bus write for each declared field
whose key the dictionary holds, in store order, at the field's offset and
inside its byte range, and no other write; so the number of writes equals the
number of declared keys present. Committing `{"name": "rx1"}` issues exactly
one write, the three letters and a NUL, at the offset of `"name"` and inside
its range. -/
theorem C9_commit_partiality (E : Ext) (map : map_type) (mb_eeprom : mboard_eeprom_t)
    (iface : i2c_iface) :
    ((commit E mb_eeprom iface map).error = none →
      ∃ ws, (commit E mb_eeprom iface map).iface.writes = iface.writes ++ ws ∧
        List.Forall₂ (write_fits (eeprom_addr map)) ws (present_fields mb_eeprom map) ∧
        ws.length = (present_fields mb_eeprom map).length) ∧
    ((commit E [("name", lit "rx1")] iface map).error = none ∧
      ∃ f ∈ declared_fields map, f.key = "name" ∧
        (commit E [("name", lit "rx1")] iface map).iface.writes
          = iface.writes ++ [(eeprom_addr map, f.offset, [114, 120, 49, 0])] ∧
        4 ≤ f.width) := by
  constructor
  · intro hok
    rw [commit_eq_store_fields] at hok ⊢
    obtain ⟨ws, hw, hf⟩ :=
      store_fields_writes mb_eeprom (eeprom_addr map) (codecs E map) (codecs_bounded E map) iface hok
    rw [codecs_fields] at hf
    exact ⟨ws, hw, hf, hf.length_eq⟩
  · cases map
    · exact ⟨rfl, ⟨"name", 0x21, 23⟩, by simp [declared_fields], rfl, rfl, by decide⟩
    · exact ⟨rfl, ⟨"name", 0xe1, 23⟩, by simp [declared_fields], rfl, rfl, by decide⟩
    · exact ⟨rfl, ⟨"name", 104, 23⟩, by simp [declared_fields], rfl, rfl, by decide⟩

/-- Witness of C9: a commit of `"rev"` and `"name"` on N100 ends without an
exception and issues two writes. -/
theorem C9_commit_partiality_witness :
    ∃ ws, (commit stdExt [("rev", lit "5"), ("name", lit "rx1")] (bus_of []) .MAP_N100).iface.writes
        = [] ++ ws ∧
      List.Forall₂ (write_fits 0x50) ws [⟨"rev", 0x00, 2⟩, ⟨"name", 0x21, 23⟩] ∧
      ws.length = 2 :=
  (C9_commit_partiality stdExt .MAP_N100 [("rev", lit "5"), ("name", lit "rx1")] (bus_of [])).1
    (by decide)

/-- C10: for every variant, every device content and every dictionary, after
`commit`, whether it ran to the end or stopped with an exception, every device
byte outside the declared ranges `[offset, offset + width)` of the fields whose
keys the dictionary holds has the value it had before. -/
theorem C10_commit_frame (E : Ext) (map : map_type) (mb_eeprom : mboard_eeprom_t)
    (iface : i2c_iface) (a o : Nat) (hout : ¬ in_present_range mb_eeprom map a o) :
    (commit E mb_eeprom iface map).iface.mem a o = iface.mem a o := by
  rw [commit_eq_store_fields]
  apply store_fields_frame mb_eeprom (eeprom_addr map) a o (codecs E map) (codecs_bounded E map)
  rintro ⟨ha, c, hc, hk, hlo, hhi⟩
  apply hout
  refine ⟨ha, c.1, ?_, hk, hlo, hhi⟩
  rw [← codecs_fields E map]
  exact List.mem_map_of_mem _ hc

/-- Witness of C10: a commit that writes `"rev"` and then stops at an
unparseable `"product"` leaves the first byte of the `"mac-addr"` field, whose
key is absent, as it was. -/
theorem C10_commit_frame_witness :
    (commit stdExt [("rev", lit "5"), ("product", lit "abc")] (bus_of [1, 2, 3]) .MAP_N100).error
      = some .bad_lexical_cast ∧
    (commit stdExt [("rev", lit "5"), ("product", lit "abc")] (bus_of [1, 2, 3]) .MAP_N100).iface.mem
      0x50 2 = 3 :=
  ⟨by decide,
   C10_commit_frame stdExt .MAP_N100 [("rev", lit "5"), ("product", lit "abc")] (bus_of [1, 2, 3])
     0x50 2 (by unfold in_present_range; decide)⟩

/-- C11: for every device content `load` returns and the dictionary it returns
holds every declared key of the variant, possibly with an empty value. For
B000 and E100 this is unconditional; for N100 the empty serial correction
parses the address text that the same routine printed, and the statement
assumes that parse does not throw. -/
theorem C11_load_completeness (E : Ext) (iface : i2c_iface) :
    (n100_mac_text_parses E iface →
      ∃ mb iface2, load E iface .MAP_N100 = .ok (mb, iface2) ∧
        ∀ k ∈ ["rev", "product", "mac-addr", "ip-addr", "gpsdo", "serial", "name"],
          has_key mb k = true) ∧
    (∃ mb iface2, load E iface .MAP_B000 = .ok (mb, iface2) ∧
      ∀ k ∈ ["serial", "name", "mcr"], has_key mb k = true) ∧
    (∃ mb iface2, load E iface .MAP_E100 = .ok (mb, iface2) ∧
      ∀ k ∈ ["vendor", "device", "revision", "content", "model", "env_var", "env_setting",
          "serial", "name"], has_key mb k = true) := by
  refine ⟨?_, ?_, ?_⟩
  · intro hmac
    obtain ⟨mb, hl, _, _, hk⟩ := load_n100_returns E [] iface hmac
    refine ⟨mb, _, hl, ?_⟩
    intro k hmem
    rw [hk]
    exact n100_before_correction_keys E [] iface k hmem
  · exact ⟨_, _, load_b000_eq E [] iface, b000_loaded_keys E [] iface⟩
  · exact ⟨_, _, load_e100_eq E [] iface, e100_loaded_keys E [] iface⟩

/-- Witness of C11: a blank N100 device (all bytes `0xff` in the first 64
positions) loads, and the dictionary holds the seven keys. -/
theorem C11_load_completeness_witness :
    ∃ mb iface2, load stdExt (bus_of (List.replicate 64 0xff)) .MAP_N100 = .ok (mb, iface2) ∧
      ∀ k ∈ ["rev", "product", "mac-addr", "ip-addr", "gpsdo", "serial", "name"],
        has_key mb k = true :=
  (C11_load_completeness stdExt (bus_of (List.replicate 64 0xff))).1 (fun _ => by decide)

/-- C12: for every byte `b` stored in the N100 `"gpsdo"` field, `load_n100`
sets `"gpsdo"` to `"internal"` if `b = 1`, to `"onboard"` if `b = 2` and to
`"none"` for every other `b`; the decoding has no failing case (the routine as
a whole returns whenever the address text parses where the empty serial
correction needs it). -/
theorem C12_gpsdo_decode (E : Ext) (mb0 : mboard_eeprom_t) (iface : i2c_iface)
    (hmac : n100_mac_text_parses E iface) :
    ∃ mb iface2, load_n100 E mb0 iface = .ok (mb, iface2) ∧
      dict_get mb "gpsdo"
        = .ok (if iface.mem 0x50 0x17 = 1 then lit "internal"
               else if iface.mem 0x50 0x17 = 2 then lit "onboard"
               else lit "none") := by
  obtain ⟨mb, hl, hg, _, _⟩ := load_n100_returns E mb0 iface hmac
  refine ⟨mb, _, hl, ?_⟩
  rw [hg "gpsdo" (by decide)]
  simp only [n100_before_correction]
  rw [dict_get_dict_set_other _ _ _ _ (by decide), dict_get_dict_set_other _ _ _ _ (by decide),
    dict_get_dict_set_same]
  rfl

/-- Witness of C12: the byte `0xff` decodes to `"none"`, the byte 2 to
`"onboard"`. -/
theorem C12_gpsdo_decode_witness :
    (∃ mb iface2, load_n100 stdExt [] (bus_of (List.replicate 64 0xff)) = .ok (mb, iface2) ∧
      dict_get mb "gpsdo" = .ok (lit "none")) ∧
    (∃ mb iface2, load_n100 stdExt [] (bus_of (List.replicate 0x17 0 ++ [2])) = .ok (mb, iface2) ∧
      dict_get mb "gpsdo" = .ok (lit "onboard")) := by
  refine ⟨?_, ?_⟩
  · obtain ⟨mb, iface2, hl, hg⟩ :=
      C12_gpsdo_decode stdExt [] (bus_of (List.replicate 64 0xff)) (fun _ => by decide)
    exact ⟨mb, iface2, hl, hg.trans (congrArg Except.ok (by decide))⟩
  · obtain ⟨mb, iface2, hl, hg⟩ :=
      C12_gpsdo_decode stdExt [] (bus_of (List.replicate 0x17 0 ++ [2])) (fun _ => by decide)
    exact ⟨mb, iface2, hl, hg.trans (congrArg Except.ok (by decide))⟩

/-- C13: for every string `s`, the commit of `{"gpsdo": s}` on N100 ends
without an exception and issues exactly one write, of one byte, at the
`"gpsdo"` offset `0x17`: 1 if `s` is `"internal"`, 2 if `"onboard"`, 0 (the
`"none"` byte) for every other `s`; after any commit that ends without an
exception on a dictionary holding `"gpsdo" = s`, that byte stands at `0x17`;
and loading after the commit returns `s` itself for the three labels and
`"none"` for every other `s`. -/
theorem C13_gpsdo_encode (E : Ext) (s : Str) (iface : i2c_iface) :
    (commit E [("gpsdo", s)] iface .MAP_N100).error = none ∧
    (commit E [("gpsdo", s)] iface .MAP_N100).iface.writes
      = iface.writes ++
        [(0x50, 0x17, [if s = lit "internal" then 1 else if s = lit "onboard" then 2 else 0])] ∧
    (∀ mb_eeprom, dict_get mb_eeprom "gpsdo" = .ok s →
      (commit E mb_eeprom iface .MAP_N100).error = none →
      (commit E mb_eeprom iface .MAP_N100).iface.mem 0x50 0x17
        = if s = lit "internal" then 1 else if s = lit "onboard" then 2 else 0) ∧
    (n100_mac_text_parses E iface →
      ∃ mb iface2,
        load E (commit E [("gpsdo", s)] iface .MAP_N100).iface .MAP_N100 = .ok (mb, iface2) ∧
        dict_get mb "gpsdo"
          = .ok (if s = lit "internal" ∨ s = lit "onboard" ∨ s = lit "none" then s
                 else lit "none")) := by
  refine ⟨?_, ?_, ?_, ?_⟩
  · rw [commit_only_gpsdo]
  · rw [commit_only_gpsdo]
    rfl
  · intro mb hg hok
    rw [commit_eq_store_fields] at hok ⊢
    have hpw : ((codecs E .MAP_N100).map Prod.fst).Pairwise ranges_disjoint := by
      rw [codecs_fields]
      exact declared_fields_disjoint _
    have h := store_fields_written mb 0x50 (codecs E .MAP_N100) hpw (codecs_bounded E .MAP_N100)
      iface hok (⟨"gpsdo", 0x17, 1⟩, encode_gpsdo) (by simp [codecs]) s _ hg (encode_gpsdo_eq s)
      0 (by simp)
    exact h
  · intro hmac
    rw [commit_only_gpsdo]
    obtain ⟨mb, iface2, hl, hg⟩ := load_n100_after_write E iface 0x17
      [if s = lit "internal" then 1 else if s = lit "onboard" then 2 else 0] hmac
      (Or.inr ⟨by decide, Nat.le_refl _⟩)
    refine ⟨mb, iface2, hl, ?_⟩
    rw [hg "gpsdo" (by decide), n100_get_gpsdo, ← gpsdo_label_of_byte]
    congr 2

/-- Witness of C13: an unknown label is stored as the byte 0 and loads as
`"none"`; `"onboard"` is stored as 2 and loads as itself. -/
theorem C13_gpsdo_encode_witness :
    (∃ mb iface2,
      load stdExt (commit stdExt [("gpsdo", lit "gps")] (bus_of []) .MAP_N100).iface .MAP_N100
        = .ok (mb, iface2) ∧
      dict_get mb "gpsdo" = .ok (lit "none")) ∧
    (∃ mb iface2,
      load stdExt (commit stdExt [("gpsdo", lit "onboard")] (bus_of []) .MAP_N100).iface .MAP_N100
        = .ok (mb, iface2) ∧
      dict_get mb "gpsdo" = .ok (lit "onboard")) := by
  refine ⟨?_, ?_⟩
  · obtain ⟨mb, iface2, hl, hg⟩ :=
      (C13_gpsdo_encode stdExt (lit "gps") (bus_of [])).2.2.2 (fun _ => by decide)
    exact ⟨mb, iface2, hl, hg.trans (congrArg Except.ok (by decide))⟩
  · obtain ⟨mb, iface2, hl, hg⟩ :=
      (C13_gpsdo_encode stdExt (lit "onboard") (bus_of [])).2.2.2 (fun _ => by decide)
    exact ⟨mb, iface2, hl, hg.trans (congrArg Except.ok (by decide))⟩

/-- C14: for every `v` in `0..65535` (the library parse being assumed to read
the decimal string of `v` as `v`): the commit of `{"rev": decimal(v)}` on N100
issues the single write `[v mod 256, v div 256]` at offset `0x00`, and a
following load returns `"rev" = decimal(v)`; the commit of
`{"product": decimal(v)}` issues that write at offset `0x14`, for every `v`
without any check of its value, and a following load returns `decimal(v)`
unless `v` is 0 or 65535, which load as the empty string; the commits of
`{"vendor": decimal(v)}` and `{"device": decimal(v)}` on E100 issue the single
write `[v div 256, v mod 256]` at offsets 0 and 2, and a following load
returns `decimal(v)`. (The N100 load returns whenever the address text parses
where the empty serial correction needs it.) -/
theorem C14_uint16_round_trip (E : Ext) (iface : i2c_iface) (v : Nat) (hv : v < 65536)
    (hparse : E.lexical_cast_uint16 (decimal v) = some v) :
    ((commit E [("rev", decimal v)] iface .MAP_N100).error = none ∧
      (commit E [("rev", decimal v)] iface .MAP_N100).iface.writes
        = iface.writes ++ [(0x50, 0x00, [v % 256, v / 256])] ∧
      (n100_mac_text_parses E iface →
        ∃ mb iface2,
          load E (commit E [("rev", decimal v)] iface .MAP_N100).iface .MAP_N100
            = .ok (mb, iface2) ∧
          dict_get mb "rev" = .ok (decimal v))) ∧
    ((commit E [("product", decimal v)] iface .MAP_N100).error = none ∧
      (commit E [("product", decimal v)] iface .MAP_N100).iface.writes
        = iface.writes ++ [(0x50, 0x14, [v % 256, v / 256])] ∧
      (n100_mac_text_parses E iface →
        ∃ mb iface2,
          load E (commit E [("product", decimal v)] iface .MAP_N100).iface .MAP_N100
            = .ok (mb, iface2) ∧
          dict_get mb "product" = .ok (if v = 0 ∨ v = 65535 then [] else decimal v))) ∧
    ((commit E [("vendor", decimal v)] iface .MAP_E100).error = none ∧
      (commit E [("vendor", decimal v)] iface .MAP_E100).iface.writes
        = iface.writes ++ [(0x51, 0, [v / 256, v % 256])] ∧
      ∃ mb iface2,
        load E (commit E [("vendor", decimal v)] iface .MAP_E100).iface .MAP_E100
          = .ok (mb, iface2) ∧
        dict_get mb "vendor" = .ok (decimal v)) ∧
    ((commit E [("device", decimal v)] iface .MAP_E100).error = none ∧
      (commit E [("device", decimal v)] iface .MAP_E100).iface.writes
        = iface.writes ++ [(0x51, 2, [v / 256, v % 256])] ∧
      ∃ mb iface2,
        load E (commit E [("device", decimal v)] iface .MAP_E100).iface .MAP_E100
          = .ok (mb, iface2) ∧
        dict_get mb "device" = .ok (decimal v)) := by
  refine ⟨?_, ?_, ?_, ?_⟩
  · rw [commit_only_rev E iface _ v hv hparse]
    refine ⟨rfl, rfl, ?_⟩
    intro hmac
    obtain ⟨mb, iface2, hl, hg⟩ := load_n100_after_write E iface 0 [v % 256, v / 256] hmac
      (Or.inl (by simp))
    refine ⟨mb, iface2, hl, ?_⟩
    rw [hg "rev" (by decide), n100_get_rev, n100_rev_after_write iface v hv]
  · rw [commit_only_product E iface _ v hv hparse]
    refine ⟨rfl, rfl, ?_⟩
    intro hmac
    obtain ⟨mb, iface2, hl, hg⟩ := load_n100_after_write E iface 0x14 [v % 256, v / 256] hmac
      (Or.inr ⟨by decide, by simp⟩)
    refine ⟨mb, iface2, hl, ?_⟩
    rw [hg "product" (by decide), n100_get_product, n100_prod_after_write iface v hv]
  · rw [commit_only_vendor E iface _ v hv hparse]
    refine ⟨rfl, rfl, _, _, load_e100_eq E [] _, ?_⟩
    rw [e100_get_vendor, e100_vendor_after_write E iface v hv]
  · rw [commit_only_device E iface _ v hv hparse]
    refine ⟨rfl, rfl, _, _, load_e100_eq E [] _, ?_⟩
    rw [e100_get_device, e100_device_after_write E iface v hv]

/-- Witness of C14: `v = 1000` on a blank N100 device: the bytes `e8 03` are
written at offset 0 and `"rev"` loads as `"1000"`. -/
theorem C14_uint16_round_trip_witness :
    (commit stdExt [("rev", lit "1000")] (bus_of (List.replicate 64 0xff)) .MAP_N100).iface.writes
      = [(0x50, 0x00, [0xe8, 0x03])] ∧
    ∃ mb iface2,
      load stdExt (commit stdExt [("rev", lit "1000")] (bus_of (List.replicate 64 0xff))
          .MAP_N100).iface .MAP_N100 = .ok (mb, iface2) ∧
      dict_get mb "rev" = .ok (lit "1000") :=
  ⟨(C14_uint16_round_trip stdExt (bus_of (List.replicate 64 0xff)) 1000 (by decide)
      (by decide)).1.2.1,
   (C14_uint16_round_trip stdExt (bus_of (List.replicate 64 0xff)) 1000 (by decide)
      (by decide)).1.2.2 (fun _ => by decide)⟩

/-- C15: for every container class and every byte buffer, `container::make`
returns an instance exactly when `deserialize`, called on the default instance
with that buffer, ends without an exception, and the instance returned is the
default instance as `deserialize` left it; when `deserialize` throws, `make`
throws the same exception and returns no instance, whatever state the
half-filled instance was in. -/
theorem C15_container_make {state error : Type} (shape : container_type state error)
    (data : byte_vector_t) :
    (∀ inst, container_make shape data = .ok inst ↔
      shape.deserialize shape.make data = (inst, none)) ∧
    (∀ e, container_make shape data = .error e ↔
      ∃ st, shape.deserialize shape.make data = (st, some e)) := by
  unfold container_make
  rcases h : shape.deserialize shape.make data with ⟨st, _ | e⟩
  · constructor
    · intro inst
      simp [h]
    · intro e
      simp [h]
  · constructor
    · intro inst
      simp [h]
    · intro e2
      simp [h]

/-- Witness of C15: on a truncated buffer the example container throws after
it has taken the first byte, and `make` returns the exception, not the
half-filled instance; on a full buffer `make` returns the filled instance. -/
theorem C15_container_make_witness :
    container_make two_byte_container [7] = .error "FormatError" ∧
    container_make two_byte_container [7, 9] = .ok (7, 9) :=
  ⟨((C15_container_make two_byte_container [7]).2 "FormatError").mpr ⟨(7, 0), rfl⟩,
   ((C15_container_make two_byte_container [7, 9]).1 (7, 9)).mpr rfl⟩

/-- C16: in each of the three variants the byte ranges `[offset, offset +
width)` of the declared fields are pairwise disjoint and end at or before 256;
the offsets are those of `USRP_N100_OFFSETS` and `USRP_B000_OFFSETS` and the
member offsets and sizes of `e100_eeprom_map`. -/
theorem C16_layout_invariant :
    (∀ map, (declared_fields map).Pairwise ranges_disjoint ∧
      ∀ f ∈ declared_fields map, f.offset + f.width ≤ 256) ∧
    declared_fields .MAP_N100
      = [⟨"rev", offset_at USRP_N100_OFFSETS "rev-lsb-msb", 2⟩,
         ⟨"product", offset_at USRP_N100_OFFSETS "prod-lsb-msb", 2⟩,
         ⟨"mac-addr", offset_at USRP_N100_OFFSETS "mac-addr", 6⟩,
         ⟨"ip-addr", offset_at USRP_N100_OFFSETS "ip-addr", 4⟩,
         ⟨"gpsdo", offset_at USRP_N100_OFFSETS "gpsdo", 1⟩,
         ⟨"serial", offset_at USRP_N100_OFFSETS "serial", SERIAL_LEN⟩,
         ⟨"name", offset_at USRP_N100_OFFSETS "name", NAME_MAX_LEN⟩] ∧
    declared_fields .MAP_B000
      = [⟨"serial", offset_at USRP_B000_OFFSETS "serial", B000_SERIAL_LEN⟩,
         ⟨"name", offset_at USRP_B000_OFFSETS "name", NAME_MAX_LEN⟩,
         ⟨"mcr", offset_at USRP_B000_OFFSETS "mcr", 4⟩] ∧
    declared_fields .MAP_E100
      = ["vendor", "device", "revision", "content", "model", "env_var", "env_setting", "serial",
          "name"].map fun key =>
          ⟨key, offsetof e100_eeprom_map key, sizeof_member e100_eeprom_map key⟩ := by
  refine ⟨?_, by decide, by decide, by decide⟩
  intro map
  cases map <;> decide

/-- C17: for every variant and every dictionary in which some numeric field
holds a string its parser rejects, `commit` stops with `bad_lexical_cast`. It
stops at a present numeric field `f` whose value is unparseable: the commit
has issued exactly one write for each present field before `f` in commit
order, each at its offset and inside its range, every one of those writes can
still be read from the device, and no write was issued for `f` or for any
field after it. -/
theorem C17_no_rollback (E : Ext) (map : map_type) (mb_eeprom : mboard_eeprom_t)
    (iface : i2c_iface) (k : String) (p : Str → Option Nat) (s : Str)
    (hnum : numeric_reader E map k = some p) (hget : dict_get mb_eeprom k = .ok s)
    (hbad : p s = none) :
    (commit E mb_eeprom iface map).error = some .bad_lexical_cast ∧
    ∃ pre f post ws,
      declared_fields map = pre ++ f :: post ∧
      (∃ q v, numeric_reader E map f.key = some q ∧ dict_get mb_eeprom f.key = .ok v ∧
        q v = none) ∧
      (commit E mb_eeprom iface map).iface.writes = iface.writes ++ ws ∧
      List.Forall₂ (write_fits (eeprom_addr map)) ws
        (pre.filter fun g => has_key mb_eeprom g.key) ∧
      ∀ w ∈ ws, ∀ i, i < w.2.2.length →
        (commit E mb_eeprom iface map).iface.mem w.1 (w.2.1 + i) = w.2.2.getD i 0 := by
  have hsplit : codecs E map
      = (codecs E map).take (numeric_span map) ++ (codecs E map).drop (numeric_span map) :=
    (List.take_append_drop _ _).symm
  obtain ⟨c0, hc0, hk0, he0⟩ := numeric_codec_fails E map k p s hnum hbad
  -- the run of the guarded statements cannot end without an exception
  have hfail : (store_fields mb_eeprom (eeprom_addr map)
      ((codecs E map).take (numeric_span map)) iface).error ≠ none := by
    intro hok
    obtain ⟨bytes, hb⟩ := store_fields_ok_all mb_eeprom (eeprom_addr map) _ iface hok c0 hc0 s
      (by rw [hk0]; exact hget)
    rw [he0] at hb
    cases hb
  obtain ⟨e, herr⟩ := Option.ne_none_iff_exists'.mp hfail
  obtain ⟨pre, c, post, v, hA, hg, he, hpre, hif⟩ :=
    store_fields_stop mb_eeprom (eeprom_addr map) _ iface e herr
  have hcA : c ∈ (codecs E map).take (numeric_span map) := by
    rw [hA]
    exact List.mem_append_right _ (List.mem_cons_self _ _)
  obtain ⟨hebad, q, hq, hqv⟩ := guarded_errors E map c hcA v e he
  subst hebad
  -- the whole run is the run of the guarded statements
  have hrun : commit E mb_eeprom iface map
      = ⟨(store_fields mb_eeprom (eeprom_addr map) pre iface).iface, some .bad_lexical_cast⟩ := by
    rw [commit_eq_store_fields, hsplit, store_fields_append, herr, hif]
  have hcs : codecs E map = pre ++ (c :: post ++ (codecs E map).drop (numeric_span map)) := by
    rw [← List.append_assoc, ← hA]
    exact hsplit
  obtain ⟨ws, hw, hfit, hstay⟩ := store_prefix_writes_stay E map mb_eeprom pre _ hcs iface hpre
  rw [hrun]
  refine ⟨rfl, pre.map Prod.fst, c.1,
    (post ++ (codecs E map).drop (numeric_span map)).map Prod.fst, ws, ?_, ⟨q, v, hq, hg, hqv⟩,
    hw, hfit, hstay⟩
  rw [← codecs_fields E map]
  conv_lhs => rw [hcs]
  simp

/-- Witness of C17: on N100, `{"rev": "5", "product": "abc", "name": "x"}`
stops with `bad_lexical_cast` after the single write of `"rev"`, which stays
on the device; nothing is written for `"product"` or `"name"`. -/
theorem C17_no_rollback_witness :
    (commit stdExt [("rev", lit "5"), ("product", lit "abc"), ("name", lit "x")] (bus_of [])
      .MAP_N100).error = some .bad_lexical_cast ∧
    (commit stdExt [("rev", lit "5"), ("product", lit "abc"), ("name", lit "x")] (bus_of [])
      .MAP_N100).iface.writes = [(0x50, 0x00, [5, 0])] ∧
    (commit stdExt [("rev", lit "5"), ("product", lit "abc"), ("name", lit "x")] (bus_of [])
      .MAP_N100).iface.mem 0x50 0 = 5 :=
  ⟨(C17_no_rollback stdExt .MAP_N100 [("rev", lit "5"), ("product", lit "abc"), ("name", lit "x")]
      (bus_of []) "product" stdExt.lexical_cast_uint16 (lit "abc") rfl rfl (by decide)).1,
   by decide, by decide⟩

/-- C18, as stated, fails for E100: the variant declares nine fields, and
`load_e100` issues six reads, the first of which fetches the six bytes of
`vendor`, `device`, `revision` and `content` in one call. -/
theorem C18_e100_load_issues_six_reads :
    ((load stdExt (bus_of []) .MAP_E100).toOption.map fun p => p.2.reads)
      = some [(0x51, 0, 6), (0x51, 6, 8), (0x51, 14, 16), (0x51, 30, 64), (0x51, 94, 10),
          (0x51, 104, 23)] ∧
    (declared_fields .MAP_E100).length = 9 := by
  decide

/-- C18, amended: on N100 and B000 `load` issues exactly one bus read per
declared field, with that field's offset and width (7 reads on N100, 3 on
B000); on E100 it issues 6 reads, one of 6 bytes at offset 0 for the four
numeric fields together and then one per string field, with that field's
offset and width. (On N100 the routine returns, and so has a read log to show,
whenever the address text parses where the empty serial correction needs
it.) -/
theorem C18_load_reads (E : Ext) (iface : i2c_iface) :
    (n100_mac_text_parses E iface →
      ∃ mb iface2, load E iface .MAP_N100 = .ok (mb, iface2) ∧
        iface2.reads = iface.reads ++
          (declared_fields .MAP_N100).map (fun f => (0x50, f.offset, f.width)) ∧
        iface2.reads.length = iface.reads.length + 7) ∧
    (∃ mb iface2, load E iface .MAP_B000 = .ok (mb, iface2) ∧
      iface2.reads = iface.reads ++
        (declared_fields .MAP_B000).map (fun f => (0x50, f.offset, f.width)) ∧
      iface2.reads.length = iface.reads.length + 3) ∧
    (∃ mb iface2, load E iface .MAP_E100 = .ok (mb, iface2) ∧
      iface2.reads = iface.reads ++ (0x51, 0, 6) ::
        ((declared_fields .MAP_E100).drop 4).map (fun f => (0x51, f.offset, f.width)) ∧
      iface2.reads.length = iface.reads.length + 6) := by
  refine ⟨?_, ?_, ?_⟩
  · intro hmac
    obtain ⟨mb, hl, _⟩ := load_n100_returns E [] iface hmac
    exact ⟨mb, _, hl, rfl, by simp [n100_reads]⟩
  · exact ⟨_, _, load_b000_eq E [] iface, rfl, by simp [b000_reads]⟩
  · exact ⟨_, _, load_e100_eq E [] iface, rfl, by simp [e100_reads]⟩

/-- Witness of C18 (amended): loading a blank N100 device issues the seven
reads of its seven fields. -/
theorem C18_load_reads_witness :
    ∃ mb iface2, load stdExt (bus_of (List.replicate 64 0xff)) .MAP_N100 = .ok (mb, iface2) ∧
      iface2.reads = [] ++
        (declared_fields .MAP_N100).map (fun f => (0x50, f.offset, f.width)) ∧
      iface2.reads.length = 0 + 7 :=
  (C18_load_reads stdExt (bus_of (List.replicate 64 0xff))).1 (fun _ => by decide)

/-- C19: load, commit, load again. For each of the three variants, on a device whose
stored values are bytes and with library routines that read back what they
printed (`library_round_trips`): if loading the device gives the dictionary `mb`
and committing `mb` unchanged to the same device ends without an exception,
then loading the device again returns, and the dictionary it returns is `mb`. -/
theorem C19_load_commit_load (E : Ext) (map : map_type) (iface : i2c_iface)
    (hbytes : ∀ o, iface.mem (eeprom_addr map) o < 256)
    (hlib : library_round_trips E iface map)
    (mb : mboard_eeprom_t) (iface1 : i2c_iface)
    (hload : load E iface map = .ok (mb, iface1))
    (hok : (commit E mb iface1 map).error = none) :
    ∃ iface2, load E (commit E mb iface1 map).iface map = .ok (mb, iface2) := by
  cases map with
  | MAP_N100 =>
    have hmac := hlib.2.2.2.1
    have h1 : load E iface .MAP_N100
        = .ok (n100_loaded E iface, { iface with reads := iface.reads ++ n100_reads }) :=
      load_n100_closed E iface hmac
    rw [h1] at hload
    obtain ⟨rfl, rfl⟩ := Prod.mk.inj (Except.ok.inj hload)
    have hre := n100_reload E iface hbytes hlib hok
    have wmac := commit_written E .MAP_N100 _ _ hok (⟨"mac-addr", 0x02, 6⟩, encode_mac_addr E)
      (by simp [codecs]) (E.mac_to_string (n100_mac iface)) (n100_mac iface).to_bytes rfl
      (by simp only [encode_mac_addr, hmac])
    generalize (commit E (n100_loaded E iface)
      { iface with reads := iface.reads ++ n100_reads } .MAP_N100).iface = iface2 at hre wmac ⊢
    have hmac2 : n100_mac iface2 = n100_mac iface := by
      have m2 : iface2.mem 0x50 2 = iface.mem 0x50 2 := wmac 0 (by simp [mac_addr_t.to_bytes])
      have m3 : iface2.mem 0x50 3 = iface.mem 0x50 3 := wmac 1 (by simp [mac_addr_t.to_bytes])
      have m4 : iface2.mem 0x50 4 = iface.mem 0x50 4 := wmac 2 (by simp [mac_addr_t.to_bytes])
      have m5 : iface2.mem 0x50 5 = iface.mem 0x50 5 := wmac 3 (by simp [mac_addr_t.to_bytes])
      have m6 : iface2.mem 0x50 6 = iface.mem 0x50 6 := wmac 4 (by simp [mac_addr_t.to_bytes])
      have m7 : iface2.mem 0x50 7 = iface.mem 0x50 7 := wmac 5 (by simp [mac_addr_t.to_bytes])
      unfold n100_mac
      rw [m2, m3, m4, m5, m6, m7]
    refine ⟨{ iface2 with reads := iface2.reads ++ n100_reads }, ?_⟩
    have h2 : load E iface2 .MAP_N100
        = .ok (n100_loaded E iface2, { iface2 with reads := iface2.reads ++ n100_reads }) :=
      load_n100_closed E iface2 (by rw [hmac2]; exact hmac)
    rw [h2, hre]
  | MAP_B000 =>
    have h1 : load E iface .MAP_B000
        = .ok (b000_loaded E [] iface, { iface with reads := iface.reads ++ b000_reads }) :=
      load_b000_eq E [] iface
    rw [h1] at hload
    obtain ⟨rfl, rfl⟩ := Prod.mk.inj (Except.ok.inj hload)
    have hre := b000_reload E iface hbytes hlib hok
    generalize (commit E (b000_loaded E [] iface)
      { iface with reads := iface.reads ++ b000_reads } .MAP_B000).iface = iface2 at hre ⊢
    refine ⟨{ iface2 with reads := iface2.reads ++ b000_reads }, ?_⟩
    have h2 : load E iface2 .MAP_B000
        = .ok (b000_loaded E [] iface2, { iface2 with reads := iface2.reads ++ b000_reads }) :=
      load_b000_eq E [] iface2
    rw [h2, hre]
  | MAP_E100 =>
    have h1 : load E iface .MAP_E100
        = .ok (e100_loaded E [] iface, { iface with reads := iface.reads ++ e100_reads }) :=
      load_e100_eq E [] iface
    rw [h1] at hload
    obtain ⟨rfl, rfl⟩ := Prod.mk.inj (Except.ok.inj hload)
    have hre := e100_reload E iface hbytes hlib hok
    generalize (commit E (e100_loaded E [] iface)
      { iface with reads := iface.reads ++ e100_reads } .MAP_E100).iface = iface2 at hre ⊢
    refine ⟨{ iface2 with reads := iface2.reads ++ e100_reads }, ?_⟩
    have h2 : load E iface2 .MAP_E100
        = .ok (e100_loaded E [] iface2, { iface2 with reads := iface2.reads ++ e100_reads }) :=
      load_e100_eq E [] iface2
    rw [h2, hre]

/-- Witness of C19 on the reference library: an N100 device that holds product code 1,
the address bytes `1` and `2` the empty serial correction reads, and zeros
elsewhere. The commit writes the corrected serial `"258"`, which the second
load reads back. -/
theorem C19_load_commit_load_witness :
    ∃ mb iface1,
      load stdExt (bus_of ([0, 0, 0, 0, 0, 0, 1, 2] ++ List.replicate 12 0 ++ [1])) .MAP_N100
        = .ok (mb, iface1) ∧
      dict_get mb "serial" = .ok (lit "258") ∧
      (commit stdExt mb iface1 .MAP_N100).error = none ∧
      ∃ iface2, load stdExt (commit stdExt mb iface1 .MAP_N100).iface .MAP_N100
        = .ok (mb, iface2) :=
  ⟨n100_loaded stdExt (bus_of ([0, 0, 0, 0, 0, 0, 1, 2] ++ List.replicate 12 0 ++ [1])),
    { bus_of ([0, 0, 0, 0, 0, 0, 1, 2] ++ List.replicate 12 0 ++ [1]) with
      reads := (bus_of ([0, 0, 0, 0, 0, 0, 1, 2] ++ List.replicate 12 0 ++ [1])).reads
        ++ n100_reads },
    load_n100_closed stdExt _ (by decide), by rfl, by decide,
    C19_load_commit_load stdExt .MAP_N100
      (bus_of ([0, 0, 0, 0, 0, 0, 1, 2] ++ List.replicate 12 0 ++ [1]))
      (fun o => bus_of_byte _ (by decide) _ o)
      ⟨by decide, by decide, by decide, by decide, by decide⟩ _ _
      (load_n100_closed stdExt _ (by decide)) (by decide)⟩

end uhd
